import Mathlib

/-!
# Pintos user-program system calls (`src/userprog/syscall.c`)

A shallow embedding of the system-call layer: the memory guard
(`check_num32`, `check_str`, `get_user`, `put_user`), the dispatcher
(`syscall_handler`) and the request handlers (`sys_exit`, `sys_exec`,
`sys_wait`, `sys_create`, ..., `sys_close`).

Kernel code is a state transformer on a `World`; a call either returns,
terminates the process, halts the machine, trips a kernel assertion, puts the
thread to sleep, or runs out of loop fuel (`Outcome`).  Every externally visible
step is also appended to a ghost `trace`.
-/

namespace Pintos

/-! ## Machine words -/

/-- Conversion of a C `int` to `uint32_t`. -/
def to_u32 (i : Int) : Nat := (i % 4294967296).toNat

/-- Conversion of a `uint32_t` to a C `int` (two's complement). -/
def to_int32 (n : Nat) : Int :=
  if n % 4294967296 < 2147483648 then ((n % 4294967296 : Nat) : Int)
  else ((n % 4294967296 : Nat) : Int) - 4294967296

/-- Pointer arithmetic on a 32-bit machine: `p + i` on byte pointers. -/
def padd (p i : Nat) : Nat := (p + i) % 4294967296

/-! ## Data model -/

/-- Descriptor entry `struct file_info`: a descriptor and its open-file handle. -/
structure file_info where
  fd : Int
  file : Nat
deriving DecidableEq, Repr

/-- Child status record `struct child_status`: the child's pid, the exit status
slot, the reference to the child thread (`none` is `NULL`) and the value of the
completion semaphore. -/
structure child_status where
  pid : Int
  exit_status : Int
  child : Option Int
  sema : Nat
deriving DecidableEq, Repr

/-- Process record `struct process` (only the members `syscall.c` touches), with
the process's view of memory: `pagedir a` is the byte a read of address `a`
yields (`none`: the access faults) and `writable a` says whether a store to a
mapped address `a` succeeds. -/
structure process where
  process_name : String
  elf_file : Nat
  fd_list : List file_info
  next_fd : Int
  pagedir : Nat → Option Nat
  writable : Nat → Bool

/-- Execution context `struct thread` (only the members `syscall.c` touches). -/
structure thread where
  tid : Int
  parent : Option Int
  child_exit_status : List child_status
  chile_sema : Nat
  pcb : process

/-- Ghost record of the externally visible steps of kernel code. -/
inductive Event where
  | get_user (uaddr : Nat)
  | put_user (udst : Nat) (byte : Nat) (ok : Bool)
  | printf_exit (name : String) (status : Int)
  | printf_str (bytes : List Nat)
  | orphan (child : Int)
  | publish (parent : Int) (pid : Int) (status : Int)
  | sema_up (owner : Int) (pid : Int)
  | sema_down (owner : Int) (pid : Int)
  | sema_down_chile (owner : Int)
  | lock_acquire (t : Int)
  | lock_release (t : Int)
  | filesys_create (name : Nat) (size : Nat)
  | filesys_remove (name : Nat)
  | filesys_open (name : Nat)
  | file_length (file : Nat)
  | file_read (file : Nat) (size : Nat)
  | file_write (file : Nat) (buffer : Nat) (size : Nat)
  | file_seek (file : Nat) (pos : Nat)
  | file_tell (file : Nat)
  | file_close (file : Nat)
  | process_execute (cmd_line : Nat)
  | process_exit (t : Int)
  | shutdown_power_off
deriving DecidableEq, Repr

/-- Kernel state: the threads (indexed by tid), the running thread, the holder
of `sys_file_lock`, the state of the storage engine and the ghost trace. -/
structure World (σ : Type) where
  threads : Int → thread
  cur : Int
  lock : Option Int
  fs : σ
  trace : List Event

/-- Result of running kernel code. -/
inductive Outcome (σ : Type) (α : Type) where
  | ret (a : α) (w : World σ)
  | exited (status : Int) (w : World σ)
  | halted (w : World σ)
  | panic (w : World σ)
  | blocked (w : World σ)
  | diverge

/-- Kernel computations. -/
def K (σ : Type) (α : Type) : Type := World σ → Outcome σ α

/-- Sequencing of an outcome with the rest of the code: only `ret` continues. -/
def Outcome.bind {σ α β : Type} (o : Outcome σ α) (f : α → K σ β) : Outcome σ β :=
  match o with
  | .ret a w => f a w
  | .exited s w => .exited s w
  | .halted w => .halted w
  | .panic w => .panic w
  | .blocked w => .blocked w
  | .diverge => .diverge

instance (σ : Type) : Monad (K σ) where
  pure a := fun w => Outcome.ret a w
  bind m f := fun w => (m w).bind f

/-- Whether control came back to the caller. -/
def Outcome.returned {σ α : Type} : Outcome σ α → Bool
  | .ret _ _ => true
  | _ => false

/-- Change of result type of an outcome that did not return. -/
def Outcome.cast {σ α β : Type} (o : Outcome σ α) : Outcome σ β :=
  o.bind (fun _ _ => Outcome.diverge)

/-- Everything `syscall.c` links against that is not in the file: the address
of the kernel/user split, `TID_ERROR`, the request numbers of `syscall-nr.h`,
the storage engine (`filesys_*`, `file_*`, acting on its own state, with user
memory passed where the engine reads a user pointer) and the process-creation
service. -/
structure Kernel (σ : Type) where
  PHYS_BASE : Nat
  TID_ERROR : Int
  SYS_HALT : Nat
  SYS_EXIT : Nat
  SYS_EXEC : Nat
  SYS_WAIT : Nat
  SYS_CREATE : Nat
  SYS_REMOVE : Nat
  SYS_OPEN : Nat
  SYS_FILESIZE : Nat
  SYS_READ : Nat
  SYS_WRITE : Nat
  SYS_SEEK : Nat
  SYS_TELL : Nat
  SYS_CLOSE : Nat
  SYS_PRACTICE : Nat
  filesys_create : σ → (Nat → Option Nat) → Nat → Nat → σ × Bool
  filesys_remove : σ → (Nat → Option Nat) → Nat → σ × Bool
  filesys_open : σ → (Nat → Option Nat) → Nat → σ × Option Nat
  file_length : σ → Nat → Int
  file_read : σ → Nat → Nat → σ × List Nat
  file_write : σ → (Nat → Option Nat) → Nat → Nat → Nat → σ × Int
  file_seek : σ → Nat → Nat → σ
  file_tell : σ → Nat → Nat
  file_close : σ → Nat → σ
  process_execute : World σ → Nat → World σ × Int

section Primitives

variable {σ : Type}

/-- Pointwise update of a table. -/
def upd {α : Type} (f : Int → α) (i : Int) (v : α) : Int → α :=
  fun j => if j = i then v else f j

/-- The running thread, `thread_current()`. -/
def World.me (w : World σ) : thread := w.threads w.cur

/-- Appends an event to the ghost trace. -/
def World.log (w : World σ) (e : Event) : World σ :=
  { w with trace := w.trace ++ [e] }

/-- Replaces the thread record of `t`. -/
def World.set_thread (w : World σ) (t : Int) (th : thread) : World σ :=
  { w with threads := upd w.threads t th }

/-- Replaces the process record of thread `t`. -/
def World.set_pcb (w : World σ) (t : Int) (p : process) : World σ :=
  w.set_thread t { w.threads t with pcb := p }

/-- Records an event. -/
def emit (e : Event) : K σ Unit := fun w => .ret () (w.log e)

/-- Reads the state. -/
def get_world : K σ (World σ) := fun w => .ret w w

/-- Replaces the state. -/
def set_world (w : World σ) : K σ Unit := fun _ => .ret () w

/-- A failed kernel assertion or a kernel-mode fault. -/
def kernel_panic {α : Type} : K σ α := fun w => .panic w

/-- Modelled from the spec: descriptor lookup `get_fd` (declared outside
`syscall.c`), a linear scan of the process's entries for the first one with
descriptor `fd`. -/
def get_fd (p : process) (fd : Int) : Option file_info :=
  p.fd_list.find? (fun e => decide (e.fd = fd))

/-- Modelled from the spec: child-record lookup `get_child` (declared outside
`syscall.c`), a scan of the thread's child status records for the first one
with the given pid. -/
def get_child (t : thread) (pid : Int) : Option child_status :=
  t.child_exit_status.find? (fun c => decide (c.pid = pid))

/-- In-place update of the record `get_child` finds (the first with that pid). -/
def set_child (l : List child_status) (pid : Int) (f : child_status → child_status) :
    List child_status :=
  match l with
  | [] => []
  | c :: cs => if c.pid = pid then f c :: cs else c :: set_child cs pid f

/-- Unlinks the record `get_child` finds, `list_remove (&cs->elem)`. -/
def remove_child (l : List child_status) (pid : Int) : List child_status :=
  l.eraseP (fun c => decide (c.pid = pid))

/-- Unlinks the entry `get_fd` finds, `list_remove (&f_info->elem)`. -/
def remove_fd (l : List file_info) (fd : Int) : List file_info :=
  l.eraseP (fun e => decide (e.fd = fd))

/-- Modelled from the spec: the serialization lock (`threads/synch.c` is not
among the sources).  Acquiring a free lock takes it; acquiring a lock held by
another thread puts the caller to sleep; acquiring a lock the caller already
holds trips the assertion of `lock_acquire`. -/
def lock_acquire : K σ Unit := fun w =>
  match w.lock with
  | none => .ret () ({ w with lock := some w.cur }.log (.lock_acquire w.cur))
  | some h => if h = w.cur then .panic w else .blocked w

/-- Modelled from the spec: release of the serialization lock; releasing a lock
the caller does not hold trips the assertion of `lock_release`. -/
def lock_release : K σ Unit := fun w =>
  if w.lock = some w.cur then .ret () ({ w with lock := none }.log (.lock_release w.cur))
  else .panic w

/-- Fault-tolerant read probe `get_user`: the byte at `uaddr`, or `-1` when
the access faults. -/
def get_user (uaddr : Nat) : K σ Int := fun w =>
  .ret (match w.me.pcb.pagedir uaddr with
        | none => -1
        | some b => ((b % 256 : Nat) : Int)) (w.log (.get_user uaddr))

/-- Fault-tolerant write probe `put_user`: stores `byte` at `udst` and returns
true, or returns false when the access faults. -/
def put_user (udst : Nat) (byte : Nat) : K σ Bool := fun w =>
  let p := w.me.pcb
  if (p.pagedir udst).isSome && p.writable udst then
    .ret true ((w.set_pcb w.cur
      { p with pagedir := fun a => if a = udst then some (byte % 256) else p.pagedir a }).log
        (.put_user udst (byte % 256) true))
  else .ret false (w.log (.put_user udst (byte % 256) false))

/-- Modelled from the spec: `sema_down (&t->chile_sema)`, the spawn handshake
semaphore of thread `t` (`threads/synch.c` is not among the sources).  A zero
semaphore puts the caller to sleep. -/
def sema_down_chile (t : Int) : K σ Unit := fun w =>
  if (w.threads t).chile_sema = 0 then .blocked w
  else .ret () ((w.set_thread t
    { w.threads t with chile_sema := (w.threads t).chile_sema - 1 }).log (.sema_down_chile t))

/-- Modelled from the spec: `sema_down (&cs->sema)` on the record for `pid` in
the child list of thread `owner`.  A zero semaphore puts the caller to sleep. -/
def sema_down_child (owner : Int) (pid : Int) : K σ Unit := fun w =>
  match get_child (w.threads owner) pid with
  | none => .panic w
  | some cs =>
    if cs.sema = 0 then .blocked w
    else .ret () ((w.set_thread owner
      { w.threads owner with
        child_exit_status := set_child (w.threads owner).child_exit_status pid
          (fun c => { c with sema := c.sema - 1 }) }).log (.sema_down owner pid))

/-- Modelled from the spec: `process_exit ()`, which ends the execution context
and does not return (`userprog/process.c` is not among the sources).  The
outcome carries the status `sys_exit` was called with. -/
def process_exit (status : Int) : K σ Unit := fun w =>
  .exited status (w.log (.process_exit w.cur))

/-- Modelled from the spec: `shutdown_power_off ()`, which does not return. -/
def shutdown_power_off : K σ Unit := fun w => .halted (w.log .shutdown_power_off)

/-- Call of `file_close` into the storage engine. -/
def file_close (E : Kernel σ) (file : Nat) : K σ Unit := fun w =>
  .ret () ({ w with fs := E.file_close w.fs file }.log (.file_close file))

/-- First loop of `sys_exit`: for every record of the exiting thread `t`, clear
the parent reference of the child it points to (`cs->child->parent = NULL`, a
kernel fault when `cs->child` is `NULL`), unlink the record and free it. -/
def orphan_children (t : Int) : List child_status → K σ Unit
  | [] => pure ()
  | cs :: rest => fun w =>
    match cs.child with
    | none => .panic w
    | some c =>
      let w1 := (w.set_thread c { w.threads c with parent := none }).log (.orphan c)
      orphan_children t rest
        (w1.set_thread t { w1.threads t with child_exit_status := rest })

/-- Second step of `sys_exit`: when the parent reference is set, store the
status in the parent's record for this thread, clear the record's child
reference and signal its semaphore. -/
def notify_parent (t : Int) (status : Int) : K σ Unit := fun w =>
  match (w.threads t).parent with
  | none => .ret () w
  | some p =>
    match get_child (w.threads p) (w.threads t).tid with
    | none => .panic w
    | some _ =>
      .ret () (((w.set_thread p
        { w.threads p with
          child_exit_status := set_child (w.threads p).child_exit_status (w.threads t).tid
            (fun c => { c with exit_status := status, child := none, sema := c.sema + 1 }) }).log
          (.publish p (w.threads t).tid status)).log (.sema_up p (w.threads t).tid))

/-- Last loop of `sys_exit`: unlink every descriptor entry of thread `t`, close
its handle and free it. -/
def close_all (E : Kernel σ) (t : Int) : List file_info → K σ Unit
  | [] => pure ()
  | f_info :: rest => fun w =>
    (file_close E f_info.file >>= fun _ => close_all E t rest)
      (w.set_pcb t { (w.threads t).pcb with fd_list := rest })

/-- Handler `sys_exit`. -/
def sys_exit (E : Kernel σ) (status : Int) : K σ Unit := do
  let w ← get_world
  let t := w.cur
  emit (.printf_exit (w.threads t).pcb.process_name status)
  orphan_children t (w.threads t).child_exit_status
  notify_parent t status
  lock_acquire
  let w1 ← get_world
  file_close E (w1.threads t).pcb.elf_file
  let w2 ← get_world
  close_all E t (w2.threads t).pcb.fd_list
  lock_release
  process_exit status

/-- Loop of `check_num32`: probes bytes `ptr + i`, ..., `ptr + 3`; false stands
for the jump to the `exit` label. -/
def check_num32_loop (E : Kernel σ) (ptr : Nat) : Nat → Nat → K σ Bool
  | 0, _ => pure true
  | n + 1, i =>
    if padd ptr i ≥ E.PHYS_BASE then pure false
    else do
      let v ← get_user (padd ptr i)
      if v = -1 then pure false
      else check_num32_loop E ptr n (i + 1)

/-- Word validation `check_num32`. -/
def check_num32 (E : Kernel σ) (ptr : Nat) : K σ Unit := do
  let ok ← check_num32_loop E ptr 4 0
  if ok then pure () else sys_exit E (-1)

/-- Loop of `check_str` with an iteration budget; false stands for the jump to
the `exit` label, and an exhausted budget is reported as `diverge`. -/
def check_str_loop (E : Kernel σ) : Nat → Nat → K σ Bool
  | 0, _ => fun _ => .diverge
  | fuel + 1, ptr =>
    if ptr ≥ E.PHYS_BASE then pure false
    else do
      let val ← get_user ptr
      if val = -1 then pure false
      else if val = 0 then pure true
      else check_str_loop E fuel (padd ptr 1)

/-- String validation `check_str`; the loop budget is the size of the address
space plus one. -/
def check_str (E : Kernel σ) (ptr : Nat) : K σ Unit := do
  let ok ← check_str_loop E 4294967297 ptr
  if ok then pure () else sys_exit E (-1)

/-- Bytes of the NUL-terminated string at `p`, as `printf ("%s", p)` and
`strlen (p)` scan it; `none` when the scan faults or exhausts its budget. -/
def cstring (mem : Nat → Option Nat) : Nat → Nat → Option (List Nat)
  | 0, _ => none
  | fuel + 1, p =>
    match mem p with
    | none => none
    | some b =>
      if b % 256 = 0 then some []
      else (cstring mem fuel (padd p 1)).map (fun s => (b % 256) :: s)

/-- Little-endian 32-bit word at `p`, as the kernel reads `args[k]`; `none`
when a byte is not mapped. -/
def load_u32 (mem : Nat → Option Nat) (p : Nat) : Option Nat :=
  match mem p, mem (padd p 1), mem (padd p 2), mem (padd p 3) with
  | some b0, some b1, some b2, some b3 =>
    some (b0 % 256 + 256 * (b1 % 256) + 65536 * (b2 % 256) + 16777216 * (b3 % 256))
  | _, _, _, _ => none

/-- Read of `args[k]` through the stack pointer `args`. -/
def arg (args : Nat) (k : Nat) : K σ Nat := fun w =>
  match load_u32 w.me.pcb.pagedir (padd args (4 * k)) with
  | none => .panic w
  | some v => .ret v w

/-- Handler `sys_practice`. -/
def sys_practice (i : Int) : Int := to_int32 (to_u32 (i + 1))

/-- Handler `sys_halt`. -/
def sys_halt : K σ Unit := shutdown_power_off

/-- Call of the process-creation service `process_execute`. -/
def process_execute (E : Kernel σ) (cmd_line : Nat) : K σ Int := fun w =>
  .ret (E.process_execute w cmd_line).2 ((E.process_execute w cmd_line).1.log
    (.process_execute cmd_line))

/-- Handler `sys_exec`. -/
def sys_exec (E : Kernel σ) (cmd_line : Nat) : K σ Int := do
  let w ← get_world
  let t := w.cur
  let pid ← process_execute E cmd_line
  if pid = E.TID_ERROR then pure (-1)
  else do
    sema_down_chile t
    let w1 ← get_world
    match get_child (w1.threads t) pid with
    | none => kernel_panic
    | some cs =>
      if cs.exit_status = -1 then do
        set_world (w1.set_thread t
          { w1.threads t with
            child_exit_status := remove_child (w1.threads t).child_exit_status pid })
        pure (-1)
      else pure pid

/-- Handler `sys_wait`. -/
def sys_wait (pid : Int) : K σ Int := do
  let w ← get_world
  let t := w.cur
  match get_child (w.threads t) pid with
  | none => pure (-1)
  | some _ => do
    sema_down_child t pid
    let w1 ← get_world
    match get_child (w1.threads t) pid with
    | none => kernel_panic
    | some cs => do
      set_world (w1.set_thread t
        { w1.threads t with
          child_exit_status := remove_child (w1.threads t).child_exit_status pid })
      pure cs.exit_status

/-- Call of `filesys_create` into the storage engine. -/
def filesys_create (E : Kernel σ) (file : Nat) (initial_size : Nat) : K σ Bool := fun w =>
  .ret (E.filesys_create w.fs w.me.pcb.pagedir file initial_size).2
    ({ w with fs := (E.filesys_create w.fs w.me.pcb.pagedir file initial_size).1 }.log
      (.filesys_create file initial_size))

/-- Call of `filesys_remove` into the storage engine. -/
def filesys_remove (E : Kernel σ) (file : Nat) : K σ Bool := fun w =>
  .ret (E.filesys_remove w.fs w.me.pcb.pagedir file).2
    ({ w with fs := (E.filesys_remove w.fs w.me.pcb.pagedir file).1 }.log
      (.filesys_remove file))

/-- Call of `filesys_open` into the storage engine. -/
def filesys_open (E : Kernel σ) (file : Nat) : K σ (Option Nat) := fun w =>
  .ret (E.filesys_open w.fs w.me.pcb.pagedir file).2
    ({ w with fs := (E.filesys_open w.fs w.me.pcb.pagedir file).1 }.log (.filesys_open file))

/-- Call of `file_length` into the storage engine. -/
def file_length (E : Kernel σ) (file : Nat) : K σ Int := fun w =>
  .ret (E.file_length w.fs file) (w.log (.file_length file))

/-- Call of `file_read` into the storage engine; the result is the bytes the
engine stored in the kernel buffer, `read_size` of them. -/
def file_read (E : Kernel σ) (file : Nat) (size : Nat) : K σ (List Nat) := fun w =>
  .ret (E.file_read w.fs file size).2
    ({ w with fs := (E.file_read w.fs file size).1 }.log (.file_read file size))

/-- Call of `file_write` into the storage engine. -/
def file_write (E : Kernel σ) (file : Nat) (buffer : Nat) (size : Nat) : K σ Int := fun w =>
  .ret (E.file_write w.fs w.me.pcb.pagedir file buffer size).2
    ({ w with fs := (E.file_write w.fs w.me.pcb.pagedir file buffer size).1 }.log
      (.file_write file buffer size))

/-- Call of `file_seek` into the storage engine. -/
def file_seek (E : Kernel σ) (file : Nat) (position : Nat) : K σ Unit := fun w =>
  .ret () ({ w with fs := E.file_seek w.fs file position }.log (.file_seek file position))

/-- Call of `file_tell` into the storage engine. -/
def file_tell (E : Kernel σ) (file : Nat) : K σ Nat := fun w =>
  .ret (E.file_tell w.fs file) (w.log (.file_tell file))

/-- Handler `sys_create`. -/
def sys_create (E : Kernel σ) (file : Nat) (initial_size : Nat) : K σ Int := do
  check_str E file
  lock_acquire
  let r ← filesys_create E file initial_size
  lock_release
  pure (if r then 1 else 0)

/-- Handler `sys_remove`. -/
def sys_remove (E : Kernel σ) (file : Nat) : K σ Int := do
  check_str E file
  lock_acquire
  let r ← filesys_remove E file
  lock_release
  pure (if r then 1 else 0)

/-- Handler `sys_open`. -/
def sys_open (E : Kernel σ) (file : Nat) : K σ Int := do
  check_str E file
  let w ← get_world
  let t := w.cur
  lock_acquire
  let f ← filesys_open E file
  match f with
  | none => do
    lock_release
    pure (-1)
  | some h => do
    let w1 ← get_world
    let p := (w1.threads t).pcb
    let fd := p.next_fd
    set_world (w1.set_pcb t
      { p with next_fd := to_int32 (to_u32 (p.next_fd + 1)),
               fd_list := { fd := fd, file := h } :: p.fd_list })
    lock_release
    pure fd

/-- Handler `sys_filesize`. -/
def sys_filesize (E : Kernel σ) (fd : Int) : K σ Int := do
  let w ← get_world
  match get_fd w.me.pcb fd with
  | none => pure (-1)
  | some f_info => do
    lock_acquire
    let result ← file_length E f_info.file
    lock_release
    pure result

/-- Copy-out loop of `sys_read`: stores the bytes read at `buffer + i`,
`buffer + i + 1`, ...; false stands for the early `return -1`. -/
def copy_out (buffer : Nat) : Nat → List Nat → K σ Bool
  | _, [] => pure true
  | i, b :: bs => do
    let ok ← put_user (padd buffer i) b
    if ok then copy_out buffer (i + 1) bs else pure false

/-- Handler `sys_read`. -/
def sys_read (E : Kernel σ) (fd : Int) (buffer : Nat) (size : Nat) : K σ Int := do
  check_str E buffer
  let w ← get_world
  match get_fd w.me.pcb fd with
  | none => pure (-1)
  | some f_info => do
    lock_acquire
    let tem_buf ← file_read E f_info.file size
    lock_release
    let ok ← copy_out buffer 0 tem_buf
    if ok then pure (tem_buf.length : Int) else pure (-1)

/-- Handler `sys_write`. -/
def sys_write (E : Kernel σ) (fd : Int) (buffer : Nat) (size : Nat) : K σ Int := do
  check_str E buffer
  (if fd = 0 then sys_exit E (-1) else pure ())
  if fd = 1 then do
    let w ← get_world
    match cstring w.me.pcb.pagedir 4294967296 buffer with
    | none => kernel_panic
    | some s => do
      emit (.printf_str s)
      pure (to_int32 s.length)
  else do
    let w ← get_world
    match get_fd w.me.pcb fd with
    | none => pure (-1)
    | some f_info => do
      lock_acquire
      let write_size ← file_write E f_info.file buffer size
      lock_release
      pure write_size

/-- Handler `sys_seek`; the function is `void`, so the value of its
`return -1` is dropped. -/
def sys_seek (E : Kernel σ) (fd : Int) (position : Nat) : K σ Unit := do
  let w ← get_world
  match get_fd w.me.pcb fd with
  | none => pure ()
  | some f_info => do
    lock_acquire
    file_seek E f_info.file position
    lock_release

/-- Handler `sys_tell`; the result type is `unsigned`. -/
def sys_tell (E : Kernel σ) (fd : Int) : K σ Nat := do
  let w ← get_world
  match get_fd w.me.pcb fd with
  | none => pure (to_u32 (-1))
  | some f_info => do
    lock_acquire
    let result ← file_tell E f_info.file
    lock_release
    pure result

/-- Handler `sys_close`; the function is `void`, so the value of its
`return -1` is dropped. -/
def sys_close (E : Kernel σ) (fd : Int) : K σ Unit := do
  let w ← get_world
  let t := w.cur
  match get_fd w.me.pcb fd with
  | none => pure ()
  | some f_info => do
    lock_acquire
    file_close E f_info.file
    lock_release
    let w1 ← get_world
    set_world (w1.set_pcb t
      { (w1.threads t).pcb with fd_list := remove_fd (w1.threads t).pcb.fd_list fd })

/-- Saved register frame `struct intr_frame`: the user stack pointer and the
result slot. -/
structure intr_frame where
  esp : Nat
  eax : Nat
deriving DecidableEq, Repr

/-- First `switch` of `syscall_handler` (process control requests). -/
def syscall_control (E : Kernel σ) (f : intr_frame) (a0 : Nat) : K σ intr_frame :=
  let args := f.esp
  if a0 = E.SYS_PRACTICE then do
    check_num32 E (padd args 4)
    let a1 ← arg args 1
    pure { f with eax := to_u32 (sys_practice (to_int32 a1)) }
  else if a0 = E.SYS_HALT then do
    sys_halt
    pure f
  else if a0 = E.SYS_EXIT then do
    check_num32 E (padd args 4)
    let a1 ← arg args 1
    sys_exit E (to_int32 a1)
    pure f
  else if a0 = E.SYS_EXEC then do
    check_num32 E (padd args 4)
    let a1 ← arg args 1
    check_str E a1
    let a1 ← arg args 1
    let r ← sys_exec E a1
    pure { f with eax := to_u32 r }
  else if a0 = E.SYS_WAIT then do
    check_num32 E (padd args 4)
    let a1 ← arg args 1
    let r ← sys_wait (to_int32 a1)
    pure { f with eax := to_u32 r }
  else pure f

/-- Second `switch` of `syscall_handler` (file operation requests). -/
def syscall_file (E : Kernel σ) (f : intr_frame) (a0 : Nat) : K σ intr_frame :=
  let args := f.esp
  if a0 = E.SYS_CREATE then do
    check_num32 E (padd args 4)
    check_num32 E (padd args 8)
    let a1 ← arg args 1
    let a2 ← arg args 2
    let r ← sys_create E a1 a2
    pure { f with eax := to_u32 r }
  else if a0 = E.SYS_REMOVE then do
    check_num32 E (padd args 4)
    let a1 ← arg args 1
    let r ← sys_remove E a1
    pure { f with eax := to_u32 r }
  else if a0 = E.SYS_OPEN then do
    check_num32 E (padd args 4)
    let a1 ← arg args 1
    let r ← sys_open E a1
    pure { f with eax := to_u32 r }
  else if a0 = E.SYS_READ then do
    check_num32 E (padd args 4)
    check_num32 E (padd args 8)
    check_num32 E (padd args 12)
    let a1 ← arg args 1
    let a2 ← arg args 2
    let a3 ← arg args 3
    let r ← sys_read E (to_int32 a1) a2 a3
    pure { f with eax := to_u32 r }
  else if a0 = E.SYS_FILESIZE then do
    check_num32 E (padd args 4)
    let a1 ← arg args 1
    let r ← sys_filesize E (to_int32 a1)
    pure { f with eax := to_u32 r }
  else if a0 = E.SYS_WRITE then do
    check_num32 E (padd args 4)
    check_num32 E (padd args 8)
    check_num32 E (padd args 12)
    let a1 ← arg args 1
    let a2 ← arg args 2
    let a3 ← arg args 3
    let r ← sys_write E (to_int32 a1) a2 a3
    pure { f with eax := to_u32 r }
  else if a0 = E.SYS_SEEK then do
    check_num32 E (padd args 4)
    check_num32 E (padd args 8)
    let a1 ← arg args 1
    let a2 ← arg args 2
    sys_seek E (to_int32 a1) a2
    pure f
  else if a0 = E.SYS_TELL then do
    check_num32 E (padd args 4)
    let a1 ← arg args 1
    let r ← sys_tell E (to_int32 a1)
    pure { f with eax := r % 4294967296 }
  else if a0 = E.SYS_CLOSE then do
    check_num32 E (padd args 4)
    let a1 ← arg args 1
    sys_close E (to_int32 a1)
    pure f
  else pure f

/-- Dispatcher `syscall_handler`: validates `args[0]`, then runs the two
`switch` statements one after the other, each on a fresh read of `args[0]`. -/
def syscall_handler (E : Kernel σ) (f : intr_frame) : K σ intr_frame := do
  let args := f.esp
  check_num32 E args
  let a0 ← arg args 0
  let f1 ← syscall_control E f a0
  let a0 ← arg args 0
  syscall_file E f1 a0

/-! ## Specification vocabulary -/

/-- Appends a list of events to the ghost trace. -/
def World.logs (w : World σ) (es : List Event) : World σ :=
  { w with trace := w.trace ++ es }

/-- Byte address `a` is strictly below `PHYS_BASE` and mapped for the running
process (`get_user` does not report `-1` there). -/
def byte_ok (E : Kernel σ) (w : World σ) (a : Nat) : Prop :=
  a < E.PHYS_BASE ∧ (w.me.pcb.pagedir a).isSome = true

instance (E : Kernel σ) (w : World σ) (a : Nat) : Decidable (byte_ok E w a) :=
  inferInstanceAs (Decidable (a < E.PHYS_BASE ∧ (w.me.pcb.pagedir a).isSome = true))

/-- The four byte addresses `p`, `p + 1`, `p + 2`, `p + 3` are below `PHYS_BASE`
and mapped. -/
def word_ok (E : Kernel σ) (w : World σ) (p : Nat) : Prop :=
  byte_ok E w p ∧ byte_ok E w (p + 1) ∧ byte_ok E w (p + 2) ∧ byte_ok E w (p + 3)

instance (E : Kernel σ) (w : World σ) (p : Nat) : Decidable (word_ok E w p) :=
  inferInstanceAs (Decidable
    (byte_ok E w p ∧ byte_ok E w (p + 1) ∧ byte_ok E w (p + 2) ∧ byte_ok E w (p + 3)))

/-- The byte value stored at address `a`, when mapped. -/
def byte_at (w : World σ) (a : Nat) : Option Nat :=
  (w.me.pcb.pagedir a).map (fun b => b % 256)

/-- The bytes `p .. p+n` are below `PHYS_BASE` and mapped, the bytes
`p .. p+n-1` are non-zero and the byte at `p + n` is the first NUL. -/
def str_ok (E : Kernel σ) (w : World σ) (p : Nat) (n : Nat) : Prop :=
  (∀ j, j ≤ n → byte_ok E w (p + j)) ∧
  (∀ j, j < n → byte_at w (p + j) ≠ some 0) ∧
  byte_at w (p + n) = some 0

instance (E : Kernel σ) (w : World σ) (p n : Nat) : Decidable (str_ok E w p n) :=
  inferInstanceAs (Decidable
    ((∀ j, j ≤ n → byte_ok E w (p + j)) ∧
     (∀ j, j < n → byte_at w (p + j) ≠ some 0) ∧
     byte_at w (p + n) = some 0))

/-- The read probes of the `count` consecutive bytes `p`, `p + 1`, ... in
ascending order. -/
def probes (p : Nat) (count : Nat) : List Event :=
  (List.range count).map (fun j => Event.get_user (p + j))

/-- The value of a returned call. -/
def Outcome.result {α : Type} : Outcome σ α → Option α
  | .ret a _ => some a
  | _ => none

/-- The state in which a call stopped. -/
def Outcome.world {α : Type} : Outcome σ α → Option (World σ)
  | .ret _ w => some w
  | .exited _ w => some w
  | .halted w => some w
  | .panic w => some w
  | .blocked w => some w
  | .diverge => none

/-- The exit status of a terminated process. -/
def Outcome.exit_status {α : Type} : Outcome σ α → Option Int
  | .exited s _ => some s
  | _ => none

/-- The scheduler runs thread `t` next. -/
def World.switch_to (w : World σ) (t : Int) : World σ := { w with cur := t }

/-- Memory given by a finite table of mapped bytes. -/
def mem_of (l : List (Nat × Nat)) : Nat → Option Nat := fun a => l.lookup a

/-- A small instance of the services: the split at address 64, the request
numbers in the order of the enumeration, and a storage engine whose state
counts the calls made into it. -/
def demo_kernel : Kernel Nat where
  PHYS_BASE := 64
  TID_ERROR := -1
  SYS_HALT := 0
  SYS_EXIT := 1
  SYS_EXEC := 2
  SYS_WAIT := 3
  SYS_CREATE := 4
  SYS_REMOVE := 5
  SYS_OPEN := 6
  SYS_FILESIZE := 7
  SYS_READ := 8
  SYS_WRITE := 9
  SYS_SEEK := 10
  SYS_TELL := 11
  SYS_CLOSE := 12
  SYS_PRACTICE := 13
  filesys_create := fun s _ _ _ => (s + 1, true)
  filesys_remove := fun s _ _ => (s + 1, true)
  filesys_open := fun s mem name => (s + 1, if mem name = some 102 then some (100 + s) else none)
  file_length := fun _ _ => 2
  file_read := fun s _ size => (s + 1, List.replicate size 65)
  file_write := fun s _ _ _ size => (s + 1, (size : Int))
  file_seek := fun s _ _ => s + 1
  file_tell := fun _ _ => 0
  file_close := fun s _ => s + 1
  process_execute := fun w _ => (w, -1)

/-- A process record with the given memory and descriptor table. -/
def demo_process (mem : Nat → Option Nat) (fds : List file_info) (next_fd : Int) : process where
  process_name := "demo"
  elf_file := 99
  fd_list := fds
  next_fd := next_fd
  pagedir := mem
  writable := fun _ => true

/-- User memory of the examples: request frames at 8 (`seek (5, 0)`), 24
(`close (5)`), 32 (`filesize (5)`), 48 (`tell (5)`) and 56 (`read` whose second
argument word crosses the split), the
strings "hi" at 40 and "f" at 44, a NUL in the last user byte 63 and two mapped kernel bytes
at 64 and 65. -/
def demo_mem : Nat → Option Nat :=
  mem_of [(8, 10), (9, 0), (10, 0), (11, 0), (12, 5), (13, 0), (14, 0), (15, 0),
    (16, 0), (17, 0), (18, 0), (19, 0),
    (24, 12), (25, 0), (26, 0), (27, 0), (28, 5), (29, 0), (30, 0), (31, 0),
    (32, 7), (33, 0), (34, 0), (35, 0), (36, 5), (37, 0), (38, 0), (39, 0),
    (48, 11), (49, 0), (50, 0), (51, 0), (52, 5), (53, 0), (54, 0), (55, 0),
    (40, 104), (41, 105), (42, 0), (44, 102), (45, 0),
    (56, 8), (57, 0), (58, 0), (59, 0), (60, 3), (61, 0), (62, 0), (63, 0),
    (64, 7), (65, 7)]

/-- A state with one user process, thread 1, running. -/
def demo_world (mem : Nat → Option Nat) (fds : List file_info) (next_fd : Int) : World Nat where
  threads := fun t =>
    { tid := t, parent := none, child_exit_status := [], chile_sema := 0,
      pcb := demo_process mem fds next_fd }
  cur := 1
  lock := none
  fs := 0
  trace := []


/-! ## Dispatcher: specification vocabulary -/

/-- The request numbers are pairwise different (they are the members of one
enumeration). -/
def Kernel.distinct (E : Kernel σ) : Prop :=
  [E.SYS_HALT, E.SYS_EXIT, E.SYS_EXEC, E.SYS_WAIT, E.SYS_CREATE, E.SYS_REMOVE, E.SYS_OPEN,
   E.SYS_FILESIZE, E.SYS_READ, E.SYS_WRITE, E.SYS_SEEK, E.SYS_TELL, E.SYS_CLOSE,
   E.SYS_PRACTICE].Nodup

instance (E : Kernel σ) : Decidable E.distinct :=
  inferInstanceAs (Decidable (List.Nodup _))

/-- The request is one of the process control requests (first `switch`). -/
def is_control (E : Kernel σ) (nr : Nat) : Prop :=
  nr = E.SYS_PRACTICE ∨ nr = E.SYS_HALT ∨ nr = E.SYS_EXIT ∨ nr = E.SYS_EXEC ∨ nr = E.SYS_WAIT

instance (E : Kernel σ) (nr : Nat) : Decidable (is_control E nr) :=
  inferInstanceAs (Decidable (_ ∨ _))

/-- Declared number of argument words of a recognised request: 0 for halt; 1
for exit, exec, wait, remove, open, filesize, tell, close (and practice); 2 for
create and seek; 3 for read and write.  `none` for every other number. -/
def arity (E : Kernel σ) (nr : Nat) : Option Nat :=
  if nr = E.SYS_HALT then some 0
  else if nr = E.SYS_EXIT ∨ nr = E.SYS_EXEC ∨ nr = E.SYS_WAIT ∨ nr = E.SYS_REMOVE ∨
      nr = E.SYS_OPEN ∨ nr = E.SYS_FILESIZE ∨ nr = E.SYS_TELL ∨ nr = E.SYS_CLOSE ∨
      nr = E.SYS_PRACTICE then some 1
  else if nr = E.SYS_CREATE ∨ nr = E.SYS_SEEK then some 2
  else if nr = E.SYS_READ ∨ nr = E.SYS_WRITE then some 3
  else none

/-- Validation of the `n` argument words `i`, `i + 1`, ... of the frame at
`args`, in ascending order. -/
def validate_words (E : Kernel σ) (args : Nat) : Nat → Nat → K σ Unit
  | 0, _ => pure ()
  | n + 1, i => do
    check_num32 E (padd args (4 * i))
    validate_words E args n (i + 1)

/-- The read probes of a complete validation of the `n` words `i`, `i + 1`, ...
of the frame at `args`. -/
def words_probes (args : Nat) : Nat → Nat → List Event
  | 0, _ => []
  | n + 1, i => probes (padd args (4 * i)) 4 ++ words_probes args n (i + 1)

/-- The handler call of a process control request and the store of its result
in the frame: the arms of the first `switch` without their word validations. -/
def call_control (E : Kernel σ) (f : intr_frame) (a0 : Nat) : K σ intr_frame :=
  let args := f.esp
  if a0 = E.SYS_PRACTICE then do
    let a1 ← arg args 1
    pure { f with eax := to_u32 (sys_practice (to_int32 a1)) }
  else if a0 = E.SYS_HALT then do
    sys_halt
    pure f
  else if a0 = E.SYS_EXIT then do
    let a1 ← arg args 1
    sys_exit E (to_int32 a1)
    pure f
  else if a0 = E.SYS_EXEC then do
    let a1 ← arg args 1
    check_str E a1
    let a1 ← arg args 1
    let r ← sys_exec E a1
    pure { f with eax := to_u32 r }
  else if a0 = E.SYS_WAIT then do
    let a1 ← arg args 1
    let r ← sys_wait (to_int32 a1)
    pure { f with eax := to_u32 r }
  else pure f

/-- The handler call of a file operation request and the store of its result in
the frame: the arms of the second `switch` without their word validations. -/
def call_file (E : Kernel σ) (f : intr_frame) (a0 : Nat) : K σ intr_frame :=
  let args := f.esp
  if a0 = E.SYS_CREATE then do
    let a1 ← arg args 1
    let a2 ← arg args 2
    let r ← sys_create E a1 a2
    pure { f with eax := to_u32 r }
  else if a0 = E.SYS_REMOVE then do
    let a1 ← arg args 1
    let r ← sys_remove E a1
    pure { f with eax := to_u32 r }
  else if a0 = E.SYS_OPEN then do
    let a1 ← arg args 1
    let r ← sys_open E a1
    pure { f with eax := to_u32 r }
  else if a0 = E.SYS_READ then do
    let a1 ← arg args 1
    let a2 ← arg args 2
    let a3 ← arg args 3
    let r ← sys_read E (to_int32 a1) a2 a3
    pure { f with eax := to_u32 r }
  else if a0 = E.SYS_FILESIZE then do
    let a1 ← arg args 1
    let r ← sys_filesize E (to_int32 a1)
    pure { f with eax := to_u32 r }
  else if a0 = E.SYS_WRITE then do
    let a1 ← arg args 1
    let a2 ← arg args 2
    let a3 ← arg args 3
    let r ← sys_write E (to_int32 a1) a2 a3
    pure { f with eax := to_u32 r }
  else if a0 = E.SYS_SEEK then do
    let a1 ← arg args 1
    let a2 ← arg args 2
    sys_seek E (to_int32 a1) a2
    pure f
  else if a0 = E.SYS_TELL then do
    let a1 ← arg args 1
    let r ← sys_tell E (to_int32 a1)
    pure { f with eax := r % 4294967296 }
  else if a0 = E.SYS_CLOSE then do
    let a1 ← arg args 1
    sys_close E (to_int32 a1)
    pure f
  else pure f

/-- What the dispatcher does for request `nr` once its words are validated: a
file operation request runs its handler call; a process control request runs
its handler call and then, as the two `switch` statements follow each other,
the second `switch` on a fresh read of `args[0]`. -/
def invoke (E : Kernel σ) (f : intr_frame) (nr : Nat) : K σ intr_frame :=
  if is_control E nr then do
    let f1 ← call_control E f nr
    let a0 ← arg f.esp 0
    syscall_file E f1 a0
  else call_file E f nr

/-! ## Descriptor table: specification vocabulary -/

/-- The descriptors of the running process's active entries. -/
def World.fds (w : World σ) : List Int := w.me.pcb.fd_list.map (fun e => e.fd)

/-- A descriptor-table request of the running process. -/
inductive Call where
  | sys_open (file : Nat)
  | sys_close (fd : Int)
deriving DecidableEq, Repr

/-- Runs one request.  The result is `some fd` when the request was an open
that succeeded, that is, added an entry to the table, and returned `fd`. -/
def run_call (E : Kernel σ) : Call → K σ (Option Int)
  | .sys_open file => fun w =>
    (Pintos.sys_open E file w).bind (fun r w1 =>
      .ret (if w1.me.pcb.fd_list.length = w.me.pcb.fd_list.length + 1 then some r else none) w1)
  | .sys_close fd => fun w => (Pintos.sys_close E fd w).bind (fun _ w1 => .ret none w1)

/-- Runs a sequence of requests of the running process; the result is the
descriptors the successful opens returned, in order, and the final state.  The
sequence ends early at a request that does not return (the process was
terminated, or the thread sleeps). -/
def run_calls (E : Kernel σ) : List Call → World σ → List Int × World σ
  | [], w => ([], w)
  | c :: cs, w =>
    match run_call E c w with
    | .ret r w1 =>
      match run_calls E cs w1 with
      | (rs, wf) => (r.toList ++ rs, wf)
    | _ => ([], w)

/-- Partial-correctness assertion on an outcome: if the call returned, the result
and final state satisfy `Q`. -/
def Outcome.ensures {α : Type} (o : Outcome σ α) (Q : α → World σ → Prop) : Prop :=
  match o with
  | .ret a w => Q a w
  | _ => True

/-- A request on descriptor `fd` that needs an open file. -/
inductive FdOp where
  | filesize
  | tell
  | read (buffer : Nat) (size : Nat)
  | write (buffer : Nat) (size : Nat)
deriving DecidableEq, Repr

/-- Runs one request on descriptor `fd`; the result is the 32-bit word the
handler returns (`-1` is the word 4294967295). -/
def fd_op (E : Kernel σ) (fd : Int) : FdOp → K σ Nat
  | .filesize => do
    let r ← sys_filesize E fd
    pure (to_u32 r)
  | .tell => sys_tell E fd
  | .read buffer size => do
    let r ← sys_read E fd buffer size
    pure (to_u32 r)
  | .write buffer size => do
    let r ← sys_write E fd buffer size
    pure (to_u32 r)

/-- Runs a sequence of requests on descriptor `fd`, collecting the results. -/
def fd_ops (E : Kernel σ) (fd : Int) : List FdOp → K σ (List Nat)
  | [] => pure []
  | op :: ops => do
    let r ← fd_op E fd op
    let rs ← fd_ops E fd ops
    pure (r :: rs)

/-- The buffer of a read or write request is a valid string in state `w`. -/
def FdOp.buffer_ok (E : Kernel σ) (w : World σ) : FdOp → Prop
  | .read buffer _ => ∃ n, str_ok E w buffer n
  | .write buffer _ => ∃ n, str_ok E w buffer n
  | _ => True

/-- The event is a read probe of user memory. -/
def Event.is_probe : Event → Prop
  | .get_user _ => True
  | _ => False

/-! ## Lifecycle coordinator: process creation and example states -/

/-- A state with a parent process, thread 1, holding the status record of its
child, thread 2, which is running; the record has not been signalled. -/
def demo_family : World Nat where
  threads := fun t =>
    if t = 1 then
      { tid := 1, parent := none,
        child_exit_status := [{ pid := 2, exit_status := 0, child := some 2, sema := 0 }],
        chile_sema := 0, pcb := demo_process demo_mem [] 2 }
    else
      { tid := t, parent := if t = 2 then some 1 else none, child_exit_status := [],
        chile_sema := 0, pcb := demo_process demo_mem [] 2 }
  cur := 2
  lock := none
  fs := 0
  trace := []

/-- The state of `demo_family` after the child has called `sys_exit (7)`. -/
def demo_family_exited : World Nat :=
  ((sys_exit demo_kernel 7 demo_family).world).getD demo_family

/-- Modelled from the spec: the process-creation service as seen by the parent
(`userprog/process.c` is not among the sources).  It creates the execution
context `child`, whose parent reference is the caller, and a Child Status Record
for it in the caller's collection, holding the initial exit status
`init_status`, a reference to the child and an unsignalled completion
semaphore. -/
def spawn_child (w : World σ) (child : Int) (init_status : Int) : World σ :=
  let w1 := w.set_thread child
    { w.threads child with tid := child, parent := some w.cur, child_exit_status := [],
                           chile_sema := 0 }
  w1.set_thread w.cur
    { w1.threads w.cur with
      child_exit_status :=
        { pid := child, exit_status := init_status, child := some child, sema := 0 } ::
          (w1.threads w.cur).child_exit_status }

/-- Modelled from the spec: the end of the child's startup (`userprog/process.c`
is not among the sources).  When loading the executable failed the child stores
the "startup failed" sentinel `-1` in its record; in both cases it signals the
parent's handshake semaphore. -/
def start_process (success : Bool) : K σ Unit := fun w =>
  match (w.threads w.cur).parent with
  | none => .ret () w
  | some p =>
    let w1 := if success then w else
      w.set_thread p
        { w.threads p with
          child_exit_status := set_child (w.threads p).child_exit_status (w.threads w.cur).tid
            (fun c => { c with exit_status := -1 }) }
    .ret () (w1.set_thread p { w1.threads p with chile_sema := (w1.threads p).chile_sema + 1 })

/-- A schedule of the example: the caller spawns thread 2, which runs at once: it
finishes its startup (successfully or not) and then, when `child_exit` is
`some s`, calls `sys_exit (s)`; after that the caller runs again. -/
def demo_spawn (load_ok : Bool) (child_exit : Option Int) (w : World Nat) : World Nat :=
  let w1 := (spawn_child w 2 0).switch_to 2
  let w2 := ((start_process load_ok w1).world).getD w1
  let w3 :=
    match child_exit with
    | none => w2
    | some s => ((sys_exit demo_kernel s w2).world).getD w2
  w3.switch_to w.cur

/-- The example services with a process-creation service that follows the
schedule `demo_spawn` and returns the child's pid 2. -/
def demo_spawn_kernel (load_ok : Bool) (child_exit : Option Int) : Kernel Nat :=
  { demo_kernel with process_execute := fun w _ => (demo_spawn load_ok child_exit w, 2) }

/-! ## Vocabulary for the remaining dispatcher and handler properties -/

/-- The request numbers `syscall_handler` has a `case` for. -/
def Kernel.handled (E : Kernel σ) : List Nat :=
  [E.SYS_HALT, E.SYS_EXIT, E.SYS_EXEC, E.SYS_WAIT, E.SYS_CREATE, E.SYS_REMOVE, E.SYS_OPEN,
   E.SYS_FILESIZE, E.SYS_READ, E.SYS_WRITE, E.SYS_SEEK, E.SYS_TELL, E.SYS_CLOSE,
   E.SYS_PRACTICE]


/-- Events of the first loop of `sys_exit` over the records `l`: one `orphan`
per record whose child reference is set. -/
def orphan_events (l : List child_status) : List Event :=
  l.filterMap (fun cs => cs.child.map Event.orphan)

/-- Events of the notification step of `sys_exit (status)` for the thread with
identifier `tid` whose parent reference is `par`. -/
def notify_events (par : Option Int) (tid : Int) (status : Int) : List Event :=
  match par with
  | none => []
  | some p => [Event.publish p tid status, Event.sema_up p tid]

/-- Events of the teardown of `sys_exit` by thread `t` with process record `p`:
the lock is taken, the executable handle is closed, the handle of every
descriptor entry is closed in list order, the lock is released. -/
def teardown_events (t : Int) (p : process) : List Event :=
  [Event.lock_acquire t, Event.file_close p.elf_file] ++
    p.fd_list.map (fun e => Event.file_close e.file) ++ [Event.lock_release t]

/-- The effects of a completed `sys_exit (status)` by the running thread, in the
order of the statements of the source: the report, the orphaning loop, the
notification of the parent, the teardown under the lock, `process_exit`. -/
def exit_events (w : World σ) (status : Int) : List Event :=
  [Event.printf_exit w.me.pcb.process_name status] ++ orphan_events w.me.child_exit_status ++
    notify_events w.me.parent w.me.tid status ++ teardown_events w.cur w.me.pcb ++
    [Event.process_exit w.cur]

/-- Spec-side order of the effects of `sys_exit (status)`: the on_exit steps
(orphaning, then notification) first, then the report, then the teardown, then
`process_exit`. -/
def exit_events_spec (w : World σ) (status : Int) : List Event :=
  orphan_events w.me.child_exit_status ++ notify_events w.me.parent w.me.tid status ++
    [Event.printf_exit w.me.pcb.process_name status] ++ teardown_events w.cur w.me.pcb ++
    [Event.process_exit w.cur]

/-- A state in which `sys_exit` of the running thread runs through: the
serialization lock is free, every status record the thread owns refers to a live
child other than the thread itself, and the parent, if the reference is set, is
another thread that holds a record for the running thread. -/
def exit_ready (w : World σ) : Prop :=
  w.lock = none ∧
  (∀ cs ∈ w.me.child_exit_status, cs.child ≠ none ∧ cs.child ≠ some w.cur) ∧
  (match w.me.parent with
   | none => True
   | some p => p ≠ w.cur ∧ (get_child (w.threads p) w.me.tid).isSome = true)

instance (w : World σ) : Decidable (exit_ready w) := by
  unfold exit_ready
  cases w.me.parent <;> exact inferInstance

/-- A state with three generations: thread 1 holds the record of thread 2, which
is running, has two open descriptors and holds the record of its live child,
thread 3. -/
def demo_lineage : World Nat where
  threads := fun t =>
    if t = 1 then
      { tid := 1, parent := none,
        child_exit_status := [{ pid := 2, exit_status := 0, child := some 2, sema := 0 }],
        chile_sema := 0, pcb := demo_process demo_mem [] 2 }
    else if t = 2 then
      { tid := 2, parent := some 1,
        child_exit_status := [{ pid := 3, exit_status := 0, child := some 3, sema := 0 }],
        chile_sema := 0,
        pcb := demo_process demo_mem [{ fd := 3, file := 101 }, { fd := 2, file := 100 }] 4 }
    else
      { tid := t, parent := if t = 3 then some 2 else none, child_exit_status := [],
        chile_sema := 0, pcb := demo_process demo_mem [] 2 }
  cur := 2
  lock := none
  fs := 0
  trace := []

/-- Every event the computation adds to the trace satisfies `P`, whatever the
outcome. -/
def emits_only {α : Type} (P : Event → Prop) (m : K σ α) : Prop :=
  ∀ w w1, (m w).world = some w1 → ∃ es, w1.trace = w.trace ++ es ∧ ∀ e ∈ es, P e

/-- An event that is neither a call of the storage engine's write nor console
output of a user string. -/
def Event.writes_nothing : Event → Prop
  | .file_write _ _ _ => False
  | .printf_str _ => False
  | _ => True

/-- A call into the storage engine. -/
def Event.is_storage : Event → Bool
  | .filesys_create _ _ => true
  | .filesys_remove _ => true
  | .filesys_open _ => true
  | .file_length _ => true
  | .file_read _ _ => true
  | .file_write _ _ _ => true
  | .file_seek _ _ => true
  | .file_tell _ => true
  | .file_close _ => true
  | _ => false

/-- One step of the monitor of the lock discipline of the running thread; the
state says whether the thread holds `sys_file_lock`.  The lock is acquired only
when not held and released only when held, and a call into the storage engine
is made only when held; `none` reports a violation. -/
def lock_step (held : Bool) : Event → Option Bool
  | .lock_acquire _ => if held then none else some true
  | .lock_release _ => if held then some false else none
  | e => if e.is_storage && !held then none else some held

/-- The monitor of the lock discipline run over a list of events. -/
def lock_run : Bool → List Event → Option Bool
  | held, [] => some held
  | held, e :: es => (lock_step held e).bind (fun h => lock_run h es)

/-- The state `w1` is reached from `w` by the same thread through events that
obey the lock discipline, starting with the lock held or not as `h0` says and
ending as `h` says, and `h` is true exactly when the thread holds the lock in
`w1`. -/
def lock_end (w w1 : World σ) (h0 h : Bool) : Prop :=
  w1.cur = w.cur ∧ (w1.lock = some w1.cur ↔ h = true) ∧
  ∃ es, w1.trace = w.trace ++ es ∧ lock_run h0 es = some h

/-- The outcome obeys the lock discipline: a call that returns ends as `h1`
says, and a call that does not return (the process is terminated, the kernel
stops, or the thread sleeps) ends with the lock not held. -/
def Outcome.lock_ok {α : Type} (o : Outcome σ α) (w : World σ) (h0 h1 : Bool) : Prop :=
  match o with
  | .ret _ w1 => lock_end w w1 h0 h1
  | .exited _ w1 => lock_end w w1 h0 false
  | .halted w1 => lock_end w w1 h0 false
  | .panic w1 => lock_end w w1 h0 false
  | .blocked w1 => lock_end w w1 h0 false
  | .diverge => True

/-- The computation obeys the lock discipline from every state in which the
running thread holds the lock exactly when `h0` is true. -/
def lock_disciplined {α : Type} (m : K σ α) (h0 h1 : Bool) : Prop :=
  ∀ w, (w.lock = some w.cur ↔ h0 = true) → (m w).lock_ok w h0 h1

/-- A schedule like `demo_spawn` for a further child: the caller spawns
thread 3, which runs at once, finishes its startup, calls `sys_exit (0)` and is
never waited on; after that the caller runs again. -/
def demo_spawn_second (w : World Nat) : World Nat :=
  let w1 := (spawn_child w 3 0).switch_to 3
  let w2 := ((start_process true w1).world).getD w1
  let w3 := ((sys_exit demo_kernel 0 w2).world).getD w2
  w3.switch_to w.cur

/-- The example services with a process-creation service that follows the
schedule `demo_spawn_second` and returns the child's pid 3. -/
def demo_second_kernel : Kernel Nat :=
  { demo_kernel with process_execute := fun w _ => (demo_spawn_second w, 3) }
/-! ## Basic facts about the embedding -/

@[simp] theorem K.bind_apply {α β : Type} (m : K σ α) (f : α → K σ β) (w : World σ) :
    (m >>= f) w = (m w).bind f := rfl

@[simp] theorem K.pure_apply {α : Type} (a : α) (w : World σ) :
    (pure a : K σ α) w = Outcome.ret a w := rfl

@[simp] theorem Outcome.bind_ret {α β : Type} (a : α) (w : World σ) (f : α → K σ β) :
    (Outcome.ret a w).bind f = f a w := rfl

@[simp] theorem World.log_me (w : World σ) (e : Event) : (w.log e).me = w.me := rfl

@[simp] theorem World.logs_me (w : World σ) (es : List Event) : (w.logs es).me = w.me := rfl

@[simp] theorem World.logs_nil (w : World σ) : w.logs [] = w := by
  simp [World.logs]

@[simp] theorem World.logs_log (w : World σ) (es : List Event) (e : Event) :
    (w.logs es).log e = w.logs (es ++ [e]) := by
  simp [World.logs, World.log]

@[simp] theorem World.logs_logs (w : World σ) (es fs : List Event) :
    (w.logs es).logs fs = w.logs (es ++ fs) := by
  simp [World.logs]

theorem World.log_eq_logs (w : World σ) (e : Event) : w.log e = w.logs [e] := rfl

theorem probes_succ (p n : Nat) :
    probes p (n + 1) = Event.get_user p :: probes (p + 1) n := by
  simp [probes, List.range_succ_eq_map, Nat.add_assoc, Nat.add_comm 1]

theorem probes_add (p m n : Nat) : probes p (m + n) = probes p m ++ probes (p + m) n := by
  induction m generalizing p with
  | zero => simp [probes]
  | succ m ih =>
    rw [Nat.succ_add, probes_succ, probes_succ, ih (p + 1)]
    simp [Nat.add_assoc, Nat.add_comm 1]

theorem padd_eq (p i : Nat) (h : p + i < 4294967296) : padd p i = p + i := by
  simp [padd, Nat.mod_eq_of_lt h]

theorem Outcome.bind_not_returned {α β : Type} (o : Outcome σ α) (f : α → K σ β)
    (h : ∀ a w, (f a w).returned = false) : (o.bind f).returned = false := by
  cases o with
  | ret a w => exact h a w
  | exited s w => rfl
  | halted w => rfl
  | panic w => rfl
  | blocked w => rfl
  | diverge => rfl

theorem Outcome.bind_not_returned_of {α β : Type} (o : Outcome σ α) (f : α → K σ β)
    (h : o.returned = false) : (o.bind f).returned = false := by
  cases o <;> simp_all [Outcome.bind, Outcome.returned]

theorem Outcome.bind_of_not_returned {α β : Type} (o : Outcome σ α) (f : α → K σ β)
    (h : o.returned = false) : o.bind f = o.cast := by
  cases o <;> simp_all [Outcome.bind, Outcome.returned, Outcome.cast]

/-- The handler `sys_exit` never returns to its caller. -/
theorem sys_exit_not_returned (E : Kernel σ) (status : Int) (w : World σ) :
    (sys_exit E status w).returned = false := by
  unfold sys_exit
  simp only [K.bind_apply]
  repeat (first
    | exact rfl
    | (apply Outcome.bind_not_returned; intro _ _; try simp only [K.bind_apply]))

/-! ## Memory guard: word validation -/

theorem check_num32_loop_ok (E : Kernel σ) (hPB : E.PHYS_BASE < 4294967296) (ptr : Nat) (n : Nat) :
    ∀ (i : Nat) (w : World σ), (∀ j, j < n → byte_ok E w (ptr + i + j)) →
      check_num32_loop E ptr n i w = Outcome.ret true (w.logs (probes (ptr + i) n)) := by
  induction n with
  | zero => intro i w _; simp [check_num32_loop, probes]
  | succ n ih =>
    intro i w h
    obtain ⟨hlt, hm⟩ := h 0 (Nat.succ_pos n)
    simp only [Nat.add_zero] at hlt hm
    obtain ⟨b, hb⟩ := Option.isSome_iff_exists.mp hm
    have hpad : padd ptr i = ptr + i := padd_eq _ _ (by omega)
    have hnot : ¬ ptr + i ≥ E.PHYS_BASE := by omega
    have hb1 : ¬ ((b % 256 : Nat) : Int) = -1 := by omega
    simp only [check_num32_loop, hpad, hnot, if_false, K.bind_apply, get_user, hb,
      Outcome.bind_ret, hb1]
    rw [ih (i + 1) (w.log (Event.get_user (ptr + i)))]
    · rw [probes_succ, World.log_eq_logs, World.logs_logs]; rfl
    · intro j hj
      have := h (j + 1) (by omega)
      simpa [byte_ok, Nat.add_assoc, Nat.add_comm 1] using this

theorem check_num32_loop_bad (E : Kernel σ) (hPB : E.PHYS_BASE < 4294967296) (ptr : Nat)
    (n : Nat) :
    ∀ (i : Nat) (w : World σ), ptr + i < 4294967296 →
      ¬ (∀ j, j < n → byte_ok E w (ptr + i + j)) →
      ∃ k, k ≤ n ∧
        check_num32_loop E ptr n i w = Outcome.ret false (w.logs (probes (ptr + i) k)) := by
  induction n with
  | zero => intro i w _ h; exact absurd (fun j hj => absurd hj (Nat.not_lt_zero j)) h
  | succ n ih =>
    intro i w hi h
    have hpad : padd ptr i = ptr + i := padd_eq _ _ hi
    by_cases hge : ptr + i ≥ E.PHYS_BASE
    · exact ⟨0, Nat.zero_le _, by simp [check_num32_loop, hpad, hge, probes]⟩
    · cases hb : w.me.pcb.pagedir (ptr + i) with
      | none =>
        refine ⟨1, by omega, ?_⟩
        have h1 : probes (ptr + i) 1 = [Event.get_user (ptr + i)] := rfl
        simp [check_num32_loop, hpad, hge, get_user, hb, h1, World.log_eq_logs]
      | some b =>
        have hb1 : ¬ ((b % 256 : Nat) : Int) = -1 := by omega
        have hrest : ¬ (∀ j, j < n →
            byte_ok E (w.log (Event.get_user (ptr + i))) (ptr + (i + 1) + j)) := by
          intro hall
          apply h
          intro j hj
          cases j with
          | zero => exact ⟨by simpa using hge, by simp [hb]⟩
          | succ j =>
            have := hall j (by omega)
            simpa [byte_ok, Nat.add_assoc, Nat.add_comm 1] using this
        obtain ⟨k, hk, hrun⟩ :=
          ih (i + 1) (w.log (Event.get_user (ptr + i))) (by omega) hrest
        refine ⟨k + 1, by omega, ?_⟩
        simp only [check_num32_loop, hpad, hge, if_false, K.bind_apply, get_user, hb,
          Outcome.bind_ret, hb1]
        rw [hrun, probes_succ, World.log_eq_logs, World.logs_logs]; rfl

theorem word_ok_iff (E : Kernel σ) (w : World σ) (p : Nat) :
    word_ok E w p ↔ ∀ j, j < 4 → byte_ok E w (p + 0 + j) := by
  constructor
  · rintro ⟨h0, h1, h2, h3⟩ j hj
    interval_cases j
    · exact h0
    · exact h1
    · exact h2
    · exact h3
  · intro h
    exact ⟨h 0 (by omega), h 1 (by omega), h 2 (by omega), h 3 (by omega)⟩

theorem check_num32_ok (E : Kernel σ) (w : World σ) (p : Nat)
    (hPB : E.PHYS_BASE < 4294967296) (h : word_ok E w p) :
    check_num32 E p w = Outcome.ret () (w.logs (probes p 4)) := by
  have := check_num32_loop_ok E hPB p 4 0 w ((word_ok_iff E w p).mp h)
  simp [check_num32, this]

theorem check_num32_bad (E : Kernel σ) (w : World σ) (p : Nat)
    (hp : p < 4294967296) (hPB : E.PHYS_BASE < 4294967296) (h : ¬ word_ok E w p) :
    ∃ k, k ≤ 4 ∧ check_num32 E p w = sys_exit E (-1) (w.logs (probes p k)) := by
  obtain ⟨k, hk, hrun⟩ := check_num32_loop_bad E hPB p 4 0 w (by omega)
    (fun hall => h ((word_ok_iff E w p).mpr hall))
  exact ⟨k, hk, by simp [check_num32, hrun]⟩

/-- C1: word validation is sound and complete.  `check_num32 p` returns to its
caller exactly when the four bytes `p .. p+3` are below `PHYS_BASE` and mapped;
then it returns having only probed those four bytes.  In every other case it
runs `sys_exit (-1)` (after at most four probes) and whatever code follows the
call is never reached. -/
theorem check_num32_sound_complete (E : Kernel σ) (w : World σ) (p : Nat)
    (hp : p < 4294967296) (hPB : E.PHYS_BASE < 4294967296) :
    ((check_num32 E p w).returned = true ↔ word_ok E w p) ∧
    (word_ok E w p → check_num32 E p w = Outcome.ret () (w.logs (probes p 4))) ∧
    (¬ word_ok E w p → ∃ k, k ≤ 4 ∧
      check_num32 E p w = sys_exit E (-1) (w.logs (probes p k)) ∧
      ∀ (β : Type) (rest : Unit → K σ β),
        (check_num32 E p >>= rest) w = (sys_exit E (-1) (w.logs (probes p k))).cast ∧
        ((check_num32 E p >>= rest) w).returned = false) := by
  refine ⟨?_, check_num32_ok E w p hPB, ?_⟩
  · constructor
    · intro hret
      by_contra hno
      obtain ⟨k, _, hrun⟩ := check_num32_bad E w p hp hPB hno
      rw [hrun, sys_exit_not_returned] at hret
      exact Bool.noConfusion hret
    · intro h; rw [check_num32_ok E w p hPB h]; rfl
  · intro h
    obtain ⟨k, hk, hrun⟩ := check_num32_bad E w p hp hPB h
    refine ⟨k, hk, hrun, ?_⟩
    intro β rest
    rw [K.bind_apply, hrun]
    exact ⟨Outcome.bind_of_not_returned _ _ (sys_exit_not_returned E (-1) _),
      Outcome.bind_not_returned_of _ _ (sys_exit_not_returned E (-1) _)⟩

/-- Witness for C1 on the example memory: the word at 8 passes, the word at 62
crosses the split and does not. -/
theorem check_num32_sound_complete_witness :
    (word_ok demo_kernel (demo_world demo_mem [] 2) 8 ∧
      check_num32 demo_kernel 8 (demo_world demo_mem [] 2) =
        Outcome.ret () ((demo_world demo_mem [] 2).logs (probes 8 4))) ∧
    (¬ word_ok demo_kernel (demo_world demo_mem [] 2) 62 ∧
      (check_num32 demo_kernel 62 (demo_world demo_mem [] 2)).returned = false) :=
  ⟨⟨by decide,
     (check_num32_sound_complete demo_kernel (demo_world demo_mem [] 2) 8
        (by decide) (by decide)).2.1 (by decide)⟩,
   ⟨by decide,
     Bool.eq_false_iff.mpr (fun h =>
       absurd ((check_num32_sound_complete demo_kernel (demo_world demo_mem [] 2) 62
         (by decide) (by decide)).1.mp h) (by decide))⟩⟩

/-! ## Memory guard: string validation -/

theorem byte_ok_log (E : Kernel σ) (w : World σ) (e : Event) (a : Nat) :
    byte_ok E (w.log e) a ↔ byte_ok E w a := Iff.rfl

theorem byte_at_log (w : World σ) (e : Event) (a : Nat) :
    byte_at (w.log e) a = byte_at w a := rfl

theorem check_str_loop_ok (E : Kernel σ) (hPB : E.PHYS_BASE < 4294967296) (n : Nat) :
    ∀ (fuel p : Nat) (w : World σ), str_ok E w p n → n < fuel →
      check_str_loop E fuel p w = Outcome.ret true (w.logs (probes p (n + 1))) := by
  induction n with
  | zero =>
    intro fuel p w ⟨hok, _, hz⟩ hf
    obtain ⟨f, rfl⟩ : ∃ f, fuel = f + 1 := ⟨fuel - 1, by omega⟩
    obtain ⟨hlt, hm⟩ := hok 0 (Nat.le_refl 0)
    simp only [Nat.add_zero] at hlt hm hz
    obtain ⟨b, hb⟩ := Option.isSome_iff_exists.mp hm
    have hb0 : b % 256 = 0 := by simpa [byte_at, hb] using hz
    have hnot : ¬ p ≥ E.PHYS_BASE := by omega
    have h1 : probes p 1 = [Event.get_user p] := rfl
    simp [check_str_loop, hnot, get_user, hb, hb0, h1, World.log_eq_logs]
  | succ n ih =>
    intro fuel p w ⟨hok, hnz, hz⟩ hf
    obtain ⟨f, rfl⟩ : ∃ f, fuel = f + 1 := ⟨fuel - 1, by omega⟩
    obtain ⟨hlt, hm⟩ := hok 0 (Nat.zero_le _)
    simp only [Nat.add_zero] at hlt hm
    obtain ⟨b, hb⟩ := Option.isSome_iff_exists.mp hm
    have hb0 : ¬ b % 256 = 0 := by
      have := hnz 0 (Nat.succ_pos n)
      simpa [byte_at, hb] using this
    have hnot : ¬ p ≥ E.PHYS_BASE := by omega
    have hb1 : ¬ ((b % 256 : Nat) : Int) = -1 := by omega
    have hb2 : ¬ ((b % 256 : Nat) : Int) = 0 := by omega
    have hpad : padd p 1 = p + 1 := padd_eq _ _ (by omega)
    have hrest : str_ok E (w.log (Event.get_user p)) (p + 1) n := by
      refine ⟨?_, ?_, ?_⟩
      · intro j hj
        have := hok (j + 1) (by omega)
        simpa [byte_ok, Nat.add_assoc, Nat.add_comm 1] using this
      · intro j hj
        have := hnz (j + 1) (by omega)
        simpa [byte_at, Nat.add_assoc, Nat.add_comm 1] using this
      · simpa [byte_at, Nat.add_assoc, Nat.add_comm 1] using hz
    simp only [check_str_loop, hnot, if_false, K.bind_apply, get_user, hb, Outcome.bind_ret,
      hb1, hb2, hpad]
    rw [ih f (p + 1) (w.log (Event.get_user p)) hrest (by omega)]
    rw [probes_succ p (n + 1), World.log_eq_logs, World.logs_logs]; rfl

theorem check_str_loop_bad (E : Kernel σ) (hPB : E.PHYS_BASE < 4294967296) (k : Nat) :
    ∀ (fuel p : Nat) (w : World σ), p < 4294967296 →
      (∀ j, j < k → byte_ok E w (p + j) ∧ byte_at w (p + j) ≠ some 0) →
      ¬ byte_ok E w (p + k) → k < fuel →
      ∃ m, k ≤ m ∧ m ≤ k + 1 ∧
        check_str_loop E fuel p w = Outcome.ret false (w.logs (probes p m)) := by
  induction k with
  | zero =>
    intro fuel p w hp _ hbad hf
    obtain ⟨f, rfl⟩ : ∃ f, fuel = f + 1 := ⟨fuel - 1, by omega⟩
    simp only [Nat.add_zero] at hbad
    by_cases hge : p ≥ E.PHYS_BASE
    · exact ⟨0, Nat.le_refl _, by omega, by simp [check_str_loop, hge, probes]⟩
    · cases hb : w.me.pcb.pagedir p with
      | none =>
        refine ⟨1, by omega, by omega, ?_⟩
        have h1 : probes p 1 = [Event.get_user p] := rfl
        simp [check_str_loop, hge, get_user, hb, h1, World.log_eq_logs]
      | some b =>
        exact absurd ⟨by omega, by simp [hb]⟩ hbad
  | succ k ih =>
    intro fuel p w hp hpre hbad hf
    obtain ⟨f, rfl⟩ : ∃ f, fuel = f + 1 := ⟨fuel - 1, by omega⟩
    obtain ⟨⟨hlt, hm⟩, hnz⟩ := hpre 0 (Nat.succ_pos k)
    simp only [Nat.add_zero] at hlt hm hnz
    obtain ⟨b, hb⟩ := Option.isSome_iff_exists.mp hm
    have hb0 : ¬ b % 256 = 0 := by simpa [byte_at, hb] using hnz
    have hnot : ¬ p ≥ E.PHYS_BASE := by omega
    have hb1 : ¬ ((b % 256 : Nat) : Int) = -1 := by omega
    have hb2 : ¬ ((b % 256 : Nat) : Int) = 0 := by omega
    have hpad : padd p 1 = p + 1 := padd_eq _ _ (by omega)
    obtain ⟨m, hkm, hmk, hrun⟩ := ih f (p + 1) (w.log (Event.get_user p)) (by omega)
      (by
        intro j hj
        have := hpre (j + 1) (by omega)
        simpa [byte_ok, byte_at, Nat.add_assoc, Nat.add_comm 1] using this)
      (by
        intro hcon
        apply hbad
        simpa [byte_ok, Nat.add_assoc, Nat.add_comm 1] using hcon)
      (by omega)
    refine ⟨m + 1, by omega, by omega, ?_⟩
    simp only [check_str_loop, hnot, if_false, K.bind_apply, get_user, hb, Outcome.bind_ret,
      hb1, hb2, hpad]
    rw [hrun, probes_succ p m, World.log_eq_logs, World.logs_logs]; rfl

theorem first_stop (E : Kernel σ) (w : World σ) (p : Nat) :
    ∃ k, k ≤ E.PHYS_BASE - p ∧
      (∀ j, j < k → byte_ok E w (p + j) ∧ byte_at w (p + j) ≠ some 0) ∧
      (¬ byte_ok E w (p + k) ∨ str_ok E w p k) := by
  classical
  have hex : ∃ j, ¬ byte_ok E w (p + j) ∨ byte_at w (p + j) = some 0 :=
    ⟨E.PHYS_BASE - p, Or.inl (fun h => by have := h.1; omega)⟩
  have hpre : ∀ j, j < Nat.find hex → byte_ok E w (p + j) ∧ byte_at w (p + j) ≠ some 0 := by
    intro j hj
    have := Nat.find_min hex hj
    push_neg at this
    exact this
  refine ⟨Nat.find hex, Nat.find_min' hex (Or.inl (fun h => by have := h.1; omega)), hpre, ?_⟩
  by_cases hok : byte_ok E w (p + Nat.find hex)
  · right
    refine ⟨?_, fun j hj => (hpre j hj).2, ?_⟩
    · intro j hj
      rcases Nat.lt_or_eq_of_le hj with hlt | heq
      · exact (hpre j hlt).1
      · rw [heq]; exact hok
    · rcases Nat.find_spec hex with h | h
      · exact absurd hok h
      · exact h
  · exact Or.inl hok

theorem check_str_ok (E : Kernel σ) (w : World σ) (p n : Nat)
    (hPB : E.PHYS_BASE < 4294967296) (h : str_ok E w p n) :
    check_str E p w = Outcome.ret () (w.logs (probes p (n + 1))) := by
  have hn : n < 4294967297 := by have := (h.1 n (Nat.le_refl n)).1; omega
  simp [check_str, check_str_loop_ok E hPB n 4294967297 p w h hn]

theorem check_str_bad (E : Kernel σ) (w : World σ) (p : Nat)
    (hp : p < 4294967296) (hPB : E.PHYS_BASE < 4294967296) (h : ¬ ∃ n, str_ok E w p n) :
    ∃ k m, (∀ j, j < k → byte_ok E w (p + j) ∧ byte_at w (p + j) ≠ some 0) ∧
      ¬ byte_ok E w (p + k) ∧ k ≤ m ∧ m ≤ k + 1 ∧
      check_str E p w = sys_exit E (-1) (w.logs (probes p m)) := by
  obtain ⟨k, hk, hpre, hstop⟩ := first_stop E w p
  rcases hstop with hbad | hgood
  · obtain ⟨m, hkm, hmk, hrun⟩ :=
      check_str_loop_bad E hPB k 4294967297 p w hp hpre hbad (by omega)
    exact ⟨k, m, hpre, hbad, hkm, hmk, by simp [check_str, hrun]⟩
  · exact absurd ⟨k, hgood⟩ h

/-- C2: string validation stops at the first NUL.  `check_str p` returns exactly
when some `n` has the bytes `p .. p+n` below `PHYS_BASE` and mapped, the first
`n` of them non-zero and the byte at `p + n` zero; it then has probed the bytes
`p .. p+n` and nothing after the NUL.  Otherwise a byte at or above `PHYS_BASE`
or an unmapped byte comes before any NUL, and the call runs `sys_exit (-1)`
without reaching the code after it. -/
theorem check_str_first_nul (E : Kernel σ) (w : World σ) (p : Nat)
    (hp : p < 4294967296) (hPB : E.PHYS_BASE < 4294967296) :
    ((check_str E p w).returned = true ↔ ∃ n, str_ok E w p n) ∧
    (∀ n, str_ok E w p n → check_str E p w = Outcome.ret () (w.logs (probes p (n + 1)))) ∧
    ((¬ ∃ n, str_ok E w p n) → ∃ k m,
      (∀ j, j < k → byte_ok E w (p + j) ∧ byte_at w (p + j) ≠ some 0) ∧
      ¬ byte_ok E w (p + k) ∧ k ≤ m ∧ m ≤ k + 1 ∧
      check_str E p w = sys_exit E (-1) (w.logs (probes p m)) ∧
      ∀ (β : Type) (rest : Unit → K σ β),
        (check_str E p >>= rest) w = (sys_exit E (-1) (w.logs (probes p m))).cast ∧
        ((check_str E p >>= rest) w).returned = false) := by
  refine ⟨?_, fun n h => check_str_ok E w p n hPB h, ?_⟩
  · constructor
    · intro hret
      by_contra hno
      obtain ⟨k, m, _, _, _, _, hrun⟩ := check_str_bad E w p hp hPB hno
      rw [hrun, sys_exit_not_returned] at hret
      exact Bool.noConfusion hret
    · rintro ⟨n, h⟩; rw [check_str_ok E w p n hPB h]; rfl
  · intro h
    obtain ⟨k, m, hpre, hbad, hkm, hmk, hrun⟩ := check_str_bad E w p hp hPB h
    refine ⟨k, m, hpre, hbad, hkm, hmk, hrun, ?_⟩
    intro β rest
    rw [K.bind_apply, hrun]
    exact ⟨Outcome.bind_of_not_returned _ _ (sys_exit_not_returned E (-1) _),
      Outcome.bind_not_returned_of _ _ (sys_exit_not_returned E (-1) _)⟩

/-- Witness for C2 on the example memory: the string "hi" at 40 is accepted
after probing the three bytes 40, 41 and 42. -/
theorem check_str_first_nul_witness :
    str_ok demo_kernel (demo_world demo_mem [] 2) 40 2 ∧
    check_str demo_kernel 40 (demo_world demo_mem [] 2) =
      Outcome.ret () ((demo_world demo_mem [] 2).logs (probes 40 3)) :=
  ⟨by decide,
   (check_str_first_nul demo_kernel (demo_world demo_mem [] 2) 40
      (by decide) (by decide)).2.1 2 (by decide)⟩

/-! ## Dispatcher -/

theorem Outcome.bind_assoc {α β γ : Type} (o : Outcome σ α) (f : α → K σ β) (g : β → K σ γ) :
    (o.bind f).bind g = o.bind (fun a w => (f a w).bind g) := by
  cases o <;> rfl

theorem Outcome.cast_of_not_returned {α : Type} (o : Outcome σ α) (h : o.returned = false) :
    (o.cast : Outcome σ α) = o := by
  cases o <;> simp_all [Outcome.bind, Outcome.returned, Outcome.cast]

theorem Outcome.cast_cast {α β γ : Type} (o : Outcome σ α) :
    ((o.cast : Outcome σ β).cast : Outcome σ γ) = o.cast := by
  cases o <;> rfl

theorem Outcome.cast_bind {α β γ : Type} (o : Outcome σ α) (f : β → K σ γ) :
    (o.cast : Outcome σ β).bind f = o.cast := by
  cases o <;> rfl

theorem Outcome.cast_not_returned {α β : Type} (o : Outcome σ α) :
    (o.cast : Outcome σ β).returned = false := by
  cases o <;> rfl

theorem padd_lt (p i : Nat) : padd p i < 4294967296 :=
  Nat.mod_lt _ (by decide)

theorem word_ok_logs (E : Kernel σ) (w : World σ) (es : List Event) (p : Nat) :
    word_ok E (w.logs es) p ↔ word_ok E w p := Iff.rfl

theorem control_split (E : Kernel σ) (hd : E.distinct) (f : intr_frame) (nr a : Nat)
    (ha : arity E nr = some a) (hc : is_control E nr) :
    syscall_control E f nr = (validate_words E f.esp a 1 >>= fun _ => call_control E f nr) := by
  unfold Kernel.distinct at hd
  have h2 := List.nodup_reverse.mpr hd
  simp only [List.nodup_cons, List.mem_cons, List.mem_singleton, not_or, List.reverse_cons,
    List.reverse_nil, List.nil_append, List.cons_append, List.not_mem_nil, not_false_eq_true,
    List.nodup_nil, and_true] at hd h2
  funext w
  rcases hc with rfl | rfl | rfl | rfl | rfl <;>
    simp [arity, hd, h2] at ha <;> subst ha <;>
    simp [syscall_control, call_control, validate_words, hd, h2, Outcome.bind_assoc] <;> rfl

theorem control_skip (E : Kernel σ) (f : intr_frame) (nr : Nat) (hc : ¬ is_control E nr) :
    syscall_control E f nr = pure f := by
  simp only [is_control, not_or] at hc
  simp [syscall_control, hc]

theorem file_split (E : Kernel σ) (hd : E.distinct) (f : intr_frame) (nr a : Nat)
    (ha : arity E nr = some a) (hc : ¬ is_control E nr) :
    syscall_file E f nr = (validate_words E f.esp a 1 >>= fun _ => call_file E f nr) := by
  unfold Kernel.distinct at hd
  have h2 := List.nodup_reverse.mpr hd
  simp only [List.nodup_cons, List.mem_cons, List.mem_singleton, not_or, List.reverse_cons,
    List.reverse_nil, List.nil_append, List.cons_append, List.not_mem_nil, not_false_eq_true,
    List.nodup_nil, and_true] at hd h2
  simp only [is_control, not_or] at hc
  funext w
  unfold arity at ha
  split_ifs at ha with h0 h1 h2' h3
  · exact absurd h0 hc.2.1
  · rcases h1 with rfl | rfl | rfl | rfl | rfl | rfl | rfl | rfl | rfl <;>
      first
      | exact absurd rfl hc.1
      | exact absurd rfl hc.2.2.1
      | exact absurd rfl hc.2.2.2.1
      | exact absurd rfl hc.2.2.2.2
      | (cases ha
         simp [syscall_file, call_file, validate_words, hd, h2, Outcome.bind_assoc]
         rfl)
  · rcases h2' with rfl | rfl <;> cases ha <;>
      simp [syscall_file, call_file, validate_words, hd, h2, Outcome.bind_assoc] <;> rfl
  · rcases h3 with rfl | rfl <;> cases ha <;>
      simp [syscall_file, call_file, validate_words, hd, h2, Outcome.bind_assoc] <;> rfl

theorem validate_words_ok (E : Kernel σ) (hPB : E.PHYS_BASE < 4294967296) (args : Nat) (n : Nat) :
    ∀ (i : Nat) (w : World σ),
      (∀ m, i ≤ m → m < i + n → word_ok E w (padd args (4 * m))) →
      validate_words E args n i w = Outcome.ret () (w.logs (words_probes args n i)) := by
  induction n with
  | zero => intro i w _; simp [validate_words, words_probes]
  | succ n ih =>
    intro i w h
    have h0 := check_num32_ok E w (padd args (4 * i)) hPB (h i (Nat.le_refl _) (by omega))
    have h1 := ih (i + 1) (w.logs (probes (padd args (4 * i)) 4))
      (fun m hm1 hm2 => h m (by omega) (by omega))
    simp only [validate_words, K.bind_apply, h0, Outcome.bind_ret, h1]
    simp [words_probes]

theorem validate_words_bad (E : Kernel σ) (hPB : E.PHYS_BASE < 4294967296) (args : Nat)
    (n : Nat) :
    ∀ (i j : Nat) (w : World σ), i ≤ j → j < i + n →
      (∀ m, i ≤ m → m < j → word_ok E w (padd args (4 * m))) →
      ¬ word_ok E w (padd args (4 * j)) →
      ∃ k, k ≤ 4 ∧ validate_words E args n i w =
        sys_exit E (-1) (w.logs (words_probes args (j - i) i ++ probes (padd args (4 * j)) k)) := by
  induction n with
  | zero => intro i j w h1 h2; omega
  | succ n ih =>
    intro i j w hij hjn hpre hbad
    rcases Nat.eq_or_lt_of_le hij with heq | hlt
    · subst heq
      obtain ⟨k, hk, hrun⟩ := check_num32_bad E w (padd args (4 * i)) (padd_lt _ _) hPB hbad
      refine ⟨k, hk, ?_⟩
      simp only [validate_words, K.bind_apply, hrun, Nat.sub_self, words_probes, List.nil_append]
      rw [Outcome.bind_of_not_returned _ _ (sys_exit_not_returned E (-1) _)]
      exact Outcome.cast_of_not_returned _ (sys_exit_not_returned E (-1) _)
    · have h0 := check_num32_ok E w (padd args (4 * i)) hPB (hpre i (Nat.le_refl _) hlt)
      obtain ⟨k, hk, hrun⟩ := ih (i + 1) j (w.logs (probes (padd args (4 * i)) 4)) (by omega)
        (by omega) (fun m hm1 hm2 => hpre m (by omega) hm2) hbad
      refine ⟨k, hk, ?_⟩
      simp only [validate_words, K.bind_apply, h0, Outcome.bind_ret, hrun, World.logs_logs]
      have hji : j - i = (j - (i + 1)) + 1 := by omega
      rw [hji]
      simp [words_probes]

theorem arg_zero (w : World σ) (args nr : Nat) (hargs : args < 4294967296)
    (hnr : load_u32 w.me.pcb.pagedir args = some nr) (es : List Event) :
    arg args 0 (w.logs es) = Outcome.ret nr (w.logs es) := by
  have : padd args 0 = args := by simp [padd, Nat.mod_eq_of_lt hargs]
  simp [arg, this, hnr]

theorem syscall_handler_unfold (E : Kernel σ) (f : intr_frame) (w : World σ) :
    syscall_handler E f w = (check_num32 E f.esp w).bind (fun _ w1 =>
      (arg f.esp 0 w1).bind (fun a0 w2 =>
        (syscall_control E f a0 w2).bind (fun f1 w3 =>
          (arg f.esp 0 w3).bind (fun a0 => syscall_file E f1 a0)))) := rfl

theorem syscall_handler_valid0 (E : Kernel σ) (f : intr_frame) (w : World σ) (nr a : Nat)
    (hd : E.distinct) (hesp : f.esp < 4294967296) (hPB : E.PHYS_BASE < 4294967296)
    (h0 : word_ok E w f.esp) (hnr : load_u32 w.me.pcb.pagedir f.esp = some nr)
    (ha : arity E nr = some a) :
    syscall_handler E f w =
      (validate_words E f.esp a 1 (w.logs (probes f.esp 4))).bind (fun _ => invoke E f nr) := by
  rw [syscall_handler_unfold, check_num32_ok E w f.esp hPB h0]
  simp only [Outcome.bind_ret, arg_zero w f.esp nr hesp hnr]
  by_cases hc : is_control E nr
  · rw [control_split E hd f nr a ha hc]
    simp only [K.bind_apply, Outcome.bind_assoc, invoke, hc, if_true]
    rfl
  · rw [control_skip E f nr hc]
    simp only [K.pure_apply, Outcome.bind_ret, arg_zero w f.esp nr hesp hnr]
    rw [file_split E hd f nr a ha hc]
    simp only [K.bind_apply, invoke, hc, if_false]

/-- C3: partially validated requests never execute.  The dispatcher validates
word 0 and then the declared argument words `1 .. arity` of a recognised
request in ascending order.  If word 0 fails, or the first failing argument
word is word `j`, the outcome is that of `sys_exit (-1)` run in the entry state
extended only by the read probes of the words before `j` and at most four
probes of word `j`: nothing is returned (so the result slot is not written) and
no handler code has run.  If all words `0 .. arity` pass, the dispatcher has
probed exactly these words and goes on with the handler call. -/
theorem partially_validated_never_execute (E : Kernel σ) (f : intr_frame) (w : World σ)
    (hd : E.distinct) (hesp : f.esp < 4294967296) (hPB : E.PHYS_BASE < 4294967296) :
    (¬ word_ok E w f.esp → ∃ k, k ≤ 4 ∧
      syscall_handler E f w = (sys_exit E (-1) (w.logs (probes f.esp k))).cast ∧
      (syscall_handler E f w).returned = false) ∧
    (∀ nr a, word_ok E w f.esp → load_u32 w.me.pcb.pagedir f.esp = some nr →
      arity E nr = some a →
      (∀ j, 1 ≤ j → j ≤ a →
        (∀ m, 1 ≤ m → m < j → word_ok E w (padd f.esp (4 * m))) →
        ¬ word_ok E w (padd f.esp (4 * j)) →
        ∃ k, k ≤ 4 ∧
          syscall_handler E f w = (sys_exit E (-1) (w.logs (probes f.esp 4 ++
            (words_probes f.esp (j - 1) 1 ++ probes (padd f.esp (4 * j)) k)))).cast ∧
          (syscall_handler E f w).returned = false) ∧
      ((∀ m, 1 ≤ m → m ≤ a → word_ok E w (padd f.esp (4 * m))) →
        syscall_handler E f w =
          invoke E f nr (w.logs (probes f.esp 4 ++ words_probes f.esp a 1)))) := by
  refine ⟨?_, ?_⟩
  · intro h0
    obtain ⟨k, hk, hrun⟩ := check_num32_bad E w f.esp hesp hPB h0
    have hcast : syscall_handler E f w = (sys_exit E (-1) (w.logs (probes f.esp k))).cast := by
      rw [syscall_handler_unfold, hrun]
      exact Outcome.bind_of_not_returned _ _ (sys_exit_not_returned E (-1) _)
    exact ⟨k, hk, hcast, by rw [hcast]; exact Outcome.cast_not_returned _⟩
  · intro nr a h0 hnr ha
    have hmain := syscall_handler_valid0 E f w nr a hd hesp hPB h0 hnr ha
    refine ⟨?_, ?_⟩
    · intro j hj1 hja hpre hbad
      obtain ⟨k, hk, hrun⟩ := validate_words_bad E hPB f.esp a 1 j (w.logs (probes f.esp 4))
        hj1 (by omega) (fun m hm1 hm2 => hpre m hm1 hm2) hbad
      have hcast : syscall_handler E f w = (sys_exit E (-1) (w.logs (probes f.esp 4 ++
          (words_probes f.esp (j - 1) 1 ++ probes (padd f.esp (4 * j)) k)))).cast := by
        rw [hmain, hrun, World.logs_logs]
        exact Outcome.bind_of_not_returned _ _ (sys_exit_not_returned E (-1) _)
      exact ⟨k, hk, hcast, by rw [hcast]; exact Outcome.cast_not_returned _⟩
    · intro hall
      have hok := validate_words_ok E hPB f.esp a 1 (w.logs (probes f.esp 4))
        (fun m hm1 hm2 => hall m hm1 (by omega))
      rw [hmain, hok, Outcome.bind_ret, World.logs_logs]

/-- Witness for C3 on the example memory: a `read` request whose second
argument word crosses the split is stopped before the handler. -/
theorem partially_validated_never_execute_witness :
    ∃ k, k ≤ 4 ∧
      syscall_handler demo_kernel { esp := 56, eax := 0 } (demo_world demo_mem [] 2) =
        (sys_exit demo_kernel (-1) ((demo_world demo_mem [] 2).logs (probes 56 4 ++
          (words_probes 56 (2 - 1) 1 ++ probes (padd 56 (4 * 2)) k)))).cast ∧
      (syscall_handler demo_kernel { esp := 56, eax := 0 }
        (demo_world demo_mem [] 2)).returned = false :=
  ((partially_validated_never_execute demo_kernel { esp := 56, eax := 0 }
      (demo_world demo_mem [] 2) (by decide) (by decide) (by decide)).2 8 3
      (by decide) (by decide) (by decide)).1 2 (by decide) (by decide)
      (by decide) (by decide)

theorem wrap_int32_id (i : Int) (h1 : -2147483648 ≤ i) (h2 : i < 2147483648) :
    to_int32 (to_u32 i) = i := by
  unfold to_int32 to_u32
  split_ifs <;> omega

theorem check_str_loop_frame (E : Kernel σ) (fuel : Nat) :
    ∀ (p : Nat) (w : World σ),
      (∃ b es, check_str_loop E fuel p w = Outcome.ret b (w.logs es)) ∨
      check_str_loop E fuel p w = Outcome.diverge := by
  induction fuel with
  | zero => intro p w; right; rfl
  | succ fuel ih =>
    intro p w
    by_cases hge : p ≥ E.PHYS_BASE
    · left; exact ⟨false, [], by simp [check_str_loop, hge]⟩
    · simp only [check_str_loop, hge, if_false, K.bind_apply, get_user, Outcome.bind_ret]
      split_ifs with h1 h2
      · left; exact ⟨false, [Event.get_user p], rfl⟩
      · left; exact ⟨true, [Event.get_user p], rfl⟩
      · rcases ih (padd p 1) (w.log (Event.get_user p)) with ⟨b, es, h⟩ | h
        · left; exact ⟨b, Event.get_user p :: es, by rw [h, World.log_eq_logs, World.logs_logs]; rfl⟩
        · right; exact h

theorem check_str_frame (E : Kernel σ) (p : Nat) (w : World σ) :
    (∃ es, check_str E p w = Outcome.ret () (w.logs es)) ∨
    (check_str E p w).returned = false := by
  rcases check_str_loop_frame E 4294967297 p w with ⟨b, es, h⟩ | h
  · cases b with
    | true => left; exact ⟨es, by simp [check_str, h]⟩
    | false => right; simp [check_str, h, sys_exit_not_returned]
  · right; simp [check_str, h, Outcome.bind, Outcome.returned]

theorem Outcome.ensures_of_not_returned {α : Type} (o : Outcome σ α) (Q : α → World σ → Prop)
    (h : o.returned = false) : o.ensures Q := by
  cases o <;> simp_all [Outcome.ensures, Outcome.returned]

theorem sys_open_post (E : Kernel σ) (file : Nat) (w : World σ) :
    (sys_open E file w).ensures (fun r w1 =>
      w1.cur = w.cur ∧ w1.me.pcb.pagedir = w.me.pcb.pagedir ∧
      ((w1.me.pcb.fd_list = w.me.pcb.fd_list ∧ w1.me.pcb.next_fd = w.me.pcb.next_fd) ∨
       (∃ h, r = w.me.pcb.next_fd ∧
          w1.me.pcb.fd_list = { fd := w.me.pcb.next_fd, file := h } :: w.me.pcb.fd_list ∧
          w1.me.pcb.next_fd = to_int32 (to_u32 (w.me.pcb.next_fd + 1))))) := by
  rcases check_str_frame E file w with ⟨es, h⟩ | h
  · simp only [sys_open, K.bind_apply, h, Outcome.bind_ret, get_world, lock_acquire]
    cases hl : w.lock with
    | some t =>
      simp only [World.logs, hl]
      split_ifs <;> exact trivial
    | none =>
      cases hf : (E.filesys_open w.fs w.me.pcb.pagedir file).2 with
      | none =>
        simp only [World.me] at hf
        simp [World.logs, hl, Pintos.filesys_open, World.log, World.me, hf, lock_release,
          Outcome.ensures]
      | some fh =>
        simp only [World.me] at hf
        simp [World.logs, hl, Pintos.filesys_open, World.log, World.me, hf, lock_release,
          Outcome.ensures, get_world, set_world, World.set_pcb, World.set_thread, upd]
  · apply Outcome.ensures_of_not_returned
    simp only [sys_open, K.bind_apply]
    cases hc : check_str E file w <;> simp_all [Outcome.bind, Outcome.returned]
theorem sys_close_post (E : Kernel σ) (fd : Int) (w : World σ) :
    (sys_close E fd w).ensures (fun _ w1 =>
      w1.cur = w.cur ∧ w1.me.pcb.pagedir = w.me.pcb.pagedir ∧
      w1.me.pcb.next_fd = w.me.pcb.next_fd ∧
      ((get_fd w.me.pcb fd = none ∧ w1 = w) ∨
       w1.me.pcb.fd_list = remove_fd w.me.pcb.fd_list fd)) := by
  simp only [sys_close, K.bind_apply, get_world, Outcome.bind_ret]
  cases hg : get_fd w.me.pcb fd with
  | none => simp [Outcome.ensures]
  | some f_info =>
    cases hl : w.lock with
    | some t =>
      simp only [K.bind_apply, lock_acquire, hl]
      split_ifs <;> exact trivial
    | none =>
      simp [K.bind_apply, lock_acquire, hl, Pintos.file_close, World.log, World.me, lock_release,
        Outcome.ensures, get_world, set_world, World.set_pcb, World.set_thread, upd]

/-- Table invariant: the active descriptors are pairwise distinct and all
smaller than `next_fd`. -/
theorem fd_invariant_step (E : Kernel σ) (c : Call) (w : World σ)
    (hnd : w.fds.Nodup) (hlt : ∀ fd ∈ w.fds, fd < w.me.pcb.next_fd)
    (hlo : -2147483648 ≤ w.me.pcb.next_fd) (hhi : w.me.pcb.next_fd + 1 < 2147483648) :
    (run_call E c w).ensures (fun r w1 =>
      w1.fds.Nodup ∧ (∀ fd ∈ w1.fds, fd < w1.me.pcb.next_fd) ∧
      w.me.pcb.next_fd ≤ w1.me.pcb.next_fd ∧ w1.me.pcb.next_fd ≤ w.me.pcb.next_fd + 1 ∧
      (∀ fd ∈ w1.fds, fd ∈ w.fds ∨ r = some fd) ∧
      (∀ fd, r = some fd → fd = w.me.pcb.next_fd ∧ w1.me.pcb.next_fd = fd + 1)) := by
  cases c with
  | sys_open file =>
    have hpost := sys_open_post E file w
    simp only [run_call]
    cases ho : Pintos.sys_open E file w with
    | ret r w1 =>
      rw [ho] at hpost
      obtain ⟨_, _, hcase⟩ := hpost
      simp only [Outcome.bind_ret, Outcome.ensures]
      rcases hcase with ⟨hl, hn⟩ | ⟨h, hr, hl, hn⟩
      · have hfds : w1.fds = w.fds := by simp [World.fds, hl]
        have hif : ¬ (w1.me.pcb.fd_list.length = w.me.pcb.fd_list.length + 1) := by
          rw [hl]; omega
        simp only [hif, if_false, hfds, hn]
        exact ⟨hnd, hlt, le_refl _, by omega, fun fd hfd => Or.inl hfd,
          fun fd hfd => by cases hfd⟩
      · have hwrap := wrap_int32_id (w.me.pcb.next_fd + 1) (by omega) hhi
        have hfds : w1.fds = w.me.pcb.next_fd :: w.fds := by simp [World.fds, hl]
        rw [hwrap] at hn
        simp only [hfds, hl, hn, List.length_cons, if_true, List.nodup_cons, hnd, and_true,
          List.mem_cons, hr]
        refine ⟨fun hmem => ?_, ?_, by omega, by omega, ?_, ?_⟩
        · exact absurd (hlt _ hmem) (lt_irrefl _)
        · rintro fd (rfl | hfd)
          · omega
          · have := hlt fd hfd; omega
        · rintro fd (rfl | hfd)
          · exact Or.inr rfl
          · exact Or.inl hfd
        · intro fd hfd
          cases hfd
          exact ⟨rfl, rfl⟩
    | exited s w1 => exact trivial
    | halted w1 => exact trivial
    | panic w1 => exact trivial
    | blocked w1 => exact trivial
    | diverge => exact trivial
  | sys_close fd =>
    have hpost := sys_close_post E fd w
    simp only [run_call]
    cases ho : Pintos.sys_close E fd w with
    | ret r w1 =>
      rw [ho] at hpost
      obtain ⟨_, _, hn, hcase⟩ := hpost
      simp only [Outcome.bind_ret, Outcome.ensures]
      rcases hcase with ⟨_, rfl⟩ | hl
      · exact ⟨hnd, hlt, le_refl _, by omega, fun fd hfd => Or.inl hfd, by simp⟩
      · have hsub : List.Sublist w1.fds w.fds := by
          simp only [World.fds, hl, remove_fd]
          exact List.Sublist.map _ (List.eraseP_sublist _)
        refine ⟨hnd.sublist hsub, ?_, by omega, by omega, ?_, by simp⟩
        · intro fd hfd
          rw [hn]
          exact hlt fd (hsub.subset hfd)
        · intro fd hfd
          exact Or.inl (hsub.subset hfd)
    | exited s w1 => exact trivial
    | halted w1 => exact trivial
    | panic w1 => exact trivial
    | blocked w1 => exact trivial
    | diverge => exact trivial


theorem run_calls_cons_ret (E : Kernel σ) (c : Call) (cs : List Call) (w : World σ)
    (r : Option Int) (w1 : World σ) (h : run_call E c w = Outcome.ret r w1) :
    run_calls E (c :: cs) w = (r.toList ++ (run_calls E cs w1).1, (run_calls E cs w1).2) := by
  simp [run_calls, h]

theorem run_calls_cons_stop (E : Kernel σ) (c : Call) (cs : List Call) (w : World σ)
    (h : (run_call E c w).returned = false) : run_calls E (c :: cs) w = ([], w) := by
  cases hc : run_call E c w <;> simp_all [run_calls, Outcome.returned]

theorem run_calls_invariant (E : Kernel σ) (calls : List Call) :
    ∀ (w : World σ), w.fds.Nodup → (∀ fd ∈ w.fds, fd < w.me.pcb.next_fd) →
      -2147483648 ≤ w.me.pcb.next_fd → w.me.pcb.next_fd + calls.length < 2147483648 →
      (run_calls E calls w).1.Nodup ∧
      (∀ fd ∈ (run_calls E calls w).1, w.me.pcb.next_fd ≤ fd) ∧
      (run_calls E calls w).2.fds.Nodup ∧
      (∀ fd ∈ (run_calls E calls w).2.fds, fd < (run_calls E calls w).2.me.pcb.next_fd) ∧
      (∀ fd ∈ (run_calls E calls w).2.fds, fd ∈ w.fds ∨ fd ∈ (run_calls E calls w).1) := by
  induction calls with
  | nil =>
    intro w hnd hlt _ _
    exact ⟨List.nodup_nil, by simp [run_calls], hnd, hlt, fun fd hfd => Or.inl hfd⟩
  | cons c cs ih =>
    intro w hnd hlt hlo hhi
    simp only [List.length_cons, Nat.cast_add, Nat.cast_one] at hhi
    have hstep := fd_invariant_step E c w hnd hlt hlo (by omega)
    have hstop : (run_call E c w).returned = false → run_calls E (c :: cs) w = ([], w) :=
      run_calls_cons_stop E c cs w
    cases hc : run_call E c w with
    | ret r w1 =>
      rw [hc] at hstep
      obtain ⟨hnd1, hlt1, hle, hle1, hsub, hr⟩ := hstep
      obtain ⟨h1, h2, h3, h4, h5⟩ := ih w1 hnd1 hlt1 (by omega) (by omega)
      rw [run_calls_cons_ret E c cs w r w1 hc]
      dsimp only
      refine ⟨?_, ?_, h3, h4, ?_⟩
      · cases r with
        | none => simpa using h1
        | some fd =>
          obtain ⟨hfd, hn1⟩ := hr fd rfl
          simp only [Option.toList, List.singleton_append, List.nodup_cons, h1, and_true]
          intro hmem
          have := h2 fd hmem
          omega
      · intro fd hfd
        rcases List.mem_append.mp hfd with hm | hm
        · cases r with
          | none => simp at hm
          | some fd0 =>
            obtain ⟨hfd0, _⟩ := hr fd0 rfl
            simp only [Option.toList, List.mem_singleton] at hm
            omega
        · have := h2 fd hm; omega
      · intro fd hfd
        rcases h5 fd hfd with hm | hm
        · rcases hsub fd hm with hm0 | hm0
          · exact Or.inl hm0
          · right; rw [hm0]; simp
        · right; exact List.mem_append.mpr (Or.inr hm)
    | exited s w1 =>
      rw [hstop (by rw [hc]; rfl)]
      exact ⟨List.nodup_nil, by simp, hnd, hlt, fun fd hfd => Or.inl hfd⟩
    | halted w1 =>
      rw [hstop (by rw [hc]; rfl)]
      exact ⟨List.nodup_nil, by simp, hnd, hlt, fun fd hfd => Or.inl hfd⟩
    | panic w1 =>
      rw [hstop (by rw [hc]; rfl)]
      exact ⟨List.nodup_nil, by simp, hnd, hlt, fun fd hfd => Or.inl hfd⟩
    | blocked w1 =>
      rw [hstop (by rw [hc]; rfl)]
      exact ⟨List.nodup_nil, by simp, hnd, hlt, fun fd hfd => Or.inl hfd⟩
    | diverge =>
      rw [hstop (by rw [hc]; rfl)]
      exact ⟨List.nodup_nil, by simp, hnd, hlt, fun fd hfd => Or.inl hfd⟩

/-- C4: descriptor uniqueness.  From a state whose active descriptors are
pairwise distinct and all smaller than `next_fd`, and for every sequence of
`sys_open` and `sys_close` calls during which the counter does not overflow,
the initially active descriptors followed by the descriptors the successful
opens return form a list without repetition (so a returned descriptor differs
from every descriptor active before it, closed or not), the active entries at
the end have pairwise distinct descriptors smaller than `next_fd`, and every
active descriptor was active initially or was returned by one of the opens. -/
theorem descriptor_uniqueness (E : Kernel σ) (w : World σ) (calls : List Call)
    (hnd : w.fds.Nodup) (hlt : ∀ fd ∈ w.fds, fd < w.me.pcb.next_fd)
    (hlo : -2147483648 ≤ w.me.pcb.next_fd)
    (hhi : w.me.pcb.next_fd + calls.length < 2147483648) :
    (w.fds ++ (run_calls E calls w).1).Nodup ∧
    (run_calls E calls w).2.fds.Nodup ∧
    (∀ fd ∈ (run_calls E calls w).2.fds, fd < (run_calls E calls w).2.me.pcb.next_fd) ∧
    (∀ fd ∈ (run_calls E calls w).2.fds, fd ∈ w.fds ∨ fd ∈ (run_calls E calls w).1) := by
  obtain ⟨h1, h2, h3, h4, h5⟩ := run_calls_invariant E calls w hnd hlt hlo hhi
  refine ⟨List.nodup_append.mpr ⟨hnd, h1, ?_⟩, h3, h4, h5⟩
  intro fd hfd hfd1
  have := hlt fd hfd
  have := h2 fd hfd1
  omega

/-- Witness for C4: from the table with descriptor 2 and counter 3, two
opens return 3 and 4. -/
theorem descriptor_uniqueness_witness :
    (run_calls demo_kernel
        [Call.sys_open 44, Call.sys_open 44]
        (demo_world demo_mem [{ fd := 2, file := 100 }] 3)).1 = [3, 4] ∧
    ((demo_world demo_mem [{ fd := 2, file := 100 }] 3).fds ++ (run_calls demo_kernel
        [Call.sys_open 44, Call.sys_open 44]
        (demo_world demo_mem [{ fd := 2, file := 100 }] 3)).1).Nodup :=
  ⟨by rfl,
   (descriptor_uniqueness demo_kernel (demo_world demo_mem [{ fd := 2, file := 100 }] 3)
      [Call.sys_open 44, Call.sys_open 44]
      (by decide) (by decide) (by decide) (by decide)).1⟩

/-! ## Descriptor lifecycle -/

theorem find_eraseP_none (l : List file_info) (fd : Int)
    (h : (l.map (fun e => e.fd)).Nodup) :
    (l.eraseP (fun e => decide (e.fd = fd))).find? (fun e => decide (e.fd = fd)) = none := by
  induction l with
  | nil => rfl
  | cons e l ih =>
    simp only [List.map_cons, List.nodup_cons] at h
    by_cases he : e.fd = fd
    · simp only [List.eraseP_cons, he, decide_True, cond_true]
      rw [List.find?_eq_none]
      intro x hx
      have : x.fd ∈ l.map (fun e => e.fd) := List.mem_map_of_mem _ hx
      simp only [decide_eq_true_eq]
      intro hxe
      exact h.1 (by rw [he, ← hxe]; exact this)
    · simp [List.eraseP_cons, he, ih h.2]

theorem sys_close_forgets (E : Kernel σ) (fd : Int) (w w1 : World σ) (hnd : w.fds.Nodup)
    (h : sys_close E fd w = Outcome.ret () w1) : get_fd w1.me.pcb fd = none := by
  have hpost := sys_close_post E fd w
  rw [h] at hpost
  obtain ⟨_, _, _, hcase⟩ := hpost
  rcases hcase with ⟨hg, rfl⟩ | hl
  · exact hg
  · simp only [get_fd, hl, remove_fd]
    exact find_eraseP_none _ fd hnd

theorem fd_op_unknown (E : Kernel σ) (hPB : E.PHYS_BASE < 4294967296) (fd : Int) (hfd : 2 ≤ fd)
    (op : FdOp) (w : World σ) (hg : get_fd w.me.pcb fd = none) (hb : op.buffer_ok E w) :
    ∃ es, (∀ e ∈ es, Event.is_probe e) ∧
      fd_op E fd op w = Outcome.ret 4294967295 (w.logs es) := by
  have hm1 : to_u32 (-1) = 4294967295 := by decide
  cases op with
  | filesize =>
    exact ⟨[], by simp, by simp [fd_op, sys_filesize, get_world, hg, hm1]⟩
  | tell =>
    exact ⟨[], by simp, by simp [fd_op, sys_tell, get_world, hg, hm1]⟩
  | read buffer size =>
    obtain ⟨n, hn⟩ := hb
    refine ⟨probes buffer (n + 1), ?_, ?_⟩
    · intro e he
      simp only [probes, List.mem_map] at he
      obtain ⟨j, _, rfl⟩ := he
      exact trivial
    · simp [fd_op, sys_read, check_str_ok E w buffer n hPB hn, get_world, hg, hm1]
  | write buffer size =>
    obtain ⟨n, hn⟩ := hb
    have h0 : ¬ fd = 0 := by omega
    have h1 : ¬ fd = 1 := by omega
    refine ⟨probes buffer (n + 1), ?_, ?_⟩
    · intro e he
      simp only [probes, List.mem_map] at he
      obtain ⟨j, _, rfl⟩ := he
      exact trivial
    · simp [fd_op, sys_write, check_str_ok E w buffer n hPB hn, get_world, hg, hm1, h0, h1]

theorem buffer_ok_logs (E : Kernel σ) (w : World σ) (es : List Event) (op : FdOp) :
    op.buffer_ok E (w.logs es) ↔ op.buffer_ok E w := by
  cases op <;> exact Iff.rfl

theorem fd_ops_unknown (E : Kernel σ) (hPB : E.PHYS_BASE < 4294967296) (fd : Int) (hfd : 2 ≤ fd)
    (ops : List FdOp) :
    ∀ (w : World σ), get_fd w.me.pcb fd = none → (∀ op ∈ ops, op.buffer_ok E w) →
      ∃ es, (∀ e ∈ es, Event.is_probe e) ∧
        fd_ops E fd ops w = Outcome.ret (List.replicate ops.length 4294967295) (w.logs es) := by
  induction ops with
  | nil => intro w _ _; exact ⟨[], by simp, by simp [fd_ops]⟩
  | cons op ops ih =>
    intro w hg hb
    obtain ⟨es1, hes1, h1⟩ := fd_op_unknown E hPB fd hfd op w hg (hb op (List.mem_cons_self _ _))
    obtain ⟨es2, hes2, h2⟩ := ih (w.logs es1) hg
      (fun o ho => (buffer_ok_logs E w es1 o).mpr (hb o (List.mem_cons_of_mem _ ho)))
    refine ⟨es1 ++ es2, ?_, ?_⟩
    · intro e he
      rcases List.mem_append.mp he with h | h
      · exact hes1 e h
      · exact hes2 e h
    · simp [fd_ops, h1, h2, List.replicate_succ]

/-- C5: descriptor lifecycle.  Take a state with pairwise distinct descriptors
and a descriptor `fd >= 2`.  In the state reached by `sys_close (fd)`, and in
any state whose table has no entry for `fd` (a descriptor never opened), every
sequence of `sys_filesize`, `sys_tell`, `sys_read` and `sys_write` calls on `fd`
(with buffers that are valid strings) returns `-1` each time, and the only
events are read probes of the buffers: the storage engine is not called and
the state is otherwise unchanged, so `fd` stays unknown. -/
theorem fd_lifecycle (E : Kernel σ) (w : World σ) (fd : Int)
    (hPB : E.PHYS_BASE < 4294967296) (hfd : 2 ≤ fd) (hnd : w.fds.Nodup) :
    (∀ w1, sys_close E fd w = Outcome.ret () w1 →
      get_fd w1.me.pcb fd = none ∧
      ∀ ops : List FdOp, (∀ op ∈ ops, op.buffer_ok E w1) →
        ∃ es, (∀ e ∈ es, Event.is_probe e) ∧
          fd_ops E fd ops w1 =
            Outcome.ret (List.replicate ops.length 4294967295) (w1.logs es)) ∧
    (get_fd w.me.pcb fd = none →
      ∀ ops : List FdOp, (∀ op ∈ ops, op.buffer_ok E w) →
        ∃ es, (∀ e ∈ es, Event.is_probe e) ∧
          fd_ops E fd ops w =
            Outcome.ret (List.replicate ops.length 4294967295) (w.logs es)) := by
  refine ⟨?_, ?_⟩
  · intro w1 hclose
    have hg := sys_close_forgets E fd w w1 hnd hclose
    exact ⟨hg, fun ops hb => fd_ops_unknown E hPB fd hfd ops w1 hg hb⟩
  · intro hg ops hb
    exact fd_ops_unknown E hPB fd hfd ops w hg hb

/-- Witness for C5: after `sys_close (2)` on the table holding descriptor 2, and
for the never-opened descriptor 7, the four requests return `-1`. -/
theorem fd_lifecycle_witness :
    (sys_close demo_kernel 2 (demo_world demo_mem [{ fd := 2, file := 100 }] 3)).returned = true ∧
    (∀ w1, sys_close demo_kernel 2 (demo_world demo_mem [{ fd := 2, file := 100 }] 3) =
        Outcome.ret () w1 →
      get_fd w1.me.pcb 2 = none ∧
      ∀ ops : List FdOp, (∀ op ∈ ops, op.buffer_ok demo_kernel w1) →
        ∃ es, (∀ e ∈ es, Event.is_probe e) ∧
          fd_ops demo_kernel 2 ops w1 =
            Outcome.ret (List.replicate ops.length 4294967295) (w1.logs es)) ∧
    (∃ es, (∀ e ∈ es, Event.is_probe e) ∧
      fd_ops demo_kernel 7 [FdOp.filesize, FdOp.tell, FdOp.read 40 5, FdOp.write 40 2]
          (demo_world demo_mem [{ fd := 2, file := 100 }] 3) =
        Outcome.ret [4294967295, 4294967295, 4294967295, 4294967295]
          ((demo_world demo_mem [{ fd := 2, file := 100 }] 3).logs es)) :=
  ⟨by rfl,
   (fd_lifecycle demo_kernel (demo_world demo_mem [{ fd := 2, file := 100 }] 3) 2
      (by decide) (by decide) (by decide)).1,
   (fd_lifecycle demo_kernel (demo_world demo_mem [{ fd := 2, file := 100 }] 3) 7
      (by decide) (by decide) (by decide)).2 (by decide)
      [FdOp.filesize, FdOp.tell, FdOp.read 40 5, FdOp.write 40 2]
      (by
        intro op hop
        simp only [List.mem_cons, List.mem_singleton, List.not_mem_nil, or_false] at hop
        rcases hop with rfl | rfl | rfl | rfl
        · trivial
        · trivial
        · exact ⟨2, by decide⟩
        · exact ⟨2, by decide⟩)⟩

/-! ## Results delivered through the frame -/

/-- C6 (evaluation at the failing input): with no entry for descriptor 5 and the
result slot holding 77 on entry, `seek (5, 0)` and `close (5)` return to the
caller with the slot still holding 77, while `filesize (5)` and `tell (5)`
store the word 4294967295, that is `-1`. -/
theorem unknown_fd_result_slot :
    (syscall_handler demo_kernel { esp := 8, eax := 77 } (demo_world demo_mem [] 2)).result =
      some { esp := 8, eax := 77 } ∧
    (syscall_handler demo_kernel { esp := 24, eax := 77 } (demo_world demo_mem [] 2)).result =
      some { esp := 24, eax := 77 } ∧
    (syscall_handler demo_kernel { esp := 32, eax := 77 } (demo_world demo_mem [] 2)).result =
      some { esp := 32, eax := 4294967295 } ∧
    (syscall_handler demo_kernel { esp := 48, eax := 77 } (demo_world demo_mem [] 2)).result =
      some { esp := 48, eax := 4294967295 } :=
  ⟨by rfl, by rfl, by rfl, by rfl⟩

/-- C8 (evaluation at the failing input): `sys_write (1, "hi", 1)` returns 2 and
prints both bytes of the string although one byte was requested, and
`sys_write (1, "f", 5)` returns 1 and prints one byte although five were
requested; neither call makes a storage-engine call. -/
theorem stdout_write_ignores_size :
    (sys_write demo_kernel 1 40 1 (demo_world demo_mem [] 2)).result = some 2 ∧
    (sys_write demo_kernel 1 40 1 (demo_world demo_mem [] 2)).world.map (fun w => w.trace) =
      some [Event.get_user 40, Event.get_user 41, Event.get_user 42,
        Event.printf_str [104, 105]] ∧
    (sys_write demo_kernel 1 44 5 (demo_world demo_mem [] 2)).result = some 1 ∧
    (sys_write demo_kernel 1 44 5 (demo_world demo_mem [] 2)).world.map (fun w => w.trace) =
      some [Event.get_user 44, Event.get_user 45, Event.printf_str [102]] :=
  ⟨by rfl, by rfl, by rfl, by rfl⟩

/-- C10 (evaluation at the failing input): with the split at 64, a buffer that
starts at the last user byte 63 (holding a NUL) and a two-byte read, `sys_read`
returns 2 and stores the second byte at address 64, which is not below
`PHYS_BASE`. -/
theorem read_writes_past_split :
    demo_kernel.PHYS_BASE = 64 ∧
    (demo_world demo_mem [{ fd := 3, file := 100 }] 4).me.pcb.pagedir 64 = some 7 ∧
    (sys_read demo_kernel 3 63 2 (demo_world demo_mem [{ fd := 3, file := 100 }] 4)).result =
      some 2 ∧
    (sys_read demo_kernel 3 63 2 (demo_world demo_mem [{ fd := 3, file := 100 }] 4)).world.map
      (fun w => w.me.pcb.pagedir 64) = some (some 65) ∧
    (sys_read demo_kernel 3 63 2 (demo_world demo_mem [{ fd := 3, file := 100 }] 4)).world.map
      (fun w => w.trace) =
      some [Event.get_user 63, Event.lock_acquire 1, Event.file_read 100 2, Event.lock_release 1,
        Event.put_user 63 65 true, Event.put_user 64 65 true] :=
  ⟨by rfl, by rfl, by rfl, by rfl, by rfl⟩

/-! ## Lifecycle coordinator -/

@[simp] theorem upd_same {α : Type} (f : Int → α) (i : Int) (v : α) : upd f i v i = v := by
  simp [upd]

theorem upd_other {α : Type} (f : Int → α) (i j : Int) (v : α) (h : j ≠ i) :
    upd f i v j = f j := by
  simp [upd, h]

theorem close_all_frame (E : Kernel σ) (t : Int) (l : List file_info) :
    ∀ (w : World σ), ∃ w1, close_all E t l w = Outcome.ret () w1 ∧
      w1.cur = w.cur ∧ w1.lock = w.lock ∧
      ∀ x, (w1.threads x).child_exit_status = (w.threads x).child_exit_status := by
  induction l with
  | nil => intro w; exact ⟨w, rfl, rfl, rfl, fun _ => rfl⟩
  | cons f_info rest ih =>
    intro w
    obtain ⟨w1, h1, hc, hl, hx⟩ := ih (({ (w.set_pcb t { (w.threads t).pcb with fd_list := rest })
      with fs := E.file_close w.fs f_info.file }).log (Event.file_close f_info.file))
    refine ⟨w1, ?_, hc, hl, ?_⟩
    · simp only [close_all, K.bind_apply, Pintos.file_close, Outcome.bind_ret]
      exact h1
    · intro x
      rw [hx x]
      by_cases hxt : x = t
      · subst hxt; simp [World.log, World.set_pcb, World.set_thread]
      · simp [World.log, World.set_pcb, World.set_thread, upd_other _ _ _ _ hxt]

theorem orphan_children_frame (t : Int) (l : List child_status) :
    ∀ (w w1 : World σ), orphan_children t l w = Outcome.ret () w1 →
      w1.cur = w.cur ∧ w1.lock = w.lock ∧
      (∀ x, x ≠ t → (w1.threads x).child_exit_status = (w.threads x).child_exit_status) ∧
      (∀ x, (w1.threads x).tid = (w.threads x).tid) ∧
      (∀ x, (∀ cs ∈ l, cs.child ≠ some x) → (w1.threads x).parent = (w.threads x).parent) := by
  induction l with
  | nil =>
    intro w w1 h
    simp only [orphan_children, K.pure_apply, Outcome.ret.injEq, true_and] at h
    subst h
    exact ⟨rfl, rfl, fun _ _ => rfl, fun _ => rfl, fun _ _ => rfl⟩
  | cons cs rest ih =>
    intro w w1 h
    cases hch : cs.child with
    | none => simp [orphan_children, hch] at h
    | some ch =>
      simp only [orphan_children, hch] at h
      obtain ⟨hc, hl, hlist, htid, hpar⟩ := ih _ _ h
      refine ⟨hc, hl, ?_, ?_, ?_⟩
      · intro x hx
        rw [hlist x hx]
        simp only [World.set_thread, World.log, upd_other _ _ _ _ hx]
        by_cases hxc : x = ch
        · subst hxc; simp
        · simp [upd_other _ _ _ _ hxc]
      · intro x
        rw [htid x]
        by_cases hxt : x = t
        · subst hxt
          by_cases hxc : x = ch
          · subst hxc; simp [World.set_thread, World.log, upd]
          · simp [World.set_thread, World.log, upd, hxc]
        · by_cases hxc : x = ch
          · subst hxc; simp [World.set_thread, World.log, upd, hxt]
          · simp [World.set_thread, World.log, upd, hxt, hxc]
      · intro x hx
        have hne : x ≠ ch := by
          intro hxe
          exact hx cs (List.mem_cons_self _ _) (by rw [hch, hxe])
        rw [hpar x (fun c hc' => hx c (List.mem_cons_of_mem _ hc'))]
        by_cases hxt : x = t
        · subst hxt; simp [World.set_thread, World.log, upd, hne]
        · simp [World.set_thread, World.log, upd, hxt, hne]

theorem find_set_child (l : List child_status) (pid : Int) (f : child_status → child_status)
    (hf : ∀ c, (f c).pid = c.pid) :
    (set_child l pid f).find? (fun c => decide (c.pid = pid)) =
      (l.find? (fun c => decide (c.pid = pid))).map f := by
  induction l with
  | nil => rfl
  | cons c cs ih =>
    by_cases hc : c.pid = pid
    · simp [set_child, hc, hf]
    · simp [set_child, hc, ih]

theorem map_pid_set_child (l : List child_status) (pid : Int) (f : child_status → child_status)
    (hf : ∀ c, (f c).pid = c.pid) :
    (set_child l pid f).map (fun c => c.pid) = l.map (fun c => c.pid) := by
  induction l with
  | nil => rfl
  | cons c cs ih =>
    by_cases hc : c.pid = pid
    · simp [set_child, hc, hf]
    · simp [set_child, hc, ih]

theorem find_remove_child_none (l : List child_status) (pid : Int)
    (h : (l.map (fun c => c.pid)).Nodup) :
    (remove_child l pid).find? (fun c => decide (c.pid = pid)) = none := by
  induction l with
  | nil => rfl
  | cons e l ih =>
    simp only [List.map_cons, List.nodup_cons] at h
    by_cases he : e.pid = pid
    · simp only [remove_child, List.eraseP_cons, he, decide_True, cond_true]
      rw [List.find?_eq_none]
      intro x hx
      have : x.pid ∈ l.map (fun c => c.pid) := List.mem_map_of_mem _ hx
      simp only [decide_eq_true_eq]
      intro hxe
      exact h.1 (by rw [he, ← hxe]; exact this)
    · have := ih h.2
      simp only [remove_child] at this
      simp [remove_child, List.eraseP_cons, he, this]

theorem orphan_children_cases (t : Int) (l : List child_status) :
    ∀ (w : World σ), (∃ w1, orphan_children t l w = Outcome.ret () w1) ∨
      (∃ w1, orphan_children t l w = Outcome.panic w1) := by
  induction l with
  | nil => intro w; exact Or.inl ⟨w, rfl⟩
  | cons cs rest ih =>
    intro w
    cases hch : cs.child with
    | none => exact Or.inr ⟨w, by simp [orphan_children, hch]⟩
    | some ch =>
      simp only [orphan_children, hch]
      exact ih _

theorem sys_exit_publishes (E : Kernel σ) (s s1 : Int) (w w1 : World σ) (p : Int)
    (rec : child_status)
    (hpc : p ≠ w.cur) (htid : (w.threads w.cur).tid = w.cur)
    (hpar : (w.threads w.cur).parent = some p)
    (hrec : get_child (w.threads p) w.cur = some rec)
    (hself : ∀ cs ∈ (w.threads w.cur).child_exit_status, cs.child ≠ some w.cur)
    (hexit : sys_exit E s w = Outcome.exited s1 w1) :
    s1 = s ∧ (w1.threads p).child_exit_status =
      set_child (w.threads p).child_exit_status w.cur
        (fun c => { c with exit_status := s, child := none, sema := c.sema + 1 }) := by
  simp only [sys_exit, K.bind_apply, get_world, emit, Outcome.bind_ret] at hexit
  rcases orphan_children_cases w.cur (w.threads w.cur).child_exit_status
    (w.log (Event.printf_exit (w.threads w.cur).pcb.process_name s)) with ⟨wa, ho⟩ | ⟨wa, ho⟩
  · rw [ho] at hexit
    obtain ⟨hc, hl, hlist, htid1, hpar1⟩ := orphan_children_frame _ _ _ _ ho
    have hpa : (wa.threads w.cur).parent = some p := by
      rw [hpar1 w.cur hself]; exact hpar
    have hta : (wa.threads w.cur).tid = w.cur := by
      rw [htid1 w.cur]; exact htid
    have hla : (wa.threads p).child_exit_status = (w.threads p).child_exit_status :=
      hlist p hpc
    have hga : get_child (wa.threads p) w.cur = some rec := by
      unfold get_child; rw [hla]; exact hrec
    simp only [K.bind_apply, Outcome.bind_ret, notify_parent, hpa, hta, hga] at hexit
    cases hlock : wa.lock with
    | some h =>
      simp only [lock_acquire, World.log, World.set_thread, hlock] at hexit
      split_ifs at hexit <;> simp [Outcome.bind] at hexit
    | none =>
      simp only [lock_acquire, World.log, World.set_thread, hlock, Outcome.bind_ret,
        K.bind_apply, get_world, Pintos.file_close] at hexit
      generalize hca : close_all E w.cur _ _ = r at hexit
      obtain ⟨wd, hcl, hcd, hld, hxd⟩ := close_all_frame E w.cur _ _ |>.imp fun _ h => hca ▸ h
      simp only at hcd hld
      have hxp := hxd p
      simp only [upd_same] at hxp
      rw [hcl] at hexit
      simp only [Outcome.bind_ret, K.bind_apply, lock_release, hld, hcd, if_true, World.log,
        process_exit, Outcome.exited.injEq] at hexit
      obtain ⟨hs, hw⟩ := hexit
      refine ⟨hs.symm, ?_⟩
      rw [← hw]
      simp only [hxp, hla]
  · rw [ho] at hexit
    simp [Outcome.bind] at hexit

theorem sys_wait_none (w : World σ) (pid : Int) (h : get_child (w.threads w.cur) pid = none) :
    sys_wait pid w = Outcome.ret (-1) w := by
  simp [sys_wait, get_world, h]

theorem sys_wait_found (w : World σ) (pid : Int) (rec : child_status)
    (h : get_child (w.threads w.cur) pid = some rec) (hs : rec.sema ≠ 0) :
    ∃ w2, sys_wait pid w = Outcome.ret rec.exit_status w2 ∧ w2.cur = w.cur ∧
      (∀ x, x ≠ w.cur → w2.threads x = w.threads x) ∧
      (w2.threads w.cur).child_exit_status =
        remove_child (set_child (w.threads w.cur).child_exit_status pid
          (fun c => { c with sema := c.sema - 1 })) pid := by
  have hfind := find_set_child (w.threads w.cur).child_exit_status pid
    (fun c => { c with sema := c.sema - 1 }) (fun _ => rfl)
  unfold get_child at h
  rw [h] at hfind
  simp only [Option.map_some'] at hfind
  refine ⟨(((w.set_thread w.cur
      { w.threads w.cur with
        child_exit_status := (set_child (w.threads w.cur).child_exit_status pid
          (fun c => { c with sema := c.sema - 1 })) }).log (Event.sema_down w.cur pid)).set_thread
      w.cur
      { w.threads w.cur with
        child_exit_status := (remove_child (set_child (w.threads w.cur).child_exit_status pid
          (fun c => { c with sema := c.sema - 1 })) pid) }), ?_, ?_, ?_, ?_⟩
  · simp only [sys_wait, K.bind_apply, get_world, Outcome.bind_ret, get_child, h,
      sema_down_child, hs, if_false, World.log, World.set_thread, upd_same, hfind, set_world,
      K.pure_apply]
  · rfl
  · intro x hx
    simp [World.set_thread, World.log, upd_other _ _ _ _ hx]
  · simp [World.set_thread, upd_same]
theorem sys_wait_blocks (w : World σ) (pid : Int) (rec : child_status)
    (h : get_child (w.threads w.cur) pid = some rec) (hs : rec.sema = 0) :
    sys_wait pid w = Outcome.blocked w := by
  simp [sys_wait, get_world, h, sema_down_child, hs, Outcome.bind]

/-- C9 (evaluation at the failing input): a child whose startup succeeded and
which exits with status `-1` before the parent reads the record makes
`sys_exec` return `-1` and discard the record, so that a later `sys_wait` on
its pid returns `-1` as for an unknown pid; a child that exits with status 0 at
the same point makes `sys_exec` return its pid 2, and `sys_wait` then returns
0.  A child whose startup failed also makes `sys_exec` return `-1`. -/
theorem exec_confuses_exit_with_failed_start :
    (sys_exec (demo_spawn_kernel true (some (-1))) 40 (demo_world demo_mem [] 2)).result =
      some (-1) ∧
    (sys_exec (demo_spawn_kernel true (some (-1))) 40 (demo_world demo_mem [] 2)).world.map
      (fun w => get_child (w.threads 1) 2) = some none ∧
    ((sys_exec (demo_spawn_kernel true (some (-1))) 40 (demo_world demo_mem [] 2)).bind
      (fun _ => sys_wait 2)).result = some (-1) ∧
    (sys_exec (demo_spawn_kernel true (some 0)) 40 (demo_world demo_mem [] 2)).result =
      some 2 ∧
    ((sys_exec (demo_spawn_kernel true (some 0)) 40 (demo_world demo_mem [] 2)).bind
      (fun _ => sys_wait 2)).result = some 0 ∧
    (sys_exec (demo_spawn_kernel true none) 40 (demo_world demo_mem [] 2)).result = some 2 ∧
    (sys_exec (demo_spawn_kernel false none) 40 (demo_world demo_mem [] 2)).result =
      some (-1) :=
  ⟨by rfl, by rfl, by rfl, by rfl, by rfl, by rfl, by rfl⟩

/-! ## Termination of string validation -/

theorem check_str_loop_terminates (E : Kernel σ) (hPB : E.PHYS_BASE < 4294967296) (fuel : Nat) :
    ∀ (p : Nat) (w : World σ), p < 4294967296 → E.PHYS_BASE - p < fuel →
      ∃ b k, k ≤ E.PHYS_BASE - p ∧
        check_str_loop E fuel p w = Outcome.ret b (w.logs (probes p k)) := by
  induction fuel with
  | zero => intro p w _ h; omega
  | succ fuel ih =>
    intro p w hp hf
    by_cases hge : p ≥ E.PHYS_BASE
    · exact ⟨false, 0, Nat.zero_le _, by simp [check_str_loop, hge, probes]⟩
    · have h1 : probes p 1 = [Event.get_user p] := rfl
      simp only [check_str_loop, hge, if_false, K.bind_apply, get_user, Outcome.bind_ret]
      split_ifs with hv1 hv0
      · exact ⟨false, 1, by omega, by rw [h1]; rfl⟩
      · exact ⟨true, 1, by omega, by rw [h1]; rfl⟩
      · have hpad : padd p 1 = p + 1 := padd_eq _ _ (by omega)
        obtain ⟨b, k, hk, hrun⟩ := ih (p + 1) (w.log (Event.get_user p)) (by omega) (by omega)
        refine ⟨b, k + 1, by omega, ?_⟩
        rw [hpad, hrun, probes_succ, World.log_eq_logs, World.logs_logs]
        rfl

/-- C20: string validation always terminates.  For every start address and
every memory map, the loop of `check_str` finishes within any iteration budget
above `PHYS_BASE - ptr` after at most `PHYS_BASE - ptr` read probes (none when
`ptr >= PHYS_BASE`), at the consecutive addresses from `ptr` on; `check_str`
itself then returns or runs `sys_exit (-1)`, and never exhausts its budget. -/
theorem check_str_terminates (E : Kernel σ) (w : World σ) (p : Nat)
    (hp : p < 4294967296) (hPB : E.PHYS_BASE < 4294967296) :
    (∀ fuel, E.PHYS_BASE - p < fuel → ∃ b k, k ≤ E.PHYS_BASE - p ∧
      check_str_loop E fuel p w = Outcome.ret b (w.logs (probes p k))) ∧
    (∃ k, k ≤ E.PHYS_BASE - p ∧
      (check_str E p w = Outcome.ret () (w.logs (probes p k)) ∨
       check_str E p w = sys_exit E (-1) (w.logs (probes p k)))) := by
  refine ⟨fun fuel hf => check_str_loop_terminates E hPB fuel p w hp hf, ?_⟩
  obtain ⟨b, k, hk, hrun⟩ := check_str_loop_terminates E hPB 4294967297 p w hp (by omega)
  refine ⟨k, hk, ?_⟩
  cases b with
  | true => left; simp [check_str, hrun]
  | false => right; simp [check_str, hrun]

/-- Witness for C20: in a memory that maps every byte to 65 and so holds no NUL,
`check_str` from address 60 stops at the split 64 after four probes. -/
theorem check_str_terminates_witness :
    check_str demo_kernel 60 (demo_world (fun _ => some 65) [] 2) =
      sys_exit demo_kernel (-1) ((demo_world (fun _ => some 65) [] 2).logs (probes 60 4)) ∧
    (∃ k, k ≤ demo_kernel.PHYS_BASE - 60 ∧
      (check_str demo_kernel 60 (demo_world (fun _ => some 65) [] 2) =
          Outcome.ret () ((demo_world (fun _ => some 65) [] 2).logs (probes 60 k)) ∨
       check_str demo_kernel 60 (demo_world (fun _ => some 65) [] 2) =
          sys_exit demo_kernel (-1) ((demo_world (fun _ => some 65) [] 2).logs (probes 60 k)))) :=
  ⟨by rfl,
   (check_str_terminates demo_kernel (demo_world (fun _ => some 65) [] 2) 60
      (by decide) (by decide)).2⟩

/-! ## Unrecognised requests -/

theorem file_skip (E : Kernel σ) (f : intr_frame) (nr : Nat) (h : nr ∉ E.handled) :
    syscall_file E f nr = pure f := by
  simp only [Kernel.handled, List.mem_cons, List.mem_singleton, List.not_mem_nil, or_false,
    not_or] at h
  simp [syscall_file, h]

theorem not_control_of_not_handled (E : Kernel σ) (nr : Nat) (h : nr ∉ E.handled) :
    ¬ is_control E nr := by
  simp only [Kernel.handled, List.mem_cons, List.mem_singleton, List.not_mem_nil, or_false,
    not_or] at h
  simp [is_control, h]

/-- C12: unrecognised requests are ignored.  When word 0 of the frame is a valid
user word holding a number that is none of the handled `SYS_*` values,
`syscall_handler` returns the frame as it was (the result slot untouched), in
the entry state extended only by the four read probes of word 0: no argument
word is validated, no handler runs and no process state changes. -/
theorem unrecognised_request_ignored (E : Kernel σ) (f : intr_frame) (w : World σ) (nr : Nat)
    (hesp : f.esp < 4294967296) (hPB : E.PHYS_BASE < 4294967296)
    (h0 : word_ok E w f.esp) (hnr : load_u32 w.me.pcb.pagedir f.esp = some nr)
    (hun : nr ∉ E.handled) :
    syscall_handler E f w = Outcome.ret f (w.logs (probes f.esp 4)) := by
  rw [syscall_handler_unfold, check_num32_ok E w f.esp hPB h0]
  simp only [Outcome.bind_ret, arg_zero w f.esp nr hesp hnr,
    control_skip E f nr (not_control_of_not_handled E nr hun), K.pure_apply,
    file_skip E f nr hun]

/-- Witness for C12: the request number 99 is ignored and the result slot keeps
its value 77. -/
theorem unrecognised_request_ignored_witness :
    syscall_handler demo_kernel { esp := 8, eax := 77 }
        (demo_world (mem_of [(8, 99), (9, 0), (10, 0), (11, 0)]) [] 2) =
      Outcome.ret { esp := 8, eax := 77 }
        ((demo_world (mem_of [(8, 99), (9, 0), (10, 0), (11, 0)]) [] 2).logs (probes 8 4)) :=
  unrecognised_request_ignored demo_kernel { esp := 8, eax := 77 }
    (demo_world (mem_of [(8, 99), (9, 0), (10, 0), (11, 0)]) [] 2) 99
    (by decide) (by decide) (by decide) (by decide) (by decide)

/-! ## Postcondition of open -/

/-- C18 (counterexample): with `next_fd` at the largest `int`, a successful
`sys_open` returns 2147483647 and leaves the counter at -2147483648, which is
not the old value plus one. -/
theorem sys_open_counter_wraps :
    (sys_open demo_kernel 44 (demo_world demo_mem [] 2147483647)).result = some 2147483647 ∧
    (sys_open demo_kernel 44 (demo_world demo_mem [] 2147483647)).world.map
      (fun w => w.me.pcb.next_fd) = some (-2147483648) ∧
    (sys_open demo_kernel 44 (demo_world demo_mem [] 2147483647)).world.map
      (fun w => w.me.pcb.next_fd) ≠ some (2147483647 + 1) :=
  ⟨by rfl, by rfl, by decide⟩

/-- C18 (amended): open postcondition and atomicity.  Let the name be a valid
string and the serialization lock be free.  If the storage engine fails to open
the name, `sys_open` returns `-1` and leaves the descriptor table and `next_fd`
unchanged.  If it succeeds with handle `h`, `sys_open` returns the old value of
`next_fd`, the table is the old table with the one entry `(fd, h)` put in
front, and `next_fd` is the old value plus one wrapped to 32 bits: exactly one
more when the old value is below the largest `int`. -/
theorem open_postcondition_atomic (E : Kernel σ) (w : World σ) (file n : Nat)
    (hPB : E.PHYS_BASE < 4294967296) (hname : str_ok E w file n) (hlock : w.lock = none) :
    ((E.filesys_open w.fs w.me.pcb.pagedir file).2 = none →
      ∃ w1, sys_open E file w = Outcome.ret (-1) w1 ∧
        w1.me.pcb.fd_list = w.me.pcb.fd_list ∧ w1.me.pcb.next_fd = w.me.pcb.next_fd) ∧
    (∀ h, (E.filesys_open w.fs w.me.pcb.pagedir file).2 = some h →
      ∃ w1, sys_open E file w = Outcome.ret w.me.pcb.next_fd w1 ∧
        w1.me.pcb.fd_list = { fd := w.me.pcb.next_fd, file := h } :: w.me.pcb.fd_list ∧
        w1.me.pcb.next_fd = to_int32 (to_u32 (w.me.pcb.next_fd + 1)) ∧
        (-2147483648 ≤ w.me.pcb.next_fd → w.me.pcb.next_fd < 2147483647 →
          w1.me.pcb.next_fd = w.me.pcb.next_fd + 1)) := by
  have hchk := check_str_ok E w file n hPB hname
  refine ⟨?_, ?_⟩
  · intro hf
    simp only [World.me] at hf
    simp [sys_open, K.bind_apply, hchk, Outcome.bind_ret, get_world, lock_acquire,
        World.logs, hlock, Pintos.filesys_open, World.log, World.me, hf, lock_release]
  · intro h hf
    simp only [World.me] at hf
    have hwrap : -2147483648 ≤ (w.threads w.cur).pcb.next_fd →
        (w.threads w.cur).pcb.next_fd < 2147483647 →
        to_int32 (to_u32 ((w.threads w.cur).pcb.next_fd + 1)) =
          (w.threads w.cur).pcb.next_fd + 1 :=
      fun hlo hhi => wrap_int32_id _ (by omega) (by omega)
    simpa [sys_open, K.bind_apply, hchk, Outcome.bind_ret, get_world, lock_acquire,
        World.logs, hlock, Pintos.filesys_open, World.log, World.me, hf, lock_release,
        set_world, World.set_pcb, World.set_thread, upd] using hwrap

/-- Witness for C18: opening "f" with the table holding descriptor 2 and the
counter at 3 returns 3, adds the entry for 3 and moves the counter to 4. -/
theorem open_postcondition_atomic_witness :
    ∃ w1, sys_open demo_kernel 44 (demo_world demo_mem [{ fd := 2, file := 100 }] 3) =
        Outcome.ret 3 w1 ∧
      w1.me.pcb.fd_list = [{ fd := 3, file := 100 }, { fd := 2, file := 100 }] ∧
      w1.me.pcb.next_fd = 4 := by
  obtain ⟨w1, h1, h2, _, h4⟩ :=
    (open_postcondition_atomic demo_kernel (demo_world demo_mem [{ fd := 2, file := 100 }] 3) 44 1
      (by decide) (by decide) (by rfl)).2 100 (by rfl)
  exact ⟨w1, h1, h2, h4 (by decide) (by decide)⟩

/-! ## Effects of the steps of exit -/

theorem orphan_step_threads (w : World σ) (t ch : Int) (rest : List child_status) (x : Int) :
    let w2 := ((w.set_thread ch { w.threads ch with parent := none }).log (Event.orphan ch))
    let w3 := w2.set_thread t { w2.threads t with child_exit_status := rest }
    (w3.threads x).pcb = (w.threads x).pcb ∧
    (w3.threads x).chile_sema = (w.threads x).chile_sema ∧
    (w3.threads x).tid = (w.threads x).tid ∧
    (w3.threads x).parent = (if x = ch then none else (w.threads x).parent) ∧
    (w3.threads x).child_exit_status =
      (if x = t then rest else (w.threads x).child_exit_status) := by
  by_cases hxt : x = t <;> by_cases hxc : x = ch <;>
    simp_all [World.set_thread, World.log, upd]

theorem orphan_children_effect (t : Int) (l : List child_status) :
    ∀ (w w1 : World σ), (w.threads t).child_exit_status = l →
      orphan_children t l w = Outcome.ret () w1 →
      w1.trace = w.trace ++ orphan_events l ∧ w1.fs = w.fs ∧
      (w1.threads t).child_exit_status = [] ∧
      (∀ x, (w1.threads x).pcb = (w.threads x).pcb) ∧
      (∀ x, (w1.threads x).chile_sema = (w.threads x).chile_sema) ∧
      (∀ x, (w1.threads x).parent = (w.threads x).parent ∨ (w1.threads x).parent = none) ∧
      (∀ cs ∈ l, ∃ c, cs.child = some c ∧ (w1.threads c).parent = none) := by
  induction l with
  | nil =>
    intro w w1 hl h
    simp only [orphan_children, K.pure_apply, Outcome.ret.injEq, true_and] at h
    subst h
    exact ⟨by simp [orphan_events], rfl, hl, fun _ => rfl, fun _ => rfl, fun _ => Or.inl rfl,
      fun _ hcs => absurd hcs (List.not_mem_nil _)⟩
  | cons cs rest ih =>
    intro w w1 hl h
    cases hch : cs.child with
    | none => simp [orphan_children, hch] at h
    | some ch =>
      simp only [orphan_children, hch] at h
      have hst := orphan_step_threads w t ch rest
      simp only at hst
      obtain ⟨htr, hfs, hnil, hpcb, hsem, hpar, hkids⟩ := ih _ _ (by simpa using (hst t).2.2.2.2) h
      refine ⟨?_, ?_, hnil, ?_, ?_, ?_, ?_⟩
      · rw [htr]
        simp [orphan_events, hch, World.set_thread, World.log]
      · rw [hfs]; rfl
      · intro x; rw [hpcb x]; exact (hst x).1
      · intro x; rw [hsem x]; exact (hst x).2.1
      · intro x
        rcases hpar x with h1 | h1
        · rw [h1, (hst x).2.2.2.1]
          by_cases hxc : x = ch
          · simp [hxc]
          · simp [hxc]
        · exact Or.inr h1
      · intro c hc
        rcases List.mem_cons.1 hc with rfl | hc
        · refine ⟨ch, hch, ?_⟩
          rcases hpar ch with h1 | h1
          · rw [h1, (hst ch).2.2.2.1]; simp
          · exact h1
        · exact hkids c hc

theorem orphan_children_live (t : Int) (l : List child_status) :
    ∀ (w : World σ), (∀ cs ∈ l, cs.child ≠ none) →
      ∃ w1, orphan_children t l w = Outcome.ret () w1 := by
  induction l with
  | nil => intro w _; exact ⟨w, rfl⟩
  | cons cs rest ih =>
    intro w hl
    cases hch : cs.child with
    | none => exact absurd hch (hl cs (List.mem_cons_self _ _))
    | some ch =>
      simp only [orphan_children, hch]
      exact ih _ (fun c hc => hl c (List.mem_cons_of_mem _ hc))

theorem set_child_eq_nil (l : List child_status) (pid : Int) (f : child_status → child_status)
    (h : l = []) : set_child l pid f = [] := by
  subst h; rfl

theorem notify_parent_effect (t : Int) (s : Int) (w w1 : World σ)
    (h : notify_parent t s w = Outcome.ret () w1) :
    w1.trace = w.trace ++ notify_events (w.threads t).parent (w.threads t).tid s ∧
    w1.fs = w.fs ∧ w1.cur = w.cur ∧ w1.lock = w.lock ∧
    (∀ x, (w1.threads x).pcb = (w.threads x).pcb) ∧
    (∀ x, (w1.threads x).chile_sema = (w.threads x).chile_sema) ∧
    (∀ x, (w1.threads x).parent = (w.threads x).parent) ∧
    (∀ x, (w.threads x).child_exit_status = [] → (w1.threads x).child_exit_status = []) ∧
    ((w.threads t).parent = none → w1 = w) := by
  cases hp : (w.threads t).parent with
  | none =>
    simp only [notify_parent, hp, Outcome.ret.injEq, true_and] at h
    subst h
    simp [notify_events]
  | some p =>
    cases hg : get_child (w.threads p) (w.threads t).tid with
    | none => simp [notify_parent, hp, hg] at h
    | some rec =>
      simp only [notify_parent, hp, hg, Outcome.ret.injEq, true_and] at h
      subst h
      refine ⟨by simp [notify_events, World.log, World.set_thread], rfl, rfl, rfl, ?_, ?_, ?_, ?_,
        fun hn => by simp at hn⟩
      · intro x; by_cases hx : x = p <;> simp_all [World.set_thread, World.log, upd]
      · intro x; by_cases hx : x = p <;> simp_all [World.set_thread, World.log, upd]
      · intro x; by_cases hx : x = p <;> simp_all [World.set_thread, World.log, upd]
      · intro x hnil
        by_cases hx : x = p
        · subst hx
          simp [World.set_thread, World.log, upd, set_child_eq_nil _ _ _ hnil]
        · simp_all [World.set_thread, World.log, upd]

theorem notify_parent_ready (t : Int) (s : Int) (w : World σ)
    (h : ∀ p, (w.threads t).parent = some p →
      (get_child (w.threads p) (w.threads t).tid).isSome = true) :
    ∃ w1, notify_parent t s w = Outcome.ret () w1 := by
  cases hp : (w.threads t).parent with
  | none => exact ⟨w, by simp [notify_parent, hp]⟩
  | some p =>
    have := h p hp
    cases hg : get_child (w.threads p) (w.threads t).tid with
    | none => simp [hg] at this
    | some rec => exact ⟨_, by simp only [notify_parent, hp, hg]; rfl⟩

theorem close_all_effect (E : Kernel σ) (t : Int) (l : List file_info) :
    ∀ (w : World σ), (w.threads t).pcb.fd_list = l →
      ∃ w1, close_all E t l w = Outcome.ret () w1 ∧
        w1.trace = w.trace ++ l.map (fun e => Event.file_close e.file) ∧
        w1.fs = l.foldl (fun fs e => E.file_close fs e.file) w.fs ∧
        w1.cur = w.cur ∧ w1.lock = w.lock ∧
        (w1.threads t).pcb.fd_list = [] ∧
        (∀ x, (w1.threads x).child_exit_status = (w.threads x).child_exit_status ∧
          (w1.threads x).parent = (w.threads x).parent ∧
          (w1.threads x).chile_sema = (w.threads x).chile_sema) := by
  induction l with
  | nil => intro w hl; exact ⟨w, rfl, by simp, rfl, rfl, rfl, hl, fun _ => ⟨rfl, rfl, rfl⟩⟩
  | cons f_info rest ih =>
    intro w _
    obtain ⟨w1, h1, htr, hfs, hc, hl, hnil, hx⟩ :=
      ih (({ (w.set_pcb t { (w.threads t).pcb with fd_list := rest })
        with fs := E.file_close w.fs f_info.file }).log (Event.file_close f_info.file))
        (by simp [World.log, World.set_pcb, World.set_thread])
    refine ⟨w1, ?_, ?_, ?_, hc, hl, hnil, ?_⟩
    · simp only [close_all, K.bind_apply, Pintos.file_close, Outcome.bind_ret]
      exact h1
    · rw [htr]; simp [World.log, World.set_pcb, World.set_thread]
    · rw [hfs]; simp [World.log, World.set_pcb, World.set_thread]
    · intro x
      obtain ⟨ha, hb, hd⟩ := hx x
      rw [ha, hb, hd]
      by_cases hxt : x = t
      · subst hxt; simp [World.log, World.set_pcb, World.set_thread]
      · simp [World.log, World.set_pcb, World.set_thread, upd_other _ _ _ _ hxt]

theorem exit_teardown_effect (E : Kernel σ) (s : Int) (w : World σ) (hlock : w.lock = none) :
    ∃ w1, (do
        lock_acquire
        let w1 ← get_world
        file_close E (w1.threads w.cur).pcb.elf_file
        let w2 ← get_world
        close_all E w.cur (w2.threads w.cur).pcb.fd_list
        lock_release
        process_exit s : K σ Unit) w = Outcome.exited s w1 ∧
      w1.trace = w.trace ++ (teardown_events w.cur w.me.pcb ++ [Event.process_exit w.cur]) ∧
      w1.fs = w.me.pcb.fd_list.foldl (fun fs e => E.file_close fs e.file)
        (E.file_close w.fs w.me.pcb.elf_file) ∧
      w1.cur = w.cur ∧ w1.lock = none ∧ (w1.threads w.cur).pcb.fd_list = [] ∧
      (∀ x, (w1.threads x).child_exit_status = (w.threads x).child_exit_status ∧
        (w1.threads x).parent = (w.threads x).parent ∧
        (w1.threads x).chile_sema = (w.threads x).chile_sema) := by
  obtain ⟨wd, hcl, htr, hfs, hcd, hld, hnil, hx⟩ := close_all_effect E w.cur
    (w.threads w.cur).pcb.fd_list
    (({ w with lock := some w.cur, fs := E.file_close w.fs (w.threads w.cur).pcb.elf_file }.logs
      [Event.lock_acquire w.cur, Event.file_close (w.threads w.cur).pcb.elf_file])) rfl
  simp only [World.logs] at hcd hld htr hfs hx
  refine ⟨{ wd with lock := none }.logs [Event.lock_release w.cur, Event.process_exit w.cur],
    ?_, ?_, ?_, hcd, rfl, hnil, hx⟩
  · simp only [K.bind_apply, lock_acquire, hlock, Outcome.bind_ret, get_world, Pintos.file_close,
      World.log, List.append_assoc, List.singleton_append]
    simp only [World.logs, List.append_assoc, List.singleton_append] at hcl
    rw [hcl]
    simp only [Outcome.bind_ret, K.bind_apply, lock_release, hld, hcd, if_true, World.log,
      process_exit, World.logs, List.append_assoc, List.singleton_append]
  · simp [World.logs, htr, teardown_events, World.me]
  · simp [World.logs, hfs, World.me]

theorem exit_teardown_locked (E : Kernel σ) (s : Int) (w : World σ) (hlock : w.lock ≠ none) :
    (do
        lock_acquire
        let w1 ← get_world
        file_close E (w1.threads w.cur).pcb.elf_file
        let w2 ← get_world
        close_all E w.cur (w2.threads w.cur).pcb.fd_list
        lock_release
        process_exit s : K σ Unit) w = Outcome.panic w ∨
    (do
        lock_acquire
        let w1 ← get_world
        file_close E (w1.threads w.cur).pcb.elf_file
        let w2 ← get_world
        close_all E w.cur (w2.threads w.cur).pcb.fd_list
        lock_release
        process_exit s : K σ Unit) w = Outcome.blocked w := by
  cases hl : w.lock with
  | none => exact absurd hl hlock
  | some h =>
    simp only [K.bind_apply, lock_acquire, hl]
    by_cases hh : h = w.cur
    · left; simp [hh, Outcome.bind]
    · right; simp [hh, Outcome.bind]

theorem sys_exit_steps (E : Kernel σ) (s : Int) (w : World σ) :
    sys_exit E s w =
      (orphan_children w.cur (w.threads w.cur).child_exit_status
        (w.log (Event.printf_exit (w.threads w.cur).pcb.process_name s))).bind (fun _ =>
        notify_parent w.cur s >>= fun _ => (do
          lock_acquire
          let w1 ← get_world
          file_close E (w1.threads w.cur).pcb.elf_file
          let w2 ← get_world
          close_all E w.cur (w2.threads w.cur).pcb.fd_list
          lock_release
          process_exit s : K σ Unit)) := rfl

theorem notify_parent_cases (t : Int) (s : Int) (w : World σ) :
    (∃ w1, notify_parent t s w = Outcome.ret () w1) ∨ notify_parent t s w = Outcome.panic w := by
  cases hp : (w.threads t).parent with
  | none => exact Or.inl ⟨w, by simp [notify_parent, hp]⟩
  | some p =>
    cases hg : get_child (w.threads p) (w.threads t).tid with
    | none => exact Or.inr (by simp [notify_parent, hp, hg])
    | some rec => exact Or.inl ⟨_, by simp only [notify_parent, hp, hg]; rfl⟩

theorem sys_exit_shape (E : Kernel σ) (s s1 : Int) (w w1 : World σ)
    (hexit : sys_exit E s w = Outcome.exited s1 w1) :
    s1 = s ∧ w1.cur = w.cur ∧ w.lock = none ∧ w1.lock = none ∧
    (∀ cs ∈ w.me.child_exit_status, ∃ c, cs.child = some c ∧ (w1.threads c).parent = none) ∧
    (w1.threads w.cur).child_exit_status = [] ∧
    (w1.threads w.cur).pcb.fd_list = [] ∧
    w1.fs = w.me.pcb.fd_list.foldl (fun fs e => E.file_close fs e.file)
      (E.file_close w.fs w.me.pcb.elf_file) ∧
    (∀ x, (w1.threads x).chile_sema = (w.threads x).chile_sema) ∧
    ∃ par, (par = w.me.parent ∨ par = none) ∧
      ((∀ cs ∈ w.me.child_exit_status, cs.child ≠ some w.cur) → par = w.me.parent) ∧
      w1.trace = w.trace ++
        ([Event.printf_exit w.me.pcb.process_name s] ++ orphan_events w.me.child_exit_status ++
          notify_events par w.me.tid s ++ teardown_events w.cur w.me.pcb ++
          [Event.process_exit w.cur]) ∧
      (par = none → ∀ x, x ≠ w.cur →
        (w1.threads x).child_exit_status = (w.threads x).child_exit_status) := by
  rw [sys_exit_steps] at hexit
  rcases orphan_children_cases w.cur (w.threads w.cur).child_exit_status
    (w.log (Event.printf_exit (w.threads w.cur).pcb.process_name s)) with ⟨wa, ho⟩ | ⟨wa, ho⟩
  · rw [ho] at hexit
    obtain ⟨hca, hla, hlista, htida, hpara⟩ := orphan_children_frame _ _ _ _ ho
    obtain ⟨htra, hfsa, hnila, hpcba, hsema, hpora, hkids⟩ :=
      orphan_children_effect w.cur (w.threads w.cur).child_exit_status
        (w.log (Event.printf_exit (w.threads w.cur).pcb.process_name s)) wa rfl ho
    simp only [World.log] at hca hla hlista htida hpara htra hfsa hpcba hsema hpora
    simp only [Outcome.bind_ret, K.bind_apply] at hexit
    rcases notify_parent_cases w.cur s wa with ⟨wb, hn⟩ | hn
    · obtain ⟨htrb, hfsb, hcb, hlb, hpcbb, hsemb, hparb, hnilb, hsame⟩ :=
        notify_parent_effect _ _ _ _ hn
      rw [hn] at hexit
      simp only [Outcome.bind_ret] at hexit
      have hcwb : wb.cur = w.cur := hcb.trans hca
      rw [← hcwb] at hexit
      by_cases hlock : wb.lock = none
      · obtain ⟨wd, htd, htrd, hfsd, hcd, hld, hnild, hxd⟩ := exit_teardown_effect E s wb hlock
        rw [htd] at hexit
        simp only [Outcome.exited.injEq] at hexit
        obtain ⟨hs, hw⟩ := hexit
        subst hw
        have hpcb : (wb.threads w.cur).pcb = (w.threads w.cur).pcb := by
          rw [hpcbb, hpcba]
        refine ⟨hs.symm, hcd.trans hcwb, ?_, hld, ?_, ?_, ?_, ?_, ?_, ?_⟩
        · rw [← hla, ← hlb]; exact hlock
        · intro cs hcs
          obtain ⟨c, hc, hpc⟩ := hkids cs hcs
          exact ⟨c, hc, by rw [(hxd c).2.1, hparb c]; exact hpc⟩
        · rw [(hxd w.cur).1]; exact hnilb _ hnila
        · rw [← hcwb]; exact hnild
        · rw [hfsd, hfsb, hfsa]
          simp only [World.me, hcwb, hpcb]
        · intro x; rw [(hxd x).2.2, hsemb x, hsema x]
        · refine ⟨(wa.threads w.cur).parent, ?_, ?_, ?_, ?_⟩
          · rcases hpora w.cur with h1 | h1
            · exact Or.inl h1
            · exact Or.inr h1
          · intro hself; exact hpara w.cur hself
          · rw [htrd, htrb, htra]
            simp only [World.me, hcwb, hpcb, htida, List.append_assoc]
          · intro hnone x hx
            rw [(hxd x).1, hsame hnone]
            exact hlista x hx
      · rcases exit_teardown_locked E s wb hlock with h | h <;> rw [h] at hexit <;>
          exact absurd hexit (by simp)
    · rw [hn] at hexit; simp [Outcome.bind] at hexit
  · rw [ho] at hexit
    simp [Outcome.bind] at hexit

theorem sys_exit_completes (E : Kernel σ) (s : Int) (w : World σ) (h : exit_ready w) :
    ∃ w1, sys_exit E s w = Outcome.exited s w1 := by
  obtain ⟨hlock, hlive, hpar⟩ := h
  obtain ⟨wa, ho⟩ := orphan_children_live w.cur (w.threads w.cur).child_exit_status
    (w.log (Event.printf_exit (w.threads w.cur).pcb.process_name s))
    (fun cs hcs => (hlive cs hcs).1)
  obtain ⟨hca, hla, hlista, htida, _⟩ := orphan_children_frame _ _ _ _ ho
  obtain ⟨_, _, _, _, _, hpora, _⟩ :=
    orphan_children_effect w.cur (w.threads w.cur).child_exit_status
      (w.log (Event.printf_exit (w.threads w.cur).pcb.process_name s)) wa rfl ho
  simp only [World.log] at hca hla hlista htida hpora
  obtain ⟨wb, hn⟩ := notify_parent_ready w.cur s wa (by
    intro p hp
    rcases hpora w.cur with h1 | h1
    · rw [h1] at hp
      simp only [World.me, hp] at hpar
      unfold get_child at hpar ⊢
      rw [hlista p hpar.1, htida]
      exact hpar.2
    · rw [h1] at hp; exact absurd hp (by simp))
  obtain ⟨_, _, hcb, hlb, _⟩ := notify_parent_effect _ _ _ _ hn
  have hcwb : wb.cur = w.cur := hcb.trans hca
  obtain ⟨wd, htd, _⟩ := exit_teardown_effect E s wb (by rw [hlb, hla]; exact hlock)
  refine ⟨wd, ?_⟩
  rw [sys_exit_steps, ho]
  simp only [Outcome.bind_ret, K.bind_apply, hn]
  rw [← hcwb]
  exact htd

theorem exit_prefix_no_close (name : String) (s : Int) (l : List child_status)
    (par : Option Int) (tid : Int) :
    ∀ e ∈ [Event.printf_exit name s] ++ orphan_events l ++ notify_events par tid s,
      ∀ f, e ≠ Event.file_close f := by
  intro e he f hf
  subst hf
  simp only [List.mem_append, List.mem_singleton, orphan_events, List.mem_filterMap,
    Option.map_eq_some'] at he
  rcases he with (he | ⟨cs, _, c, _, hc⟩) | he
  · cases he
  · cases hc
  · cases par <;> simp [notify_events] at he

/-! ## Bulk teardown at exit -/

/-- Bulk teardown where the exit runs through.  Whenever `sys_exit (s)` runs to
`process_exit`, the events it adds are a prefix without any `file_close`,
followed by the teardown: the lock is taken, the executable handle is closed
once, the handle of every entry of the descriptor table is closed once in list
order, the lock is released, and `process_exit` comes last; the storage engine
has received exactly these closes, and the descriptor table of the process is
empty in the state `process_exit` is called in.  In every state that is ready
for exit `sys_exit` does run to `process_exit`. -/
theorem bulk_teardown_at_exit (E : Kernel σ) (s : Int) (w : World σ) :
    (∀ s1 w1, sys_exit E s w = Outcome.exited s1 w1 →
      (∃ pre, (∀ e ∈ pre, ∀ f, e ≠ Event.file_close f) ∧
        w1.trace = w.trace ++ pre ++
          ([Event.lock_acquire w.cur, Event.file_close w.me.pcb.elf_file] ++
            w.me.pcb.fd_list.map (fun e => Event.file_close e.file) ++
            [Event.lock_release w.cur]) ++ [Event.process_exit w.cur]) ∧
      w1.fs = w.me.pcb.fd_list.foldl (fun fs e => E.file_close fs e.file)
        (E.file_close w.fs w.me.pcb.elf_file) ∧
      (w1.threads w.cur).pcb.fd_list = []) ∧
    (exit_ready w → ∃ w1, sys_exit E s w = Outcome.exited s w1) := by
  refine ⟨?_, sys_exit_completes E s w⟩
  intro s1 w1 hexit
  obtain ⟨_, _, _, _, _, _, hfd, hfs, _, par, _, _, htr, _⟩ := sys_exit_shape E s s1 w w1 hexit
  refine ⟨⟨_, exit_prefix_no_close w.me.pcb.process_name s w.me.child_exit_status par w.me.tid,
    ?_⟩, hfs, hfd⟩
  rw [htr]
  simp [teardown_events]

/-- Example of the bulk teardown: thread 2 of `demo_lineage` exits with two open
descriptors; the handles 99, 101 and 100 are closed in this order under the lock
and the table ends empty. -/
theorem bulk_teardown_at_exit_witness :
    ∃ w1, sys_exit demo_kernel 7 demo_lineage = Outcome.exited 7 w1 ∧
      (∃ pre, (∀ e ∈ pre, ∀ f, e ≠ Event.file_close f) ∧
        w1.trace = pre ++
          [Event.lock_acquire 2, Event.file_close 99, Event.file_close 101,
            Event.file_close 100, Event.lock_release 2] ++ [Event.process_exit 2]) ∧
      w1.fs = 3 ∧ (w1.threads 2).pcb.fd_list = [] := by
  obtain ⟨w1, h1⟩ := (bulk_teardown_at_exit demo_kernel 7 demo_lineage).2 (by decide)
  obtain ⟨⟨pre, hpre, htr⟩, hfs, hfd⟩ := (bulk_teardown_at_exit demo_kernel 7 demo_lineage).1 7 w1 h1
  exact ⟨w1, h1, ⟨pre, hpre, by simpa using htr⟩, hfs, hfd⟩

/-! ## Order of the effects of exit -/

/-- C16 (counterexample): when thread 2 of `demo_lineage` calls `sys_exit (7)`,
the report `demo: exit(7)` is the first effect, before the orphaning of thread 3
and before the status is published to thread 1; the trace differs from the
order in which the on_exit steps come before the report. -/
theorem exit_report_comes_first :
    (sys_exit demo_kernel 7 demo_lineage).world.map (fun w => w.trace) =
      some [Event.printf_exit "demo" 7, Event.orphan 3, Event.publish 1 2 7, Event.sema_up 1 2,
        Event.lock_acquire 2, Event.file_close 99, Event.file_close 101, Event.file_close 100,
        Event.lock_release 2, Event.process_exit 2] ∧
    (sys_exit demo_kernel 7 demo_lineage).world.map (fun w => w.trace) ≠
      some (demo_lineage.trace ++ exit_events_spec demo_lineage 7) :=
  ⟨by rfl, by decide⟩

/-- C16 (amended): exit effect order.  In every state that is ready for exit,
`sys_exit (s)` terminates the process with status `s`, and its effects occur in
this order: first the report "name: exit(s)", then the orphaning of the
remaining children, then the publication of `s` in the parent's record and the
signal on its completion semaphore (when the parent reference is set), then the
closing of the executable handle and of every descriptor entry under the
serialization lock, then `process_exit`. -/
theorem exit_effect_order (E : Kernel σ) (s : Int) (w : World σ) (h : exit_ready w) :
    ∃ w1, sys_exit E s w = Outcome.exited s w1 ∧ w1.trace = w.trace ++ exit_events w s := by
  obtain ⟨w1, h1⟩ := sys_exit_completes E s w h
  obtain ⟨_, _, _, _, _, _, _, _, _, par, _, hpar, htr, _⟩ := sys_exit_shape E s s w w1 h1
  refine ⟨w1, h1, ?_⟩
  rw [htr, hpar (fun cs hcs => (h.2.1 cs hcs).2)]
  rfl

/-- Witness for C16: the exit of thread 2 of `demo_lineage` with status 7. -/
theorem exit_effect_order_witness :
    ∃ w1, sys_exit demo_kernel 7 demo_lineage = Outcome.exited 7 w1 ∧
      w1.trace = [Event.printf_exit "demo" 7, Event.orphan 3, Event.publish 1 2 7,
        Event.sema_up 1 2, Event.lock_acquire 2, Event.file_close 99, Event.file_close 101,
        Event.file_close 100, Event.lock_release 2, Event.process_exit 2] :=
  exit_effect_order demo_kernel 7 demo_lineage (by decide)

/-! ## Orphaning -/

theorem exit_events_orphan (w : World σ) (s : Int) (h : w.me.parent = none) :
    ∀ e ∈ exit_events w s, (∀ p pid st, e ≠ Event.publish p pid st) ∧
      (∀ p pid, e ≠ Event.sema_up p pid) := by
  intro e he
  simp only [exit_events, List.mem_append] at he
  rcases he with (((he | he) | he) | he) | he
  · simp only [List.mem_singleton] at he
    subst he
    exact ⟨by intros; simp, by intros; simp⟩
  · simp only [orphan_events, List.mem_filterMap, Option.map_eq_some'] at he
    obtain ⟨cs, _, c, _, rfl⟩ := he
    exact ⟨by intros; simp, by intros; simp⟩
  · simp [h, notify_events] at he
  · simp only [teardown_events, List.mem_append, List.mem_cons, List.mem_singleton,
      List.mem_map, List.not_mem_nil, or_false] at he
    rcases he with ((rfl | rfl) | ⟨f, _, rfl⟩) | rfl <;>
      exact ⟨by intros; simp, by intros; simp⟩
  · simp only [List.mem_singleton] at he
    subst he
    exact ⟨by intros; simp, by intros; simp⟩

/-- Orphaning where the exit runs through.  (1) Whenever a parent's `sys_exit`
runs to `process_exit`, its list of status records is empty afterwards and every
record it held referred to a live child whose parent reference is now cleared;
in every state that is ready for exit (in particular all recorded children are
live) the exit does run to `process_exit`.  (2) When a thread whose parent
reference is cleared later calls `sys_exit (s2)` in a state ready for exit, the
call terminates the process with status `s2` after the complete teardown; its
effects are exactly `exit_events`, among which there is no publication of a
status and no signal on a semaphore; the status records and the handshake
semaphore of every other thread are unchanged; and the descriptor table of the
thread is empty. -/
theorem exit_orphans_children (E : Kernel σ) (s : Int) (w : World σ) :
    (∀ s1 w1, sys_exit E s w = Outcome.exited s1 w1 →
      (w1.threads w.cur).child_exit_status = [] ∧
      ∀ cs ∈ w.me.child_exit_status, ∃ c, cs.child = some c ∧ (w1.threads c).parent = none) ∧
    (exit_ready w → ∃ w1, sys_exit E s w = Outcome.exited s w1) ∧
    (∀ (v : World σ) (s2 : Int), v.me.parent = none → exit_ready v →
      ∃ v1, sys_exit E s2 v = Outcome.exited s2 v1 ∧
        v1.trace = v.trace ++ exit_events v s2 ∧
        (∀ e ∈ exit_events v s2, (∀ p pid st, e ≠ Event.publish p pid st) ∧
          (∀ p pid, e ≠ Event.sema_up p pid)) ∧
        (∀ x, x ≠ v.cur →
          (v1.threads x).child_exit_status = (v.threads x).child_exit_status) ∧
        (∀ x, (v1.threads x).chile_sema = (v.threads x).chile_sema) ∧
        (v1.threads v.cur).pcb.fd_list = []) := by
  refine ⟨?_, sys_exit_completes E s w, ?_⟩
  · intro s1 w1 hexit
    obtain ⟨_, _, _, _, hkids, hnil, _⟩ := sys_exit_shape E s s1 w w1 hexit
    exact ⟨hnil, hkids⟩
  · intro v s2 hpar hready
    obtain ⟨v1, h1⟩ := sys_exit_completes E s2 v hready
    obtain ⟨_, _, _, _, _, _, hfd, _, hsem, par, hp1, hp2, htr, hlists⟩ :=
      sys_exit_shape E s2 s2 v v1 h1
    have hp : par = none := by
      rw [hp2 (fun cs hcs => (hready.2.1 cs hcs).2)]; exact hpar
    refine ⟨v1, h1, ?_, exit_events_orphan v s2 hpar, hlists hp, hsem, hfd⟩
    rw [htr, hp2 (fun cs hcs => (hready.2.1 cs hcs).2)]
    rfl

/-- Example of orphaning: thread 2 of `demo_lineage` exits and leaves its child,
thread 3, without parent; a thread without parent exits without a publication. -/
theorem exit_orphans_children_witness :
    (∃ w1, sys_exit demo_kernel 7 demo_lineage = Outcome.exited 7 w1 ∧
      (w1.threads 2).child_exit_status = [] ∧ (w1.threads 3).parent = none) ∧
    (∃ v1, sys_exit demo_kernel 5 (demo_world demo_mem [{ fd := 2, file := 100 }] 3) =
        Outcome.exited 5 v1 ∧
      v1.trace = [Event.printf_exit "demo" 5, Event.lock_acquire 1, Event.file_close 99,
        Event.file_close 100, Event.lock_release 1, Event.process_exit 1]) := by
  refine ⟨?_, ?_⟩
  · obtain ⟨w1, h1⟩ := (exit_orphans_children demo_kernel 7 demo_lineage).2.1 (by decide)
    obtain ⟨hnil, hkids⟩ := (exit_orphans_children demo_kernel 7 demo_lineage).1 7 w1 h1
    obtain ⟨c, hc, hp⟩ := hkids { pid := 3, exit_status := 0, child := some 3, sema := 0 }
      (by decide)
    cases hc
    exact ⟨w1, h1, hnil, hp⟩
  · obtain ⟨v1, h1, htr, _⟩ := (exit_orphans_children demo_kernel 7 demo_lineage).2.2
      (demo_world demo_mem [{ fd := 2, file := 100 }] 3) 5 (by rfl) (by decide)
    exact ⟨v1, h1, htr⟩

/-! ## The walk over the child records at exit -/

/-- C14 (violated by the code): thread 1 starts a child with `sys_exec`; the
child runs, exits with status 0 (which clears the child reference of its record)
and is never waited on.  When thread 1 then calls `sys_exit (0)`, the walk over
its records dereferences the cleared reference and the kernel faults: the exit
does not complete and the record is not discarded. -/
theorem exit_faults_on_exited_child :
    (sys_exec (demo_spawn_kernel true (some 0)) 40 (demo_world demo_mem [] 2)).result = some 2 ∧
    ((sys_exec (demo_spawn_kernel true (some 0)) 40 (demo_world demo_mem [] 2)).world.map
      (fun w => (w.threads 1).child_exit_status)) =
      some [{ pid := 2, exit_status := 0, child := none, sema := 1 }] ∧
    ∃ w1, (sys_exec (demo_spawn_kernel true (some 0)) 40 (demo_world demo_mem [] 2)).bind
        (fun _ => sys_exit (demo_spawn_kernel true (some 0)) 0) = Outcome.panic w1 ∧
      (w1.threads 1).child_exit_status =
        [{ pid := 2, exit_status := 0, child := none, sema := 1 }] :=
  ⟨by rfl, by rfl, _, by rfl, by rfl⟩

/-- C11 (violated by the code): thread 1 holds the record of its live child,
thread 2, and starts a further child, thread 3, which exits with status 0 and is
never waited on, so that the list of thread 1 is the record of the exited child
followed by the record of the live child.  When thread 1 then calls
`sys_exit (0)`, the walk faults at the first record: the exit does not complete,
both records are still in the list, and the parent reference of the live child
is still set. -/
theorem exit_fault_keeps_live_child :
    (sys_exec demo_second_kernel 40 (demo_family.switch_to 1)).result = some 3 ∧
    ∃ wa, (sys_exec demo_second_kernel 40 (demo_family.switch_to 1)).world = some wa ∧
      wa.cur = 1 ∧
      (wa.threads 1).child_exit_status =
        [{ pid := 3, exit_status := 0, child := none, sema := 1 },
         { pid := 2, exit_status := 0, child := some 2, sema := 0 }] ∧
      (wa.threads 2).parent = some 1 ∧
      sys_exit demo_second_kernel 0 wa =
        Outcome.panic (wa.log (Event.printf_exit "demo" 0)) ∧
      ((wa.log (Event.printf_exit "demo" 0)).threads 1).child_exit_status =
        [{ pid := 3, exit_status := 0, child := none, sema := 1 },
         { pid := 2, exit_status := 0, child := some 2, sema := 0 }] ∧
      ((wa.log (Event.printf_exit "demo" 0)).threads 2).parent = some 1 :=
  ⟨by rfl, _, by rfl, by rfl, by rfl, by rfl, by rfl, by rfl, by rfl⟩

/-- C19 (violated by the code): thread 1 has the descriptor entry `(2, 100)`
open and starts a child, which exits with status 0 and is never waited on.
When thread 1 then calls `sys_exit (0)`, the walk over its status records faults
before the teardown: the state the kernel stops in is the entry state plus the
report, so the lock was not taken, neither the executable handle nor the handle
of the entry was closed, and the descriptor table still holds the entry;
`process_exit` is not reached. -/
theorem exit_fault_skips_teardown :
    (sys_exec (demo_spawn_kernel true (some 0)) 40
      (demo_world demo_mem [{ fd := 2, file := 100 }] 3)).result = some 2 ∧
    ∃ wa, (sys_exec (demo_spawn_kernel true (some 0)) 40
        (demo_world demo_mem [{ fd := 2, file := 100 }] 3)).world = some wa ∧
      wa.cur = 1 ∧ (wa.threads 1).pcb.fd_list = [{ fd := 2, file := 100 }] ∧
      sys_exit (demo_spawn_kernel true (some 0)) 0 wa =
        Outcome.panic (wa.log (Event.printf_exit "demo" 0)) ∧
      (wa.log (Event.printf_exit "demo" 0)).fs = wa.fs ∧
      ((wa.log (Event.printf_exit "demo" 0)).threads 1).pcb.fd_list =
        [{ fd := 2, file := 100 }] :=
  ⟨by rfl, _, by rfl, by rfl, by rfl, by rfl, by rfl, by rfl⟩

/-! ## Events of a computation in all outcomes -/

theorem emits_only_pure {α : Type} (P : Event → Prop) (a : α) :
    emits_only P (pure a : K σ α) := by
  intro w w1 h
  simp only [K.pure_apply, Outcome.world, Option.some.injEq] at h
  subst h
  exact ⟨[], by simp, by simp⟩

theorem emits_only_bind {α β : Type} (P : Event → Prop) (m : K σ α) (f : α → K σ β)
    (hm : emits_only P m) (hf : ∀ a, emits_only P (f a)) : emits_only P (m >>= f) := by
  intro w w1 h
  simp only [K.bind_apply] at h
  cases hmw : m w with
  | ret a w2 =>
    obtain ⟨es, htr, hes⟩ := hm w w2 (by rw [hmw]; rfl)
    rw [hmw] at h
    obtain ⟨es2, htr2, hes2⟩ := hf a w2 w1 h
    refine ⟨es ++ es2, by rw [htr2, htr, List.append_assoc], ?_⟩
    intro e he
    rcases List.mem_append.1 he with he | he
    · exact hes e he
    · exact hes2 e he
  | exited s w2 => rw [hmw] at h; exact hm w w1 (by rw [hmw]; exact h)
  | halted w2 => rw [hmw] at h; exact hm w w1 (by rw [hmw]; exact h)
  | panic w2 => rw [hmw] at h; exact hm w w1 (by rw [hmw]; exact h)
  | blocked w2 => rw [hmw] at h; exact hm w w1 (by rw [hmw]; exact h)
  | diverge => rw [hmw] at h; simp [Outcome.bind, Outcome.world] at h

theorem emits_only_get_world (P : Event → Prop) : emits_only P (get_world : K σ (World σ)) := by
  intro w w1 h
  simp only [get_world, Outcome.world, Option.some.injEq] at h
  subst h
  exact ⟨[], by simp, by simp⟩

theorem emits_only_emit (P : Event → Prop) (e : Event) (he : P e) :
    emits_only P (emit e : K σ Unit) := by
  intro w w1 h
  simp only [emit, Outcome.world, Option.some.injEq] at h
  subst h
  exact ⟨[e], rfl, by simpa using he⟩

theorem emits_only_orphan_children (P : Event → Prop) (hP : ∀ c, P (Event.orphan c)) (t : Int)
    (l : List child_status) : emits_only P (orphan_children t l : K σ Unit) := by
  induction l with
  | nil => exact emits_only_pure P ()
  | cons cs rest ih =>
    intro w w1 h
    cases hch : cs.child with
    | none =>
      simp only [orphan_children, hch, Outcome.world, Option.some.injEq] at h
      subst h
      exact ⟨[], by simp, by simp⟩
    | some c =>
      simp only [orphan_children, hch] at h
      obtain ⟨es, htr, hes⟩ := ih _ w1 h
      refine ⟨Event.orphan c :: es, by rw [htr]; simp [World.set_thread, World.log], ?_⟩
      intro e he
      rcases List.mem_cons.1 he with rfl | he
      · exact hP c
      · exact hes e he

theorem emits_only_notify_parent (P : Event → Prop)
    (hP : ∀ p pid s, P (Event.publish p pid s) ∧ P (Event.sema_up p pid)) (t : Int) (s : Int) :
    emits_only P (notify_parent t s : K σ Unit) := by
  intro w w1 h
  rcases notify_parent_cases t s w with ⟨w2, hn⟩ | hn
  · rw [hn] at h
    simp only [Outcome.world, Option.some.injEq] at h
    subst h
    obtain ⟨htr, _⟩ := notify_parent_effect t s w w2 hn
    refine ⟨_, htr, ?_⟩
    intro e he
    cases hp : (w.threads t).parent with
    | none => simp [hp, notify_events] at he
    | some p =>
      simp only [hp, notify_events, List.mem_cons, List.mem_singleton, List.not_mem_nil,
        or_false] at he
      rcases he with rfl | rfl
      · exact (hP _ _ _).1
      · exact (hP _ _ s).2
  · rw [hn] at h
    simp only [Outcome.world, Option.some.injEq] at h
    subst h
    exact ⟨[], by simp, by simp⟩

theorem emits_only_lock_acquire (P : Event → Prop) (hP : ∀ t, P (Event.lock_acquire t)) :
    emits_only P (lock_acquire : K σ Unit) := by
  intro w w1 h
  cases hl : w.lock with
  | none =>
    simp only [lock_acquire, hl, Outcome.world, Option.some.injEq] at h
    subst h
    exact ⟨[Event.lock_acquire w.cur], rfl, by simpa using hP w.cur⟩
  | some t =>
    simp only [lock_acquire, hl] at h
    split_ifs at h <;>
    · simp only [Outcome.world, Option.some.injEq] at h
      subst h
      exact ⟨[], by simp, by simp⟩

theorem emits_only_lock_release (P : Event → Prop) (hP : ∀ t, P (Event.lock_release t)) :
    emits_only P (lock_release : K σ Unit) := by
  intro w w1 h
  simp only [lock_release] at h
  split_ifs at h
  · simp only [Outcome.world, Option.some.injEq] at h
    subst h
    exact ⟨[Event.lock_release w.cur], rfl, by simpa using hP w.cur⟩
  · simp only [Outcome.world, Option.some.injEq] at h
    subst h
    exact ⟨[], by simp, by simp⟩

theorem emits_only_file_close (P : Event → Prop) (hP : ∀ f, P (Event.file_close f))
    (E : Kernel σ) (file : Nat) : emits_only P (file_close E file) := by
  intro w w1 h
  simp only [Pintos.file_close, Outcome.world, Option.some.injEq] at h
  subst h
  exact ⟨[Event.file_close file], rfl, by simpa using hP file⟩

theorem close_all_frame_trace (E : Kernel σ) (t : Int) (l : List file_info) :
    ∀ (w : World σ), ∃ w1, close_all E t l w = Outcome.ret () w1 ∧
      w1.trace = w.trace ++ l.map (fun e => Event.file_close e.file) := by
  induction l with
  | nil => intro w; exact ⟨w, rfl, by simp⟩
  | cons f_info rest ih =>
    intro w
    obtain ⟨w1, h1, htr⟩ :=
      ih (({ (w.set_pcb t { (w.threads t).pcb with fd_list := rest })
        with fs := E.file_close w.fs f_info.file }).log (Event.file_close f_info.file))
    refine ⟨w1, ?_, ?_⟩
    · simp only [close_all, K.bind_apply, Pintos.file_close, Outcome.bind_ret]
      exact h1
    · rw [htr]; simp [World.log, World.set_pcb, World.set_thread]

theorem emits_only_close_all (P : Event → Prop) (hP : ∀ f, P (Event.file_close f))
    (E : Kernel σ) (t : Int) (l : List file_info) : emits_only P (close_all E t l) := by
  intro w w1 h
  obtain ⟨w2, hc, htr⟩ := close_all_frame_trace E t l w
  rw [hc] at h
  simp only [Outcome.world, Option.some.injEq] at h
  subst h
  refine ⟨_, htr, ?_⟩
  intro e he
  obtain ⟨f, _, hf⟩ := List.mem_map.1 he
  rw [← hf]
  exact hP _

theorem emits_only_process_exit (P : Event → Prop) (hP : ∀ t, P (Event.process_exit t))
    (s : Int) : emits_only P (process_exit s : K σ Unit) := by
  intro w w1 h
  simp only [process_exit, Outcome.world, Option.some.injEq] at h
  subst h
  exact ⟨[Event.process_exit w.cur], rfl, by simpa using hP w.cur⟩

theorem emits_only_sys_exit (E : Kernel σ) (s : Int) :
    emits_only Event.writes_nothing (sys_exit E s) := by
  unfold sys_exit
  refine emits_only_bind _ _ _ (emits_only_get_world _) (fun _ => ?_)
  refine emits_only_bind _ _ _ (emits_only_emit _ _ trivial) (fun _ => ?_)
  refine emits_only_bind _ _ _ (emits_only_orphan_children _ (fun _ => trivial) _ _) (fun _ => ?_)
  refine emits_only_bind _ _ _
    (emits_only_notify_parent _ (fun _ _ _ => ⟨trivial, trivial⟩) _ _) (fun _ => ?_)
  refine emits_only_bind _ _ _ (emits_only_lock_acquire _ (fun _ => trivial)) (fun _ => ?_)
  refine emits_only_bind _ _ _ (emits_only_get_world _) (fun _ => ?_)
  refine emits_only_bind _ _ _ (emits_only_file_close _ (fun _ => trivial) _ _) (fun _ => ?_)
  refine emits_only_bind _ _ _ (emits_only_get_world _) (fun _ => ?_)
  refine emits_only_bind _ _ _ (emits_only_close_all _ (fun _ => trivial) _ _ _) (fun _ => ?_)
  refine emits_only_bind _ _ _ (emits_only_lock_release _ (fun _ => trivial)) (fun _ => ?_)
  exact emits_only_process_exit _ (fun _ => trivial) _

theorem Outcome.cast_eq_exited {α β : Type} (o : Outcome σ α) (s : Int) (w : World σ)
    (h : (o.cast : Outcome σ β) = Outcome.exited s w) : o = Outcome.exited s w := by
  cases o <;> simp_all [Outcome.cast, Outcome.bind]

theorem Outcome.cast_world {α β : Type} (o : Outcome σ α) (h : o.returned = false) :
    (o.cast : Outcome σ β).world = o.world := by
  cases o <;> simp_all [Outcome.cast, Outcome.bind, Outcome.world, Outcome.returned]

theorem probes_writes_nothing (p k : Nat) : ∀ e ∈ probes p k, e.writes_nothing := by
  intro e he
  simp only [probes, List.mem_map] at he
  obtain ⟨i, _, rfl⟩ := he
  trivial

theorem sys_write_stdin_eq (E : Kernel σ) (buf n : Nat) (w : World σ)
    (hbuf : buf < 4294967296) (hPB : E.PHYS_BASE < 4294967296) :
    ∃ k, k ≤ E.PHYS_BASE - buf ∧
      sys_write E 0 buf n w = (sys_exit E (-1) (w.logs (probes buf k))).cast := by
  obtain ⟨b, k, hk, hloop⟩ := check_str_loop_terminates E hPB 4294967297 buf w hbuf (by omega)
  refine ⟨k, hk, ?_⟩
  cases b with
  | true =>
    simp only [sys_write, K.bind_apply, check_str, hloop, Outcome.bind_ret, if_true,
      K.pure_apply]
    exact Outcome.bind_of_not_returned _ _ (sys_exit_not_returned E (-1) _)
  | false =>
    simp only [sys_write, K.bind_apply, check_str, hloop, Outcome.bind_ret]
    exact Outcome.bind_of_not_returned _ _ (sys_exit_not_returned E (-1) _)

/-! ## Write to standard input -/

/-- C13: standard-input write is fatal.  For every buffer `buf` (a 32-bit
pointer) and size `n`, `sys_write (0, buf, n)` is `sys_exit (-1)` run after at
most `PHYS_BASE - buf` probes of `check_str (buf)`: it never returns a value; if
it terminates the process the status is `-1`, and in every state ready for exit
it does terminate the process with status `-1`; and in every outcome none of the
events it adds is a call of the storage engine's write or console output of a
user string. -/
theorem stdin_write_is_fatal (E : Kernel σ) (buf n : Nat) (w : World σ)
    (hbuf : buf < 4294967296) (hPB : E.PHYS_BASE < 4294967296) :
    (∃ k, k ≤ E.PHYS_BASE - buf ∧
      sys_write E 0 buf n w = (sys_exit E (-1) (w.logs (probes buf k))).cast) ∧
    (sys_write E 0 buf n w).returned = false ∧
    (sys_write E 0 buf n w).result = none ∧
    (∀ s1 w1, sys_write E 0 buf n w = Outcome.exited s1 w1 → s1 = -1) ∧
    (exit_ready w → ∃ w1, sys_write E 0 buf n w = Outcome.exited (-1) w1) ∧
    (∀ w1, (sys_write E 0 buf n w).world = some w1 →
      ∃ es, w1.trace = w.trace ++ es ∧ ∀ e ∈ es, e.writes_nothing) := by
  obtain ⟨k, hk, heq⟩ := sys_write_stdin_eq E buf n w hbuf hPB
  have hnr : (sys_write E 0 buf n w).returned = false := by
    rw [heq]; exact Outcome.cast_not_returned _
  refine ⟨⟨k, hk, heq⟩, hnr, ?_, ?_, ?_, ?_⟩
  · clear heq
    revert hnr
    generalize sys_write E 0 buf n w = o
    intro hnr
    cases o <;> simp_all [Outcome.result, Outcome.returned]
  · intro s1 w1 h
    rw [heq] at h
    exact (sys_exit_shape E (-1) s1 _ w1 (Outcome.cast_eq_exited _ _ _ h)).1
  · intro hready
    obtain ⟨w1, h1⟩ := sys_exit_completes E (-1) (w.logs (probes buf k)) hready
    exact ⟨w1, by rw [heq, h1]; rfl⟩
  · intro w1 h
    rw [heq, Outcome.cast_world _ (sys_exit_not_returned E (-1) _)] at h
    obtain ⟨es, htr, hes⟩ := emits_only_sys_exit E (-1) _ w1 h
    refine ⟨probes buf k ++ es, by rw [htr]; simp [World.logs], ?_⟩
    intro e he
    rcases List.mem_append.1 he with he | he
    · exact probes_writes_nothing buf k e he
    · exact hes e he

/-- Witness for C13: `write (0, "hi", 2)` by the only process of `demo_world`. -/
theorem stdin_write_is_fatal_witness :
    (sys_write demo_kernel 0 40 2 (demo_world demo_mem [] 2)).returned = false ∧
    ∃ w1, sys_write demo_kernel 0 40 2 (demo_world demo_mem [] 2) = Outcome.exited (-1) w1 :=
  ⟨(stdin_write_is_fatal demo_kernel 40 2 (demo_world demo_mem [] 2) (by decide)
      (by decide)).2.1,
    (stdin_write_is_fatal demo_kernel 40 2 (demo_world demo_mem [] 2) (by decide)
      (by decide)).2.2.2.2.1 (by decide)⟩

/-! ## Bytes handed to the storage engine by write -/

/-- C15 (violated by the code): `sys_write (3, 63, 2)` on an open descriptor,
with a NUL in the last user byte 63: `check_str` validates the single byte 63,
and the handler passes the source range 63..64 to `file_write`, although address
64 is `PHYS_BASE`; the call returns 2.  In the same way `sys_write (3, 42, 2)`
passes the range 42..43 after validating byte 42 only, although byte 43 is
unmapped. -/
theorem write_passes_unvalidated_bytes :
    (sys_write demo_kernel 3 63 2 (demo_world demo_mem [{ fd := 3, file := 100 }] 4)).result =
      some 2 ∧
    (sys_write demo_kernel 3 63 2 (demo_world demo_mem [{ fd := 3, file := 100 }] 4)).world.map
      (fun w => w.trace) =
      some [Event.get_user 63, Event.lock_acquire 1, Event.file_write 100 63 2,
        Event.lock_release 1] ∧
    ¬ byte_ok demo_kernel (demo_world demo_mem [{ fd := 3, file := 100 }] 4) (63 + 2 - 1) ∧
    (sys_write demo_kernel 3 42 2 (demo_world demo_mem [{ fd := 3, file := 100 }] 4)).world.map
      (fun w => w.trace) =
      some [Event.get_user 42, Event.lock_acquire 1, Event.file_write 100 42 2,
        Event.lock_release 1] ∧
    ¬ byte_ok demo_kernel (demo_world demo_mem [{ fd := 3, file := 100 }] 4) (42 + 2 - 1) :=
  ⟨by rfl, by rfl, by decide, by rfl, by decide⟩

/-! ## Lock discipline -/

theorem lock_run_append (es es2 : List Event) :
    ∀ (h0 h1 h2 : Bool), lock_run h0 es = some h1 → lock_run h1 es2 = some h2 →
      lock_run h0 (es ++ es2) = some h2 := by
  induction es with
  | nil =>
    intro h0 h1 h2 ha hb
    simp only [lock_run, Option.some.injEq] at ha
    subst ha
    exact hb
  | cons e es ih =>
    intro h0 h1 h2 ha hb
    simp only [lock_run, List.cons_append] at ha ⊢
    cases hs : lock_step h0 e with
    | none => rw [hs] at ha; simp at ha
    | some h =>
      rw [hs] at ha
      exact ih h h1 h2 ha hb

theorem lock_end_refl (w : World σ) (h : Bool) (hw : w.lock = some w.cur ↔ h = true) :
    lock_end w w h h :=
  ⟨rfl, hw, [], by simp, rfl⟩

theorem lock_end_trans (w w1 w2 : World σ) (h0 h1 h2 : Bool) (ha : lock_end w w1 h0 h1)
    (hb : lock_end w1 w2 h1 h2) : lock_end w w2 h0 h2 := by
  obtain ⟨hc, _, es, htr, hrun⟩ := ha
  obtain ⟨hc2, hl2, es2, htr2, hrun2⟩ := hb
  exact ⟨hc2.trans hc, hl2, es ++ es2, by rw [htr2, htr, List.append_assoc],
    lock_run_append es es2 h0 h1 h2 hrun hrun2⟩

theorem lock_disciplined_pure {α : Type} (a : α) (h : Bool) :
    lock_disciplined (pure a : K σ α) h h :=
  fun w hw => lock_end_refl w h hw

theorem lock_disciplined_bind {α β : Type} (m : K σ α) (f : α → K σ β) (h0 h1 h2 : Bool)
    (hm : lock_disciplined m h0 h1) (hf : ∀ a, lock_disciplined (f a) h1 h2) :
    lock_disciplined (m >>= f) h0 h2 := by
  intro w hw
  have h := hm w hw
  simp only [K.bind_apply]
  cases hmw : m w with
  | ret a w1 =>
    rw [hmw] at h
    simp only [Outcome.bind_ret]
    have h2 := hf a w1 h.2.1
    cases hfw : f a w1 with
    | ret b w2 => rw [hfw] at h2; exact lock_end_trans _ _ _ _ _ _ h h2
    | exited s w2 => rw [hfw] at h2; exact lock_end_trans _ _ _ _ _ _ h h2
    | halted w2 => rw [hfw] at h2; exact lock_end_trans _ _ _ _ _ _ h h2
    | panic w2 => rw [hfw] at h2; exact lock_end_trans _ _ _ _ _ _ h h2
    | blocked w2 => rw [hfw] at h2; exact lock_end_trans _ _ _ _ _ _ h h2
    | diverge => trivial
  | exited s w1 => rw [hmw] at h; exact h
  | halted w1 => rw [hmw] at h; exact h
  | panic w1 => rw [hmw] at h; exact h
  | blocked w1 => rw [hmw] at h; exact h
  | diverge => trivial

theorem lock_disciplined_get_world (h : Bool) :
    lock_disciplined (get_world : K σ (World σ)) h h :=
  fun w hw => lock_end_refl w h hw

/-- A step that always returns, keeps the running thread and the lock holder,
and records one event the monitor accepts without changing its state. -/
theorem lock_disciplined_step {α : Type} (m : K σ α) (h : Bool)
    (hm : ∀ w, ∃ a w1 e, m w = Outcome.ret a w1 ∧ w1.cur = w.cur ∧ w1.lock = w.lock ∧
      w1.trace = w.trace ++ [e] ∧ lock_step h e = some h) :
    lock_disciplined m h h := by
  intro w hw
  obtain ⟨a, w1, e, hr, hc, hl, htr, hs⟩ := hm w
  rw [hr]
  exact ⟨hc, by rw [hl, hc]; exact hw, [e], htr, by simp [lock_run, hs]⟩

theorem lock_disciplined_emit (e : Event) (h : Bool) (he : lock_step h e = some h) :
    lock_disciplined (emit e : K σ Unit) h h :=
  lock_disciplined_step _ h (fun _ => ⟨(), _, e, rfl, rfl, rfl, rfl, he⟩)

theorem lock_disciplined_get_user (uaddr : Nat) (h : Bool) :
    lock_disciplined (get_user uaddr : K σ Int) h h :=
  lock_disciplined_step _ h (fun _ => ⟨_, _, Event.get_user uaddr, rfl, rfl, rfl, rfl, by
    cases h <;> rfl⟩)

theorem lock_disciplined_put_user (udst byte : Nat) (h : Bool) :
    lock_disciplined (put_user udst byte : K σ Bool) h h := by
  apply lock_disciplined_step
  intro w
  by_cases hc : ((w.me.pcb.pagedir udst).isSome && w.me.pcb.writable udst) = true
  · refine ⟨true, (w.set_pcb w.cur
      { w.me.pcb with pagedir := fun a => if a = udst then some (byte % 256)
                                          else w.me.pcb.pagedir a }).log
        (Event.put_user udst (byte % 256) true), Event.put_user udst (byte % 256) true, ?_,
      rfl, rfl, rfl, by cases h <;> rfl⟩
    simp only [put_user, hc, if_true]
  · refine ⟨false, w.log (Event.put_user udst (byte % 256) false),
      Event.put_user udst (byte % 256) false, ?_, rfl, rfl, rfl, by cases h <;> rfl⟩
    simp only [put_user, hc]
    rfl

theorem lock_disciplined_storage {α : Type} (m : K σ α)
    (hm : ∀ w, ∃ a w1 e, m w = Outcome.ret a w1 ∧ w1.cur = w.cur ∧ w1.lock = w.lock ∧
      w1.trace = w.trace ++ [e] ∧ e.is_storage = true ∧ (∀ t, e ≠ Event.lock_acquire t) ∧
      (∀ t, e ≠ Event.lock_release t)) :
    lock_disciplined m true true := by
  apply lock_disciplined_step
  intro w
  obtain ⟨a, w1, e, hr, hc, hl, htr, hs, _, _⟩ := hm w
  refine ⟨a, w1, e, hr, hc, hl, htr, ?_⟩
  cases e <;> simp_all [lock_step, Event.is_storage]

theorem lock_disciplined_lock_acquire :
    lock_disciplined (lock_acquire : K σ Unit) false true := by
  intro w hw
  cases hl : w.lock with
  | none =>
    simp only [lock_acquire, hl]
    exact ⟨rfl, by simp [World.log], [Event.lock_acquire w.cur], rfl, rfl⟩
  | some t =>
    have hne : t ≠ w.cur := by
      intro ht
      rw [hl, ht] at hw
      simp at hw
    simp only [lock_acquire, hl, hne, if_false]
    exact ⟨rfl, by rw [hl]; simp [hne], [], by simp, rfl⟩

theorem lock_disciplined_lock_release :
    lock_disciplined (lock_release : K σ Unit) true false := by
  intro w hw
  have hl : w.lock = some w.cur := hw.2 rfl
  simp only [lock_release, hl, if_true]
  exact ⟨rfl, by simp [World.log], [Event.lock_release w.cur], rfl, rfl⟩

theorem lock_disciplined_stop {α : Type} (m : K σ α) (h1 : Bool)
    (hm : ∀ w, m w = Outcome.panic w) : lock_disciplined m false h1 := by
  intro w hw
  rw [hm w]
  exact lock_end_refl w false hw

theorem lock_disciplined_orphan_children (t : Int) (l : List child_status) :
    lock_disciplined (orphan_children t l : K σ Unit) false false := by
  induction l with
  | nil => exact lock_disciplined_pure () false
  | cons cs rest ih =>
    intro w hw
    cases hch : cs.child with
    | none =>
      simp only [orphan_children, hch]
      exact lock_end_refl w false hw
    | some c =>
      simp only [orphan_children, hch]
      have h := ih (((w.set_thread c { w.threads c with parent := none }).log
        (Event.orphan c)).set_thread t
          { ((w.set_thread c { w.threads c with parent := none }).log
              (Event.orphan c)).threads t with child_exit_status := rest }) hw
      have hstep : lock_end w (((w.set_thread c { w.threads c with parent := none }).log
        (Event.orphan c)).set_thread t
          { ((w.set_thread c { w.threads c with parent := none }).log
              (Event.orphan c)).threads t with child_exit_status := rest }) false false :=
        ⟨rfl, hw, [Event.orphan c], rfl, rfl⟩
      revert h
      generalize orphan_children t rest _ = o
      intro h
      cases o with
      | ret b w2 => exact lock_end_trans _ _ _ _ _ _ hstep h
      | exited s w2 => exact lock_end_trans _ _ _ _ _ _ hstep h
      | halted w2 => exact lock_end_trans _ _ _ _ _ _ hstep h
      | panic w2 => exact lock_end_trans _ _ _ _ _ _ hstep h
      | blocked w2 => exact lock_end_trans _ _ _ _ _ _ hstep h
      | diverge => trivial

theorem lock_disciplined_notify_parent (t : Int) (s : Int) :
    lock_disciplined (notify_parent t s : K σ Unit) false false := by
  intro w hw
  rcases notify_parent_cases t s w with ⟨w1, hn⟩ | hn
  · obtain ⟨htr, _, hc, hl, _⟩ := notify_parent_effect t s w w1 hn
    rw [hn]
    refine ⟨hc, by rw [hl, hc]; exact hw, _, htr, ?_⟩
    cases (w.threads t).parent <;> rfl
  · rw [hn]
    exact lock_end_refl w false hw

theorem lock_disciplined_file_close (E : Kernel σ) (file : Nat) :
    lock_disciplined (file_close E file) true true :=
  lock_disciplined_storage _ (fun _ => ⟨(), _, Event.file_close file, rfl, rfl, rfl, rfl, rfl,
    by simp, by simp⟩)

theorem lock_run_closes (l : List file_info) :
    lock_run true (l.map (fun e => Event.file_close e.file)) = some true := by
  induction l with
  | nil => rfl
  | cons e l ih => simpa [lock_run, lock_step, Event.is_storage] using ih

theorem lock_disciplined_close_all (E : Kernel σ) (t : Int) (l : List file_info) :
    lock_disciplined (close_all E t l) true true := by
  intro w hw
  obtain ⟨w1, hc, htr⟩ := close_all_frame_trace E t l w
  obtain ⟨w2, hc2, hcur, hlock, _⟩ := close_all_frame E t l w
  rw [hc] at hc2
  simp only [Outcome.ret.injEq, true_and] at hc2
  subst hc2
  rw [hc]
  exact ⟨hcur, by rw [hlock, hcur]; exact hw, _, htr, lock_run_closes l⟩

theorem lock_disciplined_process_exit (s : Int) (h1 : Bool) :
    lock_disciplined (process_exit s : K σ Unit) false h1 := by
  intro w hw
  exact ⟨rfl, hw, [Event.process_exit w.cur], rfl, rfl⟩

theorem lock_disciplined_sys_exit (E : Kernel σ) (s : Int) (h1 : Bool) :
    lock_disciplined (sys_exit E s) false h1 := by
  unfold sys_exit
  refine lock_disciplined_bind _ _ _ _ _ (lock_disciplined_get_world _) (fun _ => ?_)
  refine lock_disciplined_bind _ _ _ _ _ (lock_disciplined_emit _ _ rfl) (fun _ => ?_)
  refine lock_disciplined_bind _ _ _ _ _ (lock_disciplined_orphan_children _ _) (fun _ => ?_)
  refine lock_disciplined_bind _ _ _ _ _ (lock_disciplined_notify_parent _ _) (fun _ => ?_)
  refine lock_disciplined_bind _ _ _ _ _ lock_disciplined_lock_acquire (fun _ => ?_)
  refine lock_disciplined_bind _ _ _ _ _ (lock_disciplined_get_world _) (fun _ => ?_)
  refine lock_disciplined_bind _ _ _ _ _ (lock_disciplined_file_close _ _) (fun _ => ?_)
  refine lock_disciplined_bind _ _ _ _ _ (lock_disciplined_get_world _) (fun _ => ?_)
  refine lock_disciplined_bind _ _ _ _ _ (lock_disciplined_close_all _ _ _) (fun _ => ?_)
  refine lock_disciplined_bind _ _ _ _ _ lock_disciplined_lock_release (fun _ => ?_)
  exact lock_disciplined_process_exit _ _

theorem lock_disciplined_check_str_loop (E : Kernel σ) (fuel : Nat) :
    ∀ ptr, lock_disciplined (check_str_loop E fuel ptr) false false := by
  induction fuel with
  | zero => intro ptr w _; trivial
  | succ fuel ih =>
    intro ptr
    rw [check_str_loop]
    split_ifs with hge
    · exact lock_disciplined_pure _ _
    · refine lock_disciplined_bind _ _ _ _ _ (lock_disciplined_get_user _ _) (fun val => ?_)
      split_ifs
      · exact lock_disciplined_pure _ _
      · exact lock_disciplined_pure _ _
      · exact ih _

theorem lock_disciplined_check_str (E : Kernel σ) (ptr : Nat) :
    lock_disciplined (check_str E ptr) false false := by
  unfold check_str
  refine lock_disciplined_bind _ _ _ _ _ (lock_disciplined_check_str_loop E _ ptr) (fun ok => ?_)
  cases ok
  · exact lock_disciplined_sys_exit E (-1) false
  · exact lock_disciplined_pure _ _

theorem lock_disciplined_copy_out (buffer : Nat) (l : List Nat) :
    ∀ i, lock_disciplined (copy_out buffer i l : K σ Bool) false false := by
  induction l with
  | nil => intro i; exact lock_disciplined_pure _ _
  | cons b bs ih =>
    intro i
    rw [copy_out]
    refine lock_disciplined_bind _ _ _ _ _ (lock_disciplined_put_user _ _ _) (fun ok => ?_)
    cases ok
    · exact lock_disciplined_pure _ _
    · exact ih _

theorem Outcome.lock_ok_base {α : Type} (o : Outcome σ α) (w v : World σ) (h0 h1 : Bool)
    (hc : v.cur = w.cur) (ht : v.trace = w.trace) (h : o.lock_ok v h0 h1) :
    o.lock_ok w h0 h1 := by
  have hend : ∀ (w1 : World σ) (b : Bool), lock_end v w1 h0 b → lock_end w w1 h0 b := by
    intro w1 b hb
    obtain ⟨h1c, h1l, es, htr, hrun⟩ := hb
    exact ⟨h1c.trans hc, h1l, es, by rw [htr, ht], hrun⟩
  cases o with
  | ret a w1 => exact hend _ _ h
  | exited s w1 => exact hend _ _ h
  | halted w1 => exact hend _ _ h
  | panic w1 => exact hend _ _ h
  | blocked w1 => exact hend _ _ h
  | diverge => trivial

theorem lock_disciplined_update {β : Type} (g : World σ → World σ) (k : World σ → K σ β)
    (h0 h1 : Bool)
    (hg : ∀ w, (g w).cur = w.cur ∧ (g w).lock = w.lock ∧ (g w).trace = w.trace)
    (hk : ∀ a, lock_disciplined (k a) h0 h1) :
    lock_disciplined (get_world >>= fun w1 => set_world (g w1) >>= fun _ => k w1) h0 h1 := by
  intro w hw
  simp only [K.bind_apply, get_world, set_world, Outcome.bind_ret]
  exact Outcome.lock_ok_base _ w (g w) h0 h1 (hg w).1 (hg w).2.2
    (hk w (g w) (by rw [(hg w).2.1, (hg w).1]; exact hw))

theorem lock_disciplined_update_last (g : World σ → World σ) (h : Bool)
    (hg : ∀ w, (g w).cur = w.cur ∧ (g w).lock = w.lock ∧ (g w).trace = w.trace) :
    lock_disciplined (get_world >>= fun w1 => set_world (g w1)) h h := by
  intro w hw
  simp only [K.bind_apply, get_world, set_world, Outcome.bind_ret]
  exact ⟨(hg w).1, by rw [(hg w).2.1, (hg w).1]; exact hw, [], by simp [(hg w).2.2], rfl⟩

theorem lock_disciplined_filesys_create (E : Kernel σ) (file size : Nat) :
    lock_disciplined (filesys_create E file size) true true :=
  lock_disciplined_storage _ (fun _ => ⟨_, _, Event.filesys_create file size, rfl, rfl, rfl,
    rfl, rfl, by simp, by simp⟩)

theorem lock_disciplined_filesys_remove (E : Kernel σ) (file : Nat) :
    lock_disciplined (filesys_remove E file) true true :=
  lock_disciplined_storage _ (fun _ => ⟨_, _, Event.filesys_remove file, rfl, rfl, rfl,
    rfl, rfl, by simp, by simp⟩)

theorem lock_disciplined_filesys_open (E : Kernel σ) (file : Nat) :
    lock_disciplined (filesys_open E file) true true :=
  lock_disciplined_storage _ (fun _ => ⟨_, _, Event.filesys_open file, rfl, rfl, rfl,
    rfl, rfl, by simp, by simp⟩)

theorem lock_disciplined_file_length (E : Kernel σ) (file : Nat) :
    lock_disciplined (file_length E file) true true :=
  lock_disciplined_storage _ (fun _ => ⟨_, _, Event.file_length file, rfl, rfl, rfl,
    rfl, rfl, by simp, by simp⟩)

theorem lock_disciplined_file_read (E : Kernel σ) (file size : Nat) :
    lock_disciplined (file_read E file size) true true :=
  lock_disciplined_storage _ (fun _ => ⟨_, _, Event.file_read file size, rfl, rfl, rfl,
    rfl, rfl, by simp, by simp⟩)

theorem lock_disciplined_file_write (E : Kernel σ) (file buffer size : Nat) :
    lock_disciplined (file_write E file buffer size) true true :=
  lock_disciplined_storage _ (fun _ => ⟨_, _, Event.file_write file buffer size, rfl, rfl, rfl,
    rfl, rfl, by simp, by simp⟩)

theorem lock_disciplined_file_seek (E : Kernel σ) (file pos : Nat) :
    lock_disciplined (file_seek E file pos) true true :=
  lock_disciplined_storage _ (fun _ => ⟨_, _, Event.file_seek file pos, rfl, rfl, rfl,
    rfl, rfl, by simp, by simp⟩)

theorem lock_disciplined_file_tell (E : Kernel σ) (file : Nat) :
    lock_disciplined (file_tell E file) true true :=
  lock_disciplined_storage _ (fun _ => ⟨_, _, Event.file_tell file, rfl, rfl, rfl,
    rfl, rfl, by simp, by simp⟩)

/-- A storage call bracketed by the lock. -/
theorem lock_disciplined_locked {α β : Type} (m : K σ α) (k : α → K σ β)
    (hm : lock_disciplined m true true) (hk : ∀ a, lock_disciplined (k a) false false) :
    lock_disciplined (lock_acquire >>= fun _ => m >>= fun a => lock_release >>= fun _ => k a)
      false false :=
  lock_disciplined_bind _ _ _ _ _ lock_disciplined_lock_acquire (fun _ =>
    lock_disciplined_bind _ _ _ _ _ hm (fun a =>
      lock_disciplined_bind _ _ _ _ _ lock_disciplined_lock_release (fun _ => hk a)))

theorem lock_disciplined_sys_create (E : Kernel σ) (file size : Nat) :
    lock_disciplined (sys_create E file size) false false := by
  unfold sys_create
  refine lock_disciplined_bind _ _ _ _ _ (lock_disciplined_check_str E file) (fun _ => ?_)
  exact lock_disciplined_locked _ _ (lock_disciplined_filesys_create E file size)
    (fun _ => lock_disciplined_pure _ _)

theorem lock_disciplined_sys_remove (E : Kernel σ) (file : Nat) :
    lock_disciplined (sys_remove E file) false false := by
  unfold sys_remove
  refine lock_disciplined_bind _ _ _ _ _ (lock_disciplined_check_str E file) (fun _ => ?_)
  exact lock_disciplined_locked _ _ (lock_disciplined_filesys_remove E file)
    (fun _ => lock_disciplined_pure _ _)

theorem lock_disciplined_sys_open (E : Kernel σ) (file : Nat) :
    lock_disciplined (sys_open E file) false false := by
  unfold sys_open
  refine lock_disciplined_bind _ _ _ _ _ (lock_disciplined_check_str E file) (fun _ => ?_)
  refine lock_disciplined_bind _ _ _ _ _ (lock_disciplined_get_world _) (fun w => ?_)
  refine lock_disciplined_bind _ _ _ _ _ lock_disciplined_lock_acquire (fun _ => ?_)
  refine lock_disciplined_bind _ _ _ _ _ (lock_disciplined_filesys_open E file) (fun f => ?_)
  cases f with
  | none =>
    exact lock_disciplined_bind _ _ _ _ _ lock_disciplined_lock_release
      (fun _ => lock_disciplined_pure _ _)
  | some h =>
    exact lock_disciplined_update
      (fun w1 => w1.set_pcb w.cur
        { (w1.threads w.cur).pcb with
          next_fd := to_int32 (to_u32 ((w1.threads w.cur).pcb.next_fd + 1)),
          fd_list := { fd := (w1.threads w.cur).pcb.next_fd, file := h } ::
            (w1.threads w.cur).pcb.fd_list })
      (fun w1 => lock_release >>= fun _ => pure (w1.threads w.cur).pcb.next_fd) true false
      (fun _ => ⟨rfl, rfl, rfl⟩)
      (fun _ => lock_disciplined_bind _ _ _ _ _ lock_disciplined_lock_release
        (fun _ => lock_disciplined_pure _ _))

theorem lock_disciplined_sys_filesize (E : Kernel σ) (fd : Int) :
    lock_disciplined (sys_filesize E fd) false false := by
  unfold sys_filesize
  refine lock_disciplined_bind _ _ _ _ _ (lock_disciplined_get_world _) (fun w => ?_)
  cases get_fd w.me.pcb fd with
  | none => exact lock_disciplined_pure _ _
  | some f_info =>
    exact lock_disciplined_locked _ _ (lock_disciplined_file_length E _)
      (fun _ => lock_disciplined_pure _ _)

theorem lock_disciplined_sys_read (E : Kernel σ) (fd : Int) (buffer size : Nat) :
    lock_disciplined (sys_read E fd buffer size) false false := by
  unfold sys_read
  refine lock_disciplined_bind _ _ _ _ _ (lock_disciplined_check_str E buffer) (fun _ => ?_)
  refine lock_disciplined_bind _ _ _ _ _ (lock_disciplined_get_world _) (fun w => ?_)
  cases get_fd w.me.pcb fd with
  | none => exact lock_disciplined_pure _ _
  | some f_info =>
    refine lock_disciplined_locked _ _ (lock_disciplined_file_read E _ _) (fun tem_buf => ?_)
    refine lock_disciplined_bind _ _ _ _ _ (lock_disciplined_copy_out buffer tem_buf 0)
      (fun ok => ?_)
    cases ok
    · exact lock_disciplined_pure _ _
    · exact lock_disciplined_pure _ _

theorem lock_disciplined_sys_write (E : Kernel σ) (fd : Int) (buffer size : Nat) :
    lock_disciplined (sys_write E fd buffer size) false false := by
  unfold sys_write
  refine lock_disciplined_bind _ _ _ _ _ (lock_disciplined_check_str E buffer) (fun _ => ?_)
  refine lock_disciplined_bind _ _ _ _ _ (?_ : lock_disciplined _ false false) (fun _ => ?_)
  · split_ifs
    · exact lock_disciplined_sys_exit E (-1) false
    · exact lock_disciplined_pure _ _
  · split_ifs
    · refine lock_disciplined_bind _ _ _ _ _ (lock_disciplined_get_world _) (fun w => ?_)
      cases cstring w.me.pcb.pagedir 4294967296 buffer with
      | none => exact lock_disciplined_stop _ _ (fun _ => rfl)
      | some s =>
        exact lock_disciplined_bind _ _ _ _ _ (lock_disciplined_emit _ _ rfl)
          (fun _ => lock_disciplined_pure _ _)
    · refine lock_disciplined_bind _ _ _ _ _ (lock_disciplined_get_world _) (fun w => ?_)
      cases get_fd w.me.pcb fd with
      | none => exact lock_disciplined_pure _ _
      | some f_info =>
        exact lock_disciplined_locked _ _ (lock_disciplined_file_write E _ _ _)
          (fun _ => lock_disciplined_pure _ _)

theorem lock_disciplined_sys_seek (E : Kernel σ) (fd : Int) (position : Nat) :
    lock_disciplined (sys_seek E fd position) false false := by
  unfold sys_seek
  refine lock_disciplined_bind _ _ _ _ _ (lock_disciplined_get_world _) (fun w => ?_)
  cases get_fd w.me.pcb fd with
  | none => exact lock_disciplined_pure _ _
  | some f_info =>
    exact lock_disciplined_bind _ _ _ _ _ lock_disciplined_lock_acquire (fun _ =>
      lock_disciplined_bind _ _ _ _ _ (lock_disciplined_file_seek E _ _) (fun _ =>
        lock_disciplined_lock_release))

theorem lock_disciplined_sys_tell (E : Kernel σ) (fd : Int) :
    lock_disciplined (sys_tell E fd) false false := by
  unfold sys_tell
  refine lock_disciplined_bind _ _ _ _ _ (lock_disciplined_get_world _) (fun w => ?_)
  cases get_fd w.me.pcb fd with
  | none => exact lock_disciplined_pure _ _
  | some f_info =>
    exact lock_disciplined_locked _ _ (lock_disciplined_file_tell E _)
      (fun _ => lock_disciplined_pure _ _)

theorem lock_disciplined_sys_close (E : Kernel σ) (fd : Int) :
    lock_disciplined (sys_close E fd) false false := by
  unfold sys_close
  refine lock_disciplined_bind _ _ _ _ _ (lock_disciplined_get_world _) (fun w => ?_)
  cases get_fd w.me.pcb fd with
  | none => exact lock_disciplined_pure _ _
  | some f_info =>
    refine lock_disciplined_bind _ _ _ _ _ lock_disciplined_lock_acquire (fun _ => ?_)
    refine lock_disciplined_bind _ _ _ _ _ (lock_disciplined_file_close E _) (fun _ => ?_)
    refine lock_disciplined_bind _ _ _ _ _ lock_disciplined_lock_release (fun _ => ?_)
    exact lock_disciplined_update_last
      (fun w1 => w1.set_pcb w.cur
        { (w1.threads w.cur).pcb with fd_list := remove_fd (w1.threads w.cur).pcb.fd_list fd })
      false (fun _ => ⟨rfl, rfl, rfl⟩)

/-- C17: lock discipline.  Each of the handlers `sys_exit`, `sys_create`,
`sys_remove`, `sys_open`, `sys_filesize`, `sys_read`, `sys_write`, `sys_seek`,
`sys_tell` and `sys_close`, called with any arguments in any state in which the
caller does not hold `sys_file_lock`, obeys the lock discipline on every path:
the events it adds pass the monitor `lock_run` from the state "not held" (every
call into the storage engine is made while the lock is held, the lock is
acquired only when not held and released only when held), and whether the
handler returns, terminates the process, stops the kernel or puts the thread to
sleep, the monitor ends in the state "not held" and the caller does not hold the
lock in the final state. -/
theorem handlers_lock_discipline (E : Kernel σ) :
    (∀ s, lock_disciplined (sys_exit E s) false false) ∧
    (∀ file size, lock_disciplined (sys_create E file size) false false) ∧
    (∀ file, lock_disciplined (sys_remove E file) false false) ∧
    (∀ file, lock_disciplined (sys_open E file) false false) ∧
    (∀ fd, lock_disciplined (sys_filesize E fd) false false) ∧
    (∀ fd buffer size, lock_disciplined (sys_read E fd buffer size) false false) ∧
    (∀ fd buffer size, lock_disciplined (sys_write E fd buffer size) false false) ∧
    (∀ fd position, lock_disciplined (sys_seek E fd position) false false) ∧
    (∀ fd, lock_disciplined (sys_tell E fd) false false) ∧
    (∀ fd, lock_disciplined (sys_close E fd) false false) :=
  ⟨fun s => lock_disciplined_sys_exit E s false, lock_disciplined_sys_create E,
    lock_disciplined_sys_remove E, lock_disciplined_sys_open E, lock_disciplined_sys_filesize E,
    lock_disciplined_sys_read E, lock_disciplined_sys_write E, lock_disciplined_sys_seek E,
    lock_disciplined_sys_tell E, lock_disciplined_sys_close E⟩

/-- Witness for C17: a failed open (the name "hi" does not exist) and a write to
an unknown descriptor by the only process of `demo_world`, which does not hold
the lock. -/
theorem handlers_lock_discipline_witness :
    (sys_open demo_kernel 40 (demo_world demo_mem [] 2)).lock_ok (demo_world demo_mem [] 2)
      false false ∧
    (sys_write demo_kernel 5 40 2 (demo_world demo_mem [] 2)).lock_ok (demo_world demo_mem [] 2)
      false false :=
  ⟨(handlers_lock_discipline demo_kernel).2.2.2.1 40 (demo_world demo_mem [] 2) (by decide),
    (handlers_lock_discipline demo_kernel).2.2.2.2.2.2.1 5 40 2 (demo_world demo_mem [] 2)
      (by decide)⟩

end Primitives

end Pintos
